import Mathlib

/-!
# Dependency-diff report rendering (scorecard-action, package `dependencydiff`)

A shallow embedding of the report renderer and of the check-run annotation
builder, followed by theorems about them.

The sources hold two versions of the renderer, `output.go` and
`comment_markdown.go`; they are embedded separately, in the namespaces
`Output` and `CommentMarkdown`.  What both use (the data model, Go maps,
`getDependencySortKeys`, the tags, `sort.SliceStable`) is embedded once.

Modelling conventions.
* A Go pointer field is an `Option`.
* `float64` scores are the rationals `ℚ`: only finite values are modelled, and
  comparison and equality of finite floats agree with those of `ℚ`.
* A Go `map[string]T` is an association list with distinct keys.  The order in
  which `range` visits the keys is not fixed by Go; it is chosen by the
  environment (`Env.mapRange`).
* What is outside this repository (the scorecard library, the deps.dev lookup,
  `strings.ToLower`, `url.PathEscape`) is a field of `Env`.
* A function returning `(T, error)` returns `Except`; a nil-pointer dereference
  is the failure `Failure.nilDereference`.
-/

namespace DependencyDiff

/-! ## Data model -/

/-- The Go type `pkg.ChangeType`, a string type. -/
abbrev ChangeType := String

/-- The constant `pkg.Added`. -/
def Added : ChangeType := "added"

/-- The constant `pkg.Removed`. -/
def Removed : ChangeType := "removed"

/-- The constant `pkg.Updated`. -/
def Updated : ChangeType := "updated"

/-- One check of a scorecard result (`checker.CheckResult`): the fields read here. -/
structure CheckResult where
  Name : String
  Score : Int
  Reason : String
deriving DecidableEq, Repr

/-- The assessment of one dependency (`pkg.ScorecardResult`): the field read here. -/
structure ScorecardResult where
  Checks : List CheckResult
deriving DecidableEq, Repr

/-- The record `pkg.DependencyCheckResult`.  `ScorecardResult` stands for the
pointer `ScorecardResultWithError.ScorecardResult`. -/
structure DependencyCheckResult where
  ChangeType : Option ChangeType
  SourceRepository : Option String
  ManifestPath : Option String
  Ecosystem : Option String
  Version : Option String
  ScorecardResult : Option DependencyDiff.ScorecardResult
  Name : String
deriving DecidableEq, Repr

/-- The Go zero value of `pkg.DependencyCheckResult`, which indexing a map at a
missing key returns. -/
def DependencyCheckResult.zero : DependencyCheckResult :=
  ⟨none, none, none, none, none, none, ""⟩

/-- How a call ends when it does not return a value: with a Go `error`, or in
the run-time panic of dereferencing a nil pointer. -/
inductive Failure where
  | error (msg : String)
  | nilDereference
deriving DecidableEq, Repr

/-- Equality of the results of fallible calls is decidable. -/
instance instDecidableEqExcept {ε α : Type} [DecidableEq ε] [DecidableEq α] :
    DecidableEq (Except ε α)
  | .ok a, .ok b => if h : a = b then isTrue (by rw [h]) else isFalse (fun e => h (by cases e; rfl))
  | .error a, .error b =>
    if h : a = b then isTrue (by rw [h]) else isFalse (fun e => h (by cases e; rfl))
  | .ok _, .error _ => isFalse (fun e => by cases e)
  | .error _, .ok _ => isFalse (fun e => by cases e)

/-! ## Go maps -/

/-- A `map[string]pkg.DependencyCheckResult`: an association list, keys distinct. -/
abbrev GoMap := List (String × DependencyCheckResult)

/-- The two-valued index expression `v, ok := m[k]`. -/
def GoMap.get? : GoMap → String → Option DependencyCheckResult
  | [], _ => none
  | (k', v) :: rest, k => if k' = k then some v else GoMap.get? rest k

/-- The assignment `m[k] = v`. -/
def GoMap.set : GoMap → String → DependencyCheckResult → GoMap
  | [], k, v => [(k, v)]
  | (k', v') :: rest, k, v =>
    if k' = k then (k, v) :: rest else (k', v') :: GoMap.set rest k v

/-- The keys of a map. -/
def GoMap.keys (m : GoMap) : List String := m.map Prod.fst

/-- The one-valued index expression `m[k]`: the zero value at a missing key. -/
def GoMap.index (m : GoMap) (k : String) : DependencyCheckResult :=
  (m.get? k).getD DependencyCheckResult.zero

/-! ## Environment -/

/-- What the renderer calls outside this repository. -/
structure Env where
  /-- The type of the check documentation returned by `docs.Read`. -/
  Doc : Type
  /-- The call `docs.Read()`. -/
  docsRead : Except String Doc
  /-- The method `(*pkg.ScorecardResult).GetAggregateScore`. -/
  getAggregateScore : ScorecardResult → Doc → Except String ℚ
  /-- The order in which `for k := range m` visits the keys of `m`. -/
  mapRange : GoMap → List String
  /-- The deps.dev lookup `entryExists(system, name, version)`. -/
  entryExists : String → String → String → Except String Bool
  /-- The function `strings.ToLower`. -/
  toLower : String → String
  /-- The function `url.PathEscape`. -/
  pathEscape : String → String
  /-- The text `fmt.Sprintln(scResult)` of a scorecard result. -/
  sprintln : ScorecardResult → String

/-- The environment ranges over a map as Go does: every key once, in some order. -/
def Env.Valid (env : Env) : Prop :=
  ∀ m : GoMap, (env.mapRange m).Perm m.keys

/-- The environment `env` with another order of `range`. -/
def Env.withRange (env : Env) (range : GoMap → List String) : Env :=
  ⟨env.Doc, env.docsRead, env.getAggregateScore, range, env.entryExists, env.toLower,
    env.pathEscape, env.sprintln⟩

/-! ## Scores and their text -/

/-- The largest finite `float64`, `math.MaxFloat64 = (2^53 - 1) * 2^971`. -/
def maxFloat64 : Nat := (2 ^ 53 - 1) <<< 971

/-- The constant `negInf = -math.MaxFloat64`. -/
def negInf : ℚ := Rat.ofInt (Int.negOfNat maxFloat64)

/-- The constant `checker.InconclusiveResultScore` of the scorecard library. -/
def InconclusiveResultScore : ℚ := -1

/-- The verb `%.1f` of `fmt.Sprintf` on a finite value: the nearest multiple of
one tenth, ties to the even one, with the sign of the value. -/
def formatF1 (q : ℚ) : String :=
  let n := q.num.natAbs * 10
  let t := n / q.den
  let r := n % q.den
  let u := if 2 * r > q.den ∨ (2 * r = q.den ∧ t % 2 = 1) then t + 1 else t
  (if q.num < 0 then "-" else "") ++ toString (u / 10) ++ "." ++ toString (u % 10)

/-- The struct `scoreAndDependencyName`. -/
structure scoreAndDependencyName where
  dependencyName : String
  aggregateScore : ℚ
deriving DecidableEq, Repr

/-! ## Shared code of `output.go` -/

/-- The function `addedTag`. -/
def addedTag : String := " :sparkles: **`added`** "

/-- The function `updatedTag`. -/
def updatedTag : String := " **`updated`** "

/-- The function `removedTag`. -/
def removedTag : String := " ~~**`removed`**~~ "

/-- The function `scoreTag`. -/
def scoreTag (score : ℚ) : String :=
  if score = negInf then "" else "`Aggregate Score: " ++ formatF1 score ++ "` "

/-- The body of the loop `for _, d := range depdiffResults` (output.go, lines 34-47). -/
def classifyStep (maps : GoMap × GoMap) (d : DependencyCheckResult) : GoMap × GoMap :=
  match d.ChangeType with
  | none => maps
  | some ct =>
    if ct = Added then (maps.1.set d.Name d, maps.2)
    else if ct = Removed then (maps.1, maps.2.set d.Name d)
    else maps

/-- The classification of output.go, lines 32-47: the maps `added` and `removed`. -/
def classify (depdiffResults : List DependencyCheckResult) : GoMap × GoMap :=
  depdiffResults.foldl classifyStep ([], [])

/-- Modelled from the spec: `dependencySliceToMaps`, which comment_markdown.go
calls and whose body is not in the sources, is the `classify` of section 4.1:
a record whose change kind is Added is inserted into `added` under its name, one
whose change kind is Removed into `removed` under its name, every other record
is skipped; the last record written under a name is the one kept. -/
def dependencySliceToMaps (depdiffResults : List DependencyCheckResult) : GoMap × GoMap :=
  depdiffResults.foldl
    (fun maps d =>
      if d.ChangeType = some Added then (maps.1.set d.Name d, maps.2)
      else if d.ChangeType = some Removed then (maps.1, maps.2.set d.Name d)
      else maps)
    ([], [])

/-- The loop `for k := range dcMap` of `getDependencySortKeys`, over the keys in
the order `range` yields them. -/
def sortKeysLoop (env : Env) (doc : env.Doc) (dcMap : GoMap) :
    List String → List scoreAndDependencyName → Except Failure (List scoreAndDependencyName)
  | [], sortKeys => .ok sortKeys
  | k :: ks, sortKeys =>
    match (dcMap.index k).ScorecardResult with
    | none => sortKeysLoop env doc dcMap ks (sortKeys ++ [⟨(dcMap.index k).Name, negInf⟩])
    | some scResults =>
      match env.getAggregateScore scResults doc with
      | .error err => .error (.error ("error getting the aggregate score: " ++ err))
      | .ok score => sortKeysLoop env doc dcMap ks (sortKeys ++ [⟨(dcMap.index k).Name, score⟩])

/-- The function `getDependencySortKeys`. -/
def getDependencySortKeys (env : Env) (dcMap : GoMap) :
    Except Failure (List scoreAndDependencyName) :=
  match env.docsRead with
  | .error err => .error (.error ("error reading docs: " ++ err))
  | .ok doc => sortKeysLoop env doc dcMap (env.mapRange dcMap) []

/-- Insertion of `x` in front of a list sorted by `less`, behind every element
that must come before it. -/
def insertStable {α : Type} (less : α → α → Bool) (x : α) : List α → List α
  | [] => [x]
  | y :: ys => if less y x then y :: insertStable less x ys else x :: y :: ys

/-- The call `sort.SliceStable(s, less)`: the stable sort of `s` by `less`. -/
def sliceStable {α : Type} (less : α → α → Bool) : List α → List α
  | [] => []
  | x :: xs => insertStable less x (sliceStable less xs)

/-- The `less` closure of both calls of `sort.SliceStable`. -/
def scoreGreater (a b : scoreAndDependencyName) : Bool :=
  decide (a.aggregateScore > b.aggregateScore)

/-- A loop `for _, key := range sortKeys` that appends to `results`: `body`
gives, for a key, `none` when the iteration ends in `continue` and the text of
`current` otherwise. -/
def forKeys (body : scoreAndDependencyName → Except Failure (Option String)) :
    List scoreAndDependencyName → String → Except Failure String
  | [], results => .ok results
  | key :: rest, results =>
    match body key with
    | .error f => .error f
    | .ok none => forKeys body rest results
    | .ok (some current) => forKeys body rest (results ++ (current ++ "\n\n"))

/-- The text `fmt.Sprintf("Dependency-diffs (changes) between ... :\n\n", base, head)`
of both renderers. -/
def referenceLine (base head : String) : String :=
  "Dependency-diffs (changes) between the BASE reference `" ++ base ++
    "` and the HEAD reference `" ++ head ++ "`:\n\n"

/-- The text that `fmt.Sprintln` ends with a line break when `results` is empty. -/
def noChangesLine : String := "No dependency changes found."

/-! ## The renderer of `output.go` -/

namespace Output

/-- The constant `experimentalFeature` of output.go. -/
def experimentalFeature : String :=
  "\n\t> This is an experimental feature of the [Scorecard Action](https://github.com/ossf/scorecard-action). \n" ++
  "\tThe [scores](https://github.com/ossf/scorecard#scoring) are aggregate scores calculated by the checks specified in the workflow file. \n" ++
  "\tPlease refer to [Scorecard Checks](https://github.com/ossf/scorecard#scorecard-checks) for more details.\n" ++
  "\tSee deps.dev for a more comprehensive view of your dependencies.\n\t"

/-- The function `packageAsMarkdown` of output.go. -/
def packageAsMarkdown (name : String) (version srcRepo : Option String)
    (changeType : Option ChangeType) : Except Failure String :=
  let result := "" ++ (" " ++ name)
  let result := match srcRepo with
    | some repo => "[" ++ result ++ "]" ++ "(" ++ repo ++ ")"
    | none => result
  let result := match version with
    | some v => result ++ (" @ " ++ v)
    | none => result
  match changeType with
  | none => .error .nilDereference
  | some ct =>
    if ct = Added then .ok (result ++ " (new) ")
    else if ct = Removed then .ok (result ++ " (old) ")
    else .ok result

/-- One iteration of the loop over `addedSortKeys` (output.go, lines 66-87). -/
def addedEntry (added removed : GoMap) (key : scoreAndDependencyName) :
    Except Failure (Option String) :=
  let dName := key.dependencyName
  match added.get? dName with
  | none => .ok none
  | some newResult =>
    let current := addedTag
    let current := if (removed.get? dName).isSome then current ++ updatedTag else current
    let current := current ++ scoreTag key.aggregateScore
    match packageAsMarkdown newResult.Name newResult.Version newResult.SourceRepository
        newResult.ChangeType with
    | .error f => .error f
    | .ok fragment =>
      let current := current ++ fragment
      match removed.get? dName with
      | none => .ok (some current)
      | some oldResult =>
        match packageAsMarkdown oldResult.Name oldResult.Version oldResult.SourceRepository
            oldResult.ChangeType with
        | .error f => .error f
        | .ok oldFragment => .ok (some (current ++ oldFragment))

/-- One iteration of the loop over `removedSortKeys` (output.go, lines 88-104). -/
def removedEntry (added removed : GoMap) (key : scoreAndDependencyName) :
    Except Failure (Option String) :=
  let dName := key.dependencyName
  if (added.get? dName).isSome then .ok none
  else
    match removed.get? dName with
    | none => .ok none
    | some oldResult =>
      let current := removedTag
      let current := current ++ scoreTag key.aggregateScore
      match packageAsMarkdown oldResult.Name oldResult.Version oldResult.SourceRepository
          oldResult.ChangeType with
      | .error f => .error f
      | .ok fragment => .ok (some (current ++ fragment))

/-- The title with which `out` starts (output.go, line 106): no line break ends it. -/
def titleLine : String :=
  "# [Scorecard Action](https://github.com/ossf/scorecard-action) Dependency-diff Report"

/-- The assembly of the report from `results` (output.go, lines 106-116). -/
def assemble (results base head : String) : String :=
  let out := titleLine
  let out := out ++ referenceLine base head
  if results = "" then out ++ (noChangesLine ++ "\n")
  else out ++ (results ++ "\n")

/-- The function `dependencydiffResultsAsMarkdown` of output.go. -/
def dependencydiffResultsAsMarkdown (env : Env) (depdiffResults : List DependencyCheckResult)
    (base head : String) : Except Failure String :=
  let added := (classify depdiffResults).1
  let removed := (classify depdiffResults).2
  match getDependencySortKeys env added with
  | .error err => .error err
  | .ok addedSortKeys =>
    match getDependencySortKeys env removed with
    | .error err => .error err
    | .ok removedSortKeys =>
      let addedSortKeys := sliceStable scoreGreater addedSortKeys
      let removedSortKeys := sliceStable scoreGreater removedSortKeys
      match forKeys (addedEntry added removed) addedSortKeys "" with
      | .error f => .error f
      | .ok results =>
        match forKeys (removedEntry added removed) removedSortKeys results with
        | .error f => .error f
        | .ok results => .ok (assemble results base head)

end Output

/-! ## The renderer of `comment_markdown.go` -/

namespace CommentMarkdown

/-- The call `strings.Trim(s, " ")`: `s` without its leading and trailing spaces. -/
def trimSpaces (s : String) : String :=
  String.mk ((s.data.dropWhile (fun c => c == ' ')).reverse.dropWhile (fun c => c == ' ')).reverse

/-- The function `packageAsMarkdown` of comment_markdown.go. -/
def packageAsMarkdown (name : String) (version srcRepo : Option String)
    (changeType : Option ChangeType) : Except Failure String :=
  let result := "" ++ (" " ++ name)
  let result := match srcRepo with
    | some repo => "[" ++ result ++ "]" ++ "(" ++ repo ++ ")"
    | none => result
  let result := match version with
    | some v => result ++ (" @ " ++ v)
    | none => result
  match changeType with
  | none => .error .nilDereference
  | some ct =>
    if ct = Removed then .ok (" ~~" ++ trimSpaces result ++ "~~ ")
    else .ok result

/-- The function `experimentalFeature` of comment_markdown.go. -/
def experimentalFeature : String :=
  "> This is an experimental feature of the [Scorecard Action](https://github.com/ossf/scorecard-action). " ++
  "The [scores](https://github.com/ossf/scorecard#scoring) are aggregate scores calculated by the checks specified in the workflow file. " ++
  "Please refer to [Scorecard Checks](https://github.com/ossf/scorecard#scorecard-checks) for more details. " ++
  "Please also see the corresponding [deps.dev](https://deps.dev/) tag for a more comprehensive view of your dependencies."

/-- The function `depsDevTag`. -/
def depsDevTag (env : Env) (system name : String) : String :=
  let url := "https://deps.dev/" ++ env.pathEscape (env.toLower system) ++ "/" ++
    env.pathEscape (env.toLower name)
  " **`[deps.dev](" ++ url ++ ")`** "

/-- Lines 113-121 of comment_markdown.go: what the deps.dev lookup appends to
`current`, the empty text when nothing is appended. -/
def depsDevPart (env : Env) (newResult : DependencyCheckResult) : Except Failure String :=
  match newResult.Ecosystem, newResult.Version with
  | some ecosystem, some version =>
    match env.entryExists ecosystem newResult.Name version with
    | .error err => .error (.error err)
    | .ok true => .ok (depsDevTag env ecosystem newResult.Name)
    | .ok false => .ok ""
  | _, _ => .ok ""

/-- One iteration of the loop over `addedSortKeys` (comment_markdown.go, lines 102-133). -/
def addedEntry (env : Env) (added removed : GoMap) (key : scoreAndDependencyName) :
    Except Failure (Option String) :=
  let dName := key.dependencyName
  match added.get? dName with
  | none => .ok none
  | some newResult =>
    let current := addedTag
    let current := if (removed.get? dName).isSome then current ++ updatedTag else current
    match depsDevPart env newResult with
    | .error f => .error f
    | .ok tag =>
      let current := current ++ tag
      let current := current ++ scoreTag key.aggregateScore
      match packageAsMarkdown newResult.Name newResult.Version newResult.SourceRepository
          newResult.ChangeType with
      | .error f => .error f
      | .ok fragment =>
        let current := current ++ fragment
        match removed.get? dName with
        | none => .ok (some current)
        | some oldResult =>
          match packageAsMarkdown oldResult.Name oldResult.Version oldResult.SourceRepository
              oldResult.ChangeType with
          | .error f => .error f
          | .ok oldFragment => .ok (some (current ++ oldFragment))

/-- One iteration of the loop over `removedSortKeys` (comment_markdown.go, lines 134-152). -/
def removedEntry (added removed : GoMap) (key : scoreAndDependencyName) :
    Except Failure (Option String) :=
  let dName := key.dependencyName
  if (added.get? dName).isSome then .ok none
  else
    match removed.get? dName with
    | none => .ok none
    | some oldResult =>
      let current := removedTag
      let current :=
        if key.aggregateScore ≠ InconclusiveResultScore then current ++ scoreTag key.aggregateScore
        else current
      match packageAsMarkdown oldResult.Name oldResult.Version oldResult.SourceRepository
          oldResult.ChangeType with
      | .error f => .error f
      | .ok fragment => .ok (some (current ++ fragment))

/-- The title with which `out` starts (comment_markdown.go, line 154). -/
def titleLine : String :=
  "# [Scorecard Action](https://github.com/ossf/scorecard-action) Dependency-diff Report\n\n"

/-- The assembly of the report from `results` (comment_markdown.go, lines 154-165). -/
def assemble (results base head : String) : String :=
  let out := titleLine
  let out := out ++ referenceLine base head
  let out := if results = "" then out ++ (noChangesLine ++ "\n")
    else out ++ (results ++ "\n")
  out ++ experimentalFeature

/-- The function `dependencydiffResultsAsMarkdown` of comment_markdown.go. -/
def dependencydiffResultsAsMarkdown (env : Env) (depdiffResults : List DependencyCheckResult)
    (base head : String) : Except Failure String :=
  let added := (dependencySliceToMaps depdiffResults).1
  let removed := (dependencySliceToMaps depdiffResults).2
  match getDependencySortKeys env added with
  | .error err => .error err
  | .ok addedSortKeys =>
    match getDependencySortKeys env removed with
    | .error err => .error err
    | .ok removedSortKeys =>
      let addedSortKeys := sliceStable scoreGreater addedSortKeys
      let removedSortKeys := sliceStable scoreGreater removedSortKeys
      match forKeys (addedEntry env added removed) addedSortKeys "" with
      | .error f => .error f
      | .ok results =>
        match forKeys (removedEntry added removed) removedSortKeys results with
        | .error f => .error f
        | .ok results => .ok (assemble results base head)

end CommentMarkdown

/-! ## Check-run annotations (`annotations.go`) -/

/-- The struct `github.CheckRunAnnotation`: the fields set here. -/
structure CheckRunAnnotation where
  Path : Option String
  StartLine : Option Int
  EndLine : Option Int
  AnnotationLevel : Option String
  Title : Option String
  Message : Option String
  RawDetails : Option String
deriving DecidableEq, Repr

/-- The body of the loop of `createAnnotations` (lines 74-109): the value of `a`
at the end of the iteration for the record `d`. -/
def annotationOf (env : Env) (doc : env.Doc) (d : DependencyCheckResult) :
    Except String CheckRunAnnotation :=
  let title := match d.ChangeType, d.Version with
    | some ct, some v => ct ++ " dependency: " ++ d.Name ++ " @ " ++ v
    | _, _ => d.Name
  match d.ScorecardResult with
  | none => .ok ⟨d.ManifestPath, some 1, some 1, some "notice", some title, none, none⟩
  | some scResult =>
    match env.getAggregateScore scResult doc with
    | .error err => .error ("error getting the aggregate score: " ++ err)
    | .ok aggregateScore =>
      let msg := "Scorecard check results: \n"
      let msg := msg ++ ("Aggregate Score: " ++ formatF1 aggregateScore ++ "\n")
      let msg := scResult.Checks.foldl
        (fun msg c => msg ++ ("Check name: " ++ c.Name ++ ", score: " ++
          formatF1 (c.Score : ℚ) ++ ", reason: " ++ c.Reason ++ "\n")) msg
      .ok ⟨d.ManifestPath, some 1, some 1, some "notice", some title, some msg,
        some (env.sprintln scResult)⟩

/-- The loop `for _, d := range deps` of `createAnnotations`: each iteration
builds `a` and ends without appending it to `annotations`. -/
def annotationsLoop (env : Env) (doc : env.Doc) :
    List DependencyCheckResult → List CheckRunAnnotation → Except String (List CheckRunAnnotation)
  | [], annotations => .ok annotations
  | d :: rest, annotations =>
    match annotationOf env doc d with
    | .error err => .error err
    | .ok _ => annotationsLoop env doc rest annotations

/-- The function `createAnnotations`. -/
def createAnnotations (env : Env) (deps : List DependencyCheckResult) :
    Except String (List CheckRunAnnotation) :=
  match env.docsRead with
  | .error err => .error ("error getting the check doc: " ++ err)
  | .ok doc => annotationsLoop env doc deps []

/-! ## Views used to state the theorems -/

/-- The aggregate score `getDependencySortKeys` computes for a record: the
sentinel `negInf` when the record has no assessment. -/
def rankOf (env : Env) (doc : env.Doc) (d : DependencyCheckResult) : Except String ℚ :=
  match d.ScorecardResult with
  | none => .ok negInf
  | some scResults => env.getAggregateScore scResults doc

/-- The entries a loop `forKeys body` appends, in order, each with the sort key
of its iteration. -/
def entriesOf (body : scoreAndDependencyName → Except Failure (Option String))
    (keys : List scoreAndDependencyName) : List (scoreAndDependencyName × String) :=
  keys.filterMap (fun key =>
    match body key with
    | .ok (some current) => some (key, current)
    | _ => none)

/-- The text `results` after the entries `entries` were appended to the empty text. -/
def concatEntries (entries : List String) : String :=
  entries.foldl (fun results current => results ++ (current ++ "\n\n")) ""

/-- Every record of the map is stored under its own name. -/
def GoMap.WellKeyed (m : GoMap) : Prop :=
  ∀ n d, m.get? n = some d → d.Name = n

/-- The text `results` at the end of both loops, from the entries of each. -/
def reportBody (addedEntries removedEntries : List (scoreAndDependencyName × String)) : String :=
  concatEntries (addedEntries.map Prod.snd ++ removedEntries.map Prod.snd)

/-- The entries the first loop of output.go appends, from the unsorted keys. -/
def Output.addedEntries (added removed : GoMap) (addedSortKeys : List scoreAndDependencyName) :
    List (scoreAndDependencyName × String) :=
  entriesOf (Output.addedEntry added removed) (sliceStable scoreGreater addedSortKeys)

/-- The entries the second loop of output.go appends, from the unsorted keys. -/
def Output.removedEntries (added removed : GoMap) (removedSortKeys : List scoreAndDependencyName) :
    List (scoreAndDependencyName × String) :=
  entriesOf (Output.removedEntry added removed) (sliceStable scoreGreater removedSortKeys)

/-- The entries the first loop of comment_markdown.go appends, from the unsorted keys. -/
def CommentMarkdown.addedEntries (env : Env) (added removed : GoMap)
    (addedSortKeys : List scoreAndDependencyName) : List (scoreAndDependencyName × String) :=
  entriesOf (CommentMarkdown.addedEntry env added removed) (sliceStable scoreGreater addedSortKeys)

/-- The entries the second loop of comment_markdown.go appends, from the unsorted keys. -/
def CommentMarkdown.removedEntries (added removed : GoMap)
    (removedSortKeys : List scoreAndDependencyName) : List (scoreAndDependencyName × String) :=
  entriesOf (CommentMarkdown.removedEntry added removed) (sliceStable scoreGreater removedSortKeys)

/-- The record `d` with its assessment replaced by `assessment` when `d` is a
Removed record of the name `n`; any other record is left as it is. -/
def withRemovedAssessment (n : String) (assessment : ScorecardResult)
    (d : DependencyCheckResult) : DependencyCheckResult :=
  if d.ChangeType = some Removed ∧ d.Name = n then
    ⟨d.ChangeType, d.SourceRepository, d.ManifestPath, d.Ecosystem, d.Version, some assessment,
      d.Name⟩
  else d

/-- The input `depdiffResults` with the assessment of the removed-side records of
the name `n` replaced by `assessment`. -/
def replaceRemovedAssessment (n : String) (assessment : ScorecardResult)
    (depdiffResults : List DependencyCheckResult) : List DependencyCheckResult :=
  depdiffResults.map (withRemovedAssessment n assessment)

/-- The map `m` with `f` applied to each of its records. -/
def GoMap.mapValues (f : DependencyCheckResult → DependencyCheckResult) (m : GoMap) : GoMap :=
  m.map (fun p => (p.1, f p.2))

/-! ## Sample inputs -/

namespace Sample

/-- A test double of the environment: the documentation is read, the aggregate
score of an assessment is the score of its first check (an error when it has
none), `range` yields the keys in the order of the association list, and the
deps.dev lookup finds every package. -/
def env : Env where
  Doc := Unit
  docsRead := .ok ()
  getAggregateScore := fun sc _ =>
    match sc.Checks with
    | [] => .error "no checks"
    | c :: _ => .ok (c.Score : ℚ)
  mapRange := fun m => m.keys
  entryExists := fun _ _ _ => .ok true
  toLower := fun s => s
  pathEscape := fun s => s
  sprintln := fun _ => "result"

/-- The environment `env` with `range` yielding the keys in the opposite order. -/
def envReversed : Env := env.withRange (fun m => m.keys.reverse)

/-- An assessment whose aggregate score in `env` is `score`. -/
def scored (score : Int) : ScorecardResult := ⟨[⟨"Maintained", score, "checked"⟩]⟩

/-- An added record. -/
def addedDep (name : String) (version : Option String) (score : Option Int) :
    DependencyCheckResult :=
  ⟨some Added, none, some "go.mod", none, version, score.map scored, name⟩

/-- A removed record. -/
def removedDep (name : String) (version : Option String) (score : Option Int) :
    DependencyCheckResult :=
  ⟨some Removed, none, some "go.mod", none, version, score.map scored, name⟩

/-- An update of `foo` and a removal of `bar`. -/
def updateInput : List DependencyCheckResult :=
  [addedDep "foo" (some "2.0") (some 5), removedDep "foo" (some "1.0") (some 9),
    removedDep "bar" none none]

/-- The report of output.go for `updateInput`. -/
def updateReport : String :=
  "# [Scorecard Action](https://github.com/ossf/scorecard-action) Dependency-diff Report" ++
  "Dependency-diffs (changes) between the BASE reference `main` and the HEAD reference `dev`:\n\n" ++
  " :sparkles: **`added`**  **`updated`** `Aggregate Score: 5.0`  foo @ 2.0 (new)  foo @ 1.0 (old) \n\n" ++
  " ~~**`removed`**~~  bar (old) \n\n\n"

/-- The report of comment_markdown.go for `updateInput`. -/
def updateComment : String :=
  "# [Scorecard Action](https://github.com/ossf/scorecard-action) Dependency-diff Report\n\n" ++
  "Dependency-diffs (changes) between the BASE reference `main` and the HEAD reference `dev`:\n\n" ++
  " :sparkles: **`added`**  **`updated`** `Aggregate Score: 5.0`  foo @ 2.0 ~~foo @ 1.0~~ \n\n" ++
  " ~~**`removed`**~~  ~~bar~~ \n\n\n" ++ CommentMarkdown.experimentalFeature

/-- Three added dependencies: scores 2 and 9, and one without assessment. -/
def rankedInput : List DependencyCheckResult :=
  [addedDep "hi" none (some 2), addedDep "lo" none none, addedDep "top" none (some 9)]

/-- The report of output.go for `rankedInput`. -/
def rankedReport : String :=
  "# [Scorecard Action](https://github.com/ossf/scorecard-action) Dependency-diff Report" ++
  "Dependency-diffs (changes) between the BASE reference `main` and the HEAD reference `dev`:\n\n" ++
  " :sparkles: **`added`** `Aggregate Score: 9.0`  top (new) \n\n" ++
  " :sparkles: **`added`** `Aggregate Score: 2.0`  hi (new) \n\n" ++
  " :sparkles: **`added`**  lo (new) \n\n\n"

/-- The report of comment_markdown.go for `rankedInput`. -/
def rankedComment : String :=
  "# [Scorecard Action](https://github.com/ossf/scorecard-action) Dependency-diff Report\n\n" ++
  "Dependency-diffs (changes) between the BASE reference `main` and the HEAD reference `dev`:\n\n" ++
  " :sparkles: **`added`** `Aggregate Score: 9.0`  top\n\n" ++
  " :sparkles: **`added`** `Aggregate Score: 2.0`  hi\n\n" ++
  " :sparkles: **`added`**  lo\n\n\n" ++ CommentMarkdown.experimentalFeature

/-- Two added dependencies without assessment: equal aggregate scores. -/
def tiedInput : List DependencyCheckResult :=
  [addedDep "a" none none, addedDep "b" none none]

/-- The report of output.go for `tiedInput` when `range` yields `a` before `b`. -/
def tiedReport : String :=
  "# [Scorecard Action](https://github.com/ossf/scorecard-action) Dependency-diff Report" ++
  "Dependency-diffs (changes) between the BASE reference `main` and the HEAD reference `dev`:\n\n" ++
  " :sparkles: **`added`**  a (new) \n\n" ++
  " :sparkles: **`added`**  b (new) \n\n\n"

/-- The report of output.go for `tiedInput` when `range` yields `b` before `a`. -/
def tiedReportReversed : String :=
  "# [Scorecard Action](https://github.com/ossf/scorecard-action) Dependency-diff Report" ++
  "Dependency-diffs (changes) between the BASE reference `main` and the HEAD reference `dev`:\n\n" ++
  " :sparkles: **`added`**  b (new) \n\n" ++
  " :sparkles: **`added`**  a (new) \n\n\n"

/-- A removed record whose assessment has no check: its score fails in `env`. -/
def unscoredDep (name : String) : DependencyCheckResult :=
  ⟨some Removed, none, some "go.mod", none, none, some ⟨[]⟩, name⟩

/-- An added record that scores 5, then a removed record whose score fails. -/
def failingInput : List DependencyCheckResult :=
  [addedDep "good" none (some 5), unscoredDep "bad"]

/-- The report of output.go for the empty input. -/
def emptyReport : String :=
  "# [Scorecard Action](https://github.com/ossf/scorecard-action) Dependency-diff Report" ++
  "Dependency-diffs (changes) between the BASE reference `main` and the HEAD reference `dev`:\n\n" ++
  "No dependency changes found.\n"

/-- The report of comment_markdown.go for the empty input. -/
def emptyComment : String :=
  "# [Scorecard Action](https://github.com/ossf/scorecard-action) Dependency-diff Report\n\n" ++
  "Dependency-diffs (changes) between the BASE reference `main` and the HEAD reference `dev`:\n\n" ++
  "No dependency changes found.\n" ++ CommentMarkdown.experimentalFeature

/-- A removed record whose assessment has the inconclusive score. -/
def inconclusiveInput : List DependencyCheckResult :=
  [removedDep "z" none (some (-1))]

/-- The report of comment_markdown.go for `inconclusiveInput`: no score tag. -/
def inconclusiveComment : String :=
  "# [Scorecard Action](https://github.com/ossf/scorecard-action) Dependency-diff Report\n\n" ++
  "Dependency-diffs (changes) between the BASE reference `main` and the HEAD reference `dev`:\n\n" ++
  " ~~**`removed`**~~  ~~z~~ \n\n\n" ++ CommentMarkdown.experimentalFeature

/-- The report of output.go for `inconclusiveInput`: a score tag. -/
def inconclusiveReport : String :=
  "# [Scorecard Action](https://github.com/ossf/scorecard-action) Dependency-diff Report" ++
  "Dependency-diffs (changes) between the BASE reference `main` and the HEAD reference `dev`:\n\n" ++
  " ~~**`removed`**~~ `Aggregate Score: -1.0`  z (old) \n\n\n"

/-- The environment `env` with an order of `range` that depends on the records of
the map: the order of the association list when the record under `foo` has the
assessment scoring 9, the opposite order otherwise. -/
def envByAssessment : Env :=
  env.withRange (fun m =>
    if (m.index "foo").ScorecardResult = some (scored 9) then m.keys else m.keys.reverse)

/-- An update of `foo`, whose removed side scores 9, and the removals of `a` and
`b`, both without assessment. -/
def replacedInput : List DependencyCheckResult :=
  [addedDep "foo" none (some 5), removedDep "foo" none (some 9), removedDep "a" none none,
    removedDep "b" none none]

/-- An update of `foo` whose added record has an ecosystem and a version. -/
def ecosystemInput : List DependencyCheckResult :=
  [⟨some Added, none, some "package.json", some "npm", some "2.0", some (scored 5), "foo"⟩,
    removedDep "foo" (some "1.0") (some 9)]

/-- A record without change kind, an added record and a removed record. -/
def mixedInput : List DependencyCheckResult :=
  [⟨none, none, none, none, none, none, "ghost"⟩, addedDep "foo" none (some 5),
    removedDep "bar" none none]

/-- The report of output.go for `replacedInput` in `envByAssessment`. -/
def replacedReport : String :=
  "# [Scorecard Action](https://github.com/ossf/scorecard-action) Dependency-diff Report" ++
  "Dependency-diffs (changes) between the BASE reference `main` and the HEAD reference `dev`:\n\n" ++
  " :sparkles: **`added`**  **`updated`** `Aggregate Score: 5.0`  foo (new)  foo (old) \n\n" ++
  " ~~**`removed`**~~  a (old) \n\n" ++
  " ~~**`removed`**~~  b (old) \n\n\n"

/-- The report of output.go in `envByAssessment` for `replacedInput` with the
removed-side assessment of `foo` replaced by one that scores 1. -/
def replacedReportAfter : String :=
  "# [Scorecard Action](https://github.com/ossf/scorecard-action) Dependency-diff Report" ++
  "Dependency-diffs (changes) between the BASE reference `main` and the HEAD reference `dev`:\n\n" ++
  " :sparkles: **`added`**  **`updated`** `Aggregate Score: 5.0`  foo (new)  foo (old) \n\n" ++
  " ~~**`removed`**~~  b (old) \n\n" ++
  " ~~**`removed`**~~  a (old) \n\n\n"

/-- The report of comment_markdown.go for `ecosystemInput`. -/
def ecosystemComment : String :=
  "# [Scorecard Action](https://github.com/ossf/scorecard-action) Dependency-diff Report\n\n" ++
  "Dependency-diffs (changes) between the BASE reference `main` and the HEAD reference `dev`:\n\n" ++
  " :sparkles: **`added`**  **`updated`**  **`[deps.dev](https://deps.dev/npm/foo)`** " ++
  "`Aggregate Score: 5.0`  foo @ 2.0 ~~foo @ 1.0~~ \n\n\n" ++ CommentMarkdown.experimentalFeature

end Sample

end DependencyDiff

namespace DependencyDiff

set_option maxRecDepth 100000

/-! ## Lemmas on Go maps -/

theorem GoMap.get?_set (m : GoMap) (k k' : String) (v : DependencyCheckResult) :
    (m.set k v).get? k' = if k = k' then some v else m.get? k' := by
  induction m with
  | nil => simp [GoMap.set, GoMap.get?]
  | cons p rest ih =>
    obtain ⟨k0, v0⟩ := p
    by_cases h : k0 = k
    · subst h
      by_cases h' : k0 = k' <;> simp [GoMap.set, GoMap.get?, h']
    · by_cases h' : k0 = k'
      · subst h'
        have : ¬ k = k0 := fun e => h e.symm
        simp [GoMap.set, GoMap.get?, h, this]
      · simp [GoMap.set, GoMap.get?, h, h', ih]

theorem GoMap.mem_keys_iff (m : GoMap) (k : String) :
    k ∈ m.keys ↔ (m.get? k).isSome = true := by
  induction m with
  | nil => simp [GoMap.keys, GoMap.get?]
  | cons p rest ih =>
    obtain ⟨k0, v0⟩ := p
    by_cases h : k0 = k
    · simp [GoMap.keys, GoMap.get?, h]
    · have h' : ¬ k = k0 := fun e => h e.symm
      have ih' : k ∈ List.map Prod.fst rest ↔ (GoMap.get? rest k).isSome = true := ih
      simp only [GoMap.keys, GoMap.get?, h, List.map_cons, List.mem_cons, h', false_or, if_false]
      exact ih'

theorem GoMap.get?_eq_none_iff (m : GoMap) (k : String) :
    m.get? k = none ↔ k ∉ m.keys := by
  rw [GoMap.mem_keys_iff]
  cases m.get? k <;> simp

theorem GoMap.keys_set (m : GoMap) (k : String) (v : DependencyCheckResult) :
    (m.set k v).keys = if k ∈ m.keys then m.keys else m.keys ++ [k] := by
  induction m with
  | nil => simp [GoMap.set, GoMap.keys]
  | cons p rest ih =>
    obtain ⟨k0, v0⟩ := p
    have ih' : List.map Prod.fst (GoMap.set rest k v) =
        if k ∈ List.map Prod.fst rest then List.map Prod.fst rest
        else List.map Prod.fst rest ++ [k] := ih
    by_cases h : k0 = k
    · subst h
      simp [GoMap.set, GoMap.keys]
    · have h' : ¬ k = k0 := fun e => h e.symm
      simp only [GoMap.set, GoMap.keys, h, if_false, List.map_cons, List.mem_cons, h', false_or,
        ih']
      split <;> simp

theorem GoMap.nodup_keys_set (m : GoMap) (k : String) (v : DependencyCheckResult)
    (h : m.keys.Nodup) : (m.set k v).keys.Nodup := by
  rw [GoMap.keys_set]
  split
  · exact h
  · rename_i hk
    exact List.Nodup.append h (List.nodup_singleton k) (by simpa using hk)

/-! ## Lemmas on the classification -/

theorem getLast?_cons_or {α : Type} (a : α) (l : List α) :
    (a :: l).getLast? = l.getLast?.or (some a) := by
  have h : a :: l = [a] ++ l := rfl
  rw [h, List.getLast?_append]
  simp

theorem classifyStep_fst_get? (maps : GoMap × GoMap) (d : DependencyCheckResult) (n : String) :
    (classifyStep maps d).1.get? n =
      if d.ChangeType = some Added ∧ d.Name = n then some d else maps.1.get? n := by
  unfold classifyStep
  cases hct : d.ChangeType with
  | none => simp
  | some ct =>
    by_cases h1 : ct = Added
    · subst h1
      simp [GoMap.get?_set]
    · by_cases h2 : ct = Removed
      · subst h2
        simp [h1]
      · simp [h1, h2]

theorem classifyStep_snd_get? (maps : GoMap × GoMap) (d : DependencyCheckResult) (n : String) :
    (classifyStep maps d).2.get? n =
      if d.ChangeType = some Removed ∧ d.Name = n then some d else maps.2.get? n := by
  unfold classifyStep
  cases hct : d.ChangeType with
  | none => simp
  | some ct =>
    by_cases h1 : ct = Added
    · subst h1
      have : ¬ Added = Removed := by decide
      simp [this]
    · by_cases h2 : ct = Removed
      · subst h2
        simp [h1, GoMap.get?_set]
      · simp [h1, h2]

theorem foldl_classifyStep_fst (ds : List DependencyCheckResult) (maps : GoMap × GoMap)
    (n : String) :
    (ds.foldl classifyStep maps).1.get? n =
      ((ds.filter (fun d => decide (d.ChangeType = some Added ∧ d.Name = n))).getLast?).or
        (maps.1.get? n) := by
  induction ds generalizing maps with
  | nil => simp
  | cons d ds ih =>
    rw [List.foldl_cons, ih, classifyStep_fst_get?]
    by_cases h : d.ChangeType = some Added ∧ d.Name = n
    · rw [List.filter_cons_of_pos (by simpa using h), getLast?_cons_or, if_pos h]
      cases (List.filter (fun d => decide (d.ChangeType = some Added ∧ d.Name = n)) ds).getLast?
        <;> simp
    · rw [List.filter_cons_of_neg (by simpa using h), if_neg h]

theorem foldl_classifyStep_snd (ds : List DependencyCheckResult) (maps : GoMap × GoMap)
    (n : String) :
    (ds.foldl classifyStep maps).2.get? n =
      ((ds.filter (fun d => decide (d.ChangeType = some Removed ∧ d.Name = n))).getLast?).or
        (maps.2.get? n) := by
  induction ds generalizing maps with
  | nil => simp
  | cons d ds ih =>
    rw [List.foldl_cons, ih, classifyStep_snd_get?]
    by_cases h : d.ChangeType = some Removed ∧ d.Name = n
    · rw [List.filter_cons_of_pos (by simpa using h), getLast?_cons_or, if_pos h]
      cases (List.filter (fun d => decide (d.ChangeType = some Removed ∧ d.Name = n)) ds).getLast?
        <;> simp
    · rw [List.filter_cons_of_neg (by simpa using h), if_neg h]

theorem classify_fst_get? (ds : List DependencyCheckResult) (n : String) :
    (classify ds).1.get? n =
      (ds.filter (fun d => decide (d.ChangeType = some Added ∧ d.Name = n))).getLast? := by
  unfold classify
  rw [foldl_classifyStep_fst]
  simp [GoMap.get?]

theorem classify_snd_get? (ds : List DependencyCheckResult) (n : String) :
    (classify ds).2.get? n =
      (ds.filter (fun d => decide (d.ChangeType = some Removed ∧ d.Name = n))).getLast? := by
  unfold classify
  rw [foldl_classifyStep_snd]
  simp [GoMap.get?]

theorem classifyStep_nodup (maps : GoMap × GoMap) (d : DependencyCheckResult)
    (h : maps.1.keys.Nodup ∧ maps.2.keys.Nodup) :
    (classifyStep maps d).1.keys.Nodup ∧ (classifyStep maps d).2.keys.Nodup := by
  unfold classifyStep
  cases d.ChangeType with
  | none => exact h
  | some ct =>
    by_cases h1 : ct = Added
    · simp only [h1, if_true]
      exact ⟨GoMap.nodup_keys_set _ _ _ h.1, h.2⟩
    · by_cases h2 : ct = Removed
      · simp only [h1, h2, if_true, if_false]
        exact ⟨h.1, GoMap.nodup_keys_set _ _ _ h.2⟩
      · simp only [h1, h2, if_false]
        exact h

theorem foldl_classifyStep_nodup (ds : List DependencyCheckResult) (maps : GoMap × GoMap)
    (h : maps.1.keys.Nodup ∧ maps.2.keys.Nodup) :
    (ds.foldl classifyStep maps).1.keys.Nodup ∧ (ds.foldl classifyStep maps).2.keys.Nodup := by
  induction ds generalizing maps with
  | nil => exact h
  | cons d ds ih => exact ih _ (classifyStep_nodup maps d h)

theorem classify_nodup (ds : List DependencyCheckResult) :
    (classify ds).1.keys.Nodup ∧ (classify ds).2.keys.Nodup :=
  foldl_classifyStep_nodup ds ([], []) ⟨List.nodup_nil, List.nodup_nil⟩

theorem getLast?_filter_isSome {α : Type} (p : α → Bool) (l : List α) :
    ((l.filter p).getLast?).isSome = true ↔ ∃ a ∈ l, p a = true := by
  rw [List.getLast?_isSome]
  constructor
  · intro h
    obtain ⟨a, ha⟩ := List.exists_mem_of_ne_nil _ h
    exact ⟨a, (List.mem_filter.mp ha).1, (List.mem_filter.mp ha).2⟩
  · rintro ⟨a, ha, hp⟩
    exact List.ne_nil_of_mem (List.mem_filter.mpr ⟨ha, hp⟩)

theorem classify_fst_mem_keys (ds : List DependencyCheckResult) (n : String) :
    n ∈ (classify ds).1.keys ↔ ∃ d ∈ ds, d.ChangeType = some Added ∧ d.Name = n := by
  rw [GoMap.mem_keys_iff, classify_fst_get?, getLast?_filter_isSome]
  simp

theorem classify_snd_mem_keys (ds : List DependencyCheckResult) (n : String) :
    n ∈ (classify ds).2.keys ↔ ∃ d ∈ ds, d.ChangeType = some Removed ∧ d.Name = n := by
  rw [GoMap.mem_keys_iff, classify_snd_get?, getLast?_filter_isSome]
  simp

theorem classify_fst_get?_some (ds : List DependencyCheckResult) (n : String)
    (d : DependencyCheckResult) (h : (classify ds).1.get? n = some d) :
    d ∈ ds ∧ d.ChangeType = some Added ∧ d.Name = n := by
  rw [classify_fst_get?] at h
  have hm := List.mem_of_getLast?_eq_some h
  have := List.mem_filter.mp hm
  exact ⟨this.1, by simpa using this.2⟩

theorem classify_snd_get?_some (ds : List DependencyCheckResult) (n : String)
    (d : DependencyCheckResult) (h : (classify ds).2.get? n = some d) :
    d ∈ ds ∧ d.ChangeType = some Removed ∧ d.Name = n := by
  rw [classify_snd_get?] at h
  have hm := List.mem_of_getLast?_eq_some h
  have := List.mem_filter.mp hm
  exact ⟨this.1, by simpa using this.2⟩

theorem classifyStep_of_other (maps : GoMap × GoMap) (d : DependencyCheckResult)
    (h : ¬ (d.ChangeType = some Added ∨ d.ChangeType = some Removed)) :
    classifyStep maps d = maps := by
  unfold classifyStep
  cases hct : d.ChangeType with
  | none => rfl
  | some ct =>
    rw [hct] at h
    have h1 : ¬ ct = Added := fun e => h (Or.inl (by rw [e]))
    have h2 : ¬ ct = Removed := fun e => h (Or.inr (by rw [e]))
    simp [h1, h2]

theorem foldl_classifyStep_filter (ds : List DependencyCheckResult) (maps : GoMap × GoMap) :
    (ds.filter (fun d => decide (d.ChangeType = some Added ∨ d.ChangeType = some Removed))).foldl
      classifyStep maps = ds.foldl classifyStep maps := by
  induction ds generalizing maps with
  | nil => rfl
  | cons d ds ih =>
    by_cases h : d.ChangeType = some Added ∨ d.ChangeType = some Removed
    · rw [List.filter_cons_of_pos (by simpa using h), List.foldl_cons, List.foldl_cons, ih]
    · rw [List.filter_cons_of_neg (by simpa using h), List.foldl_cons, classifyStep_of_other _ _ h,
        ih]

theorem dependencySliceToMaps_eq_classify (ds : List DependencyCheckResult) :
    dependencySliceToMaps ds = classify ds := by
  unfold dependencySliceToMaps classify
  congr 1
  funext maps d
  unfold classifyStep
  cases hct : d.ChangeType with
  | none => simp
  | some ct =>
    by_cases h1 : ct = Added
    · simp [h1]
    · by_cases h2 : ct = Removed <;> simp [h1, h2]

/-! ## C1 -/

/-- C1. Classification is total and partitions by change kind, the last write
winning: `added` maps a name to the last record of the input whose change kind is
Added and whose name it is, `removed` does so for Removed, the keys of either map
are the names of such records and no others, each once, and the records of any
other change kind, or of none, change neither map. -/
theorem classify_last_write_wins (depdiffResults : List DependencyCheckResult) (n : String) :
    (classify depdiffResults).1.get? n =
        (depdiffResults.filter
          (fun d => decide (d.ChangeType = some Added ∧ d.Name = n))).getLast? ∧
    (classify depdiffResults).2.get? n =
        (depdiffResults.filter
          (fun d => decide (d.ChangeType = some Removed ∧ d.Name = n))).getLast? ∧
    (n ∈ (classify depdiffResults).1.keys ↔
        ∃ d ∈ depdiffResults, d.ChangeType = some Added ∧ d.Name = n) ∧
    (n ∈ (classify depdiffResults).2.keys ↔
        ∃ d ∈ depdiffResults, d.ChangeType = some Removed ∧ d.Name = n) ∧
    (classify depdiffResults).1.keys.Nodup ∧ (classify depdiffResults).2.keys.Nodup ∧
    classify (depdiffResults.filter
        (fun d => decide (d.ChangeType = some Added ∨ d.ChangeType = some Removed))) =
      classify depdiffResults :=
  ⟨classify_fst_get? depdiffResults n, classify_snd_get? depdiffResults n,
    classify_fst_mem_keys depdiffResults n, classify_snd_mem_keys depdiffResults n,
    (classify_nodup depdiffResults).1, (classify_nodup depdiffResults).2,
    foldl_classifyStep_filter depdiffResults ([], [])⟩

/-! ## Lemmas on `getDependencySortKeys` -/

theorem sortKeysLoop_ok (env : Env) (doc : env.Doc) (m : GoMap) (ks : List String)
    (acc r : List scoreAndDependencyName) (h : sortKeysLoop env doc m ks acc = .ok r) :
    ∃ r', r = acc ++ r' ∧
      List.Forall₂ (fun k key => key.dependencyName = (m.index k).Name ∧
        rankOf env doc (m.index k) = .ok key.aggregateScore) ks r' := by
  induction ks generalizing acc with
  | nil =>
    simp only [sortKeysLoop, Except.ok.injEq] at h
    exact ⟨[], by simp [h], List.Forall₂.nil⟩
  | cons k ks ih =>
    unfold sortKeysLoop at h
    cases hsc : (m.index k).ScorecardResult with
    | none =>
      simp only [hsc] at h
      obtain ⟨r', hr, hf⟩ := ih _ h
      refine ⟨⟨(m.index k).Name, negInf⟩ :: r', by simp [hr], List.Forall₂.cons ?_ hf⟩
      simp [rankOf, hsc]
    | some sc =>
      simp only [hsc] at h
      cases hs : env.getAggregateScore sc doc with
      | error e => simp [hs] at h
      | ok s =>
        simp only [hs] at h
        obtain ⟨r', hr, hf⟩ := ih _ h
        refine ⟨⟨(m.index k).Name, s⟩ :: r', by simp [hr], List.Forall₂.cons ?_ hf⟩
        simp [rankOf, hsc, hs]

theorem sortKeysLoop_error (env : Env) (doc : env.Doc) (m : GoMap) (ks : List String)
    (acc : List scoreAndDependencyName) (k : String) (e : String) (hk : k ∈ ks)
    (he : rankOf env doc (m.index k) = .error e) :
    ∃ msg, sortKeysLoop env doc m ks acc = .error (.error msg) := by
  induction ks generalizing acc with
  | nil => simp at hk
  | cons k0 ks ih =>
    unfold sortKeysLoop
    cases hsc : (m.index k0).ScorecardResult with
    | none =>
      simp only []
      rcases List.mem_cons.mp hk with h0 | h0
      · subst h0
        simp [rankOf, hsc] at he
      · exact ih _ h0
    | some sc =>
      simp only []
      cases hs : env.getAggregateScore sc doc with
      | error e0 => exact ⟨_, rfl⟩
      | ok s =>
        simp only []
        rcases List.mem_cons.mp hk with h0 | h0
        · subst h0
          simp [rankOf, hsc, hs] at he
        · exact ih _ h0

theorem sortKeysLoop_total (env : Env) (doc : env.Doc) (m : GoMap) (ks : List String)
    (acc : List scoreAndDependencyName) :
    (∃ r, sortKeysLoop env doc m ks acc = .ok r) ∨
      (∃ msg, sortKeysLoop env doc m ks acc = .error (.error msg)) := by
  induction ks generalizing acc with
  | nil => exact Or.inl ⟨_, rfl⟩
  | cons k0 ks ih =>
    unfold sortKeysLoop
    cases hsc : (m.index k0).ScorecardResult with
    | none => exact ih _
    | some sc =>
      simp only []
      cases hs : env.getAggregateScore sc doc with
      | error e0 => exact Or.inr ⟨_, rfl⟩
      | ok s => exact ih _

theorem getDependencySortKeys_ok (env : Env) (m : GoMap) (keys : List scoreAndDependencyName)
    (h : getDependencySortKeys env m = .ok keys) :
    ∃ doc, env.docsRead = .ok doc ∧
      List.Forall₂ (fun k key => key.dependencyName = (m.index k).Name ∧
        rankOf env doc (m.index k) = .ok key.aggregateScore) (env.mapRange m) keys := by
  unfold getDependencySortKeys at h
  cases hd : env.docsRead with
  | error e => simp [hd] at h
  | ok doc =>
    simp only [hd] at h
    obtain ⟨r', hr, hf⟩ := sortKeysLoop_ok env doc m _ _ _ h
    refine ⟨doc, rfl, ?_⟩
    simpa [hr] using hf

theorem getDependencySortKeys_total (env : Env) (m : GoMap) :
    (∃ r, getDependencySortKeys env m = .ok r) ∨
      (∃ msg, getDependencySortKeys env m = .error (.error msg)) := by
  unfold getDependencySortKeys
  cases hd : env.docsRead with
  | error e => exact Or.inr ⟨_, rfl⟩
  | ok doc => exact sortKeysLoop_total env doc m _ _

theorem getDependencySortKeys_error (env : Env) (m : GoMap) (doc : env.Doc) (k e : String)
    (hd : env.docsRead = .ok doc) (hk : k ∈ env.mapRange m)
    (he : rankOf env doc (m.index k) = .error e) :
    ∃ msg, getDependencySortKeys env m = .error (.error msg) := by
  unfold getDependencySortKeys
  rw [hd]
  exact sortKeysLoop_error env doc m _ _ k e hk he

theorem GoMap.index_of_get? (m : GoMap) (k : String) (d : DependencyCheckResult)
    (h : m.get? k = some d) : m.index k = d := by
  simp [GoMap.index, h]

theorem GoMap.exists_get?_of_mem_keys (m : GoMap) (k : String) (h : k ∈ m.keys) :
    ∃ d, m.get? k = some d := by
  rw [GoMap.mem_keys_iff] at h
  exact Option.isSome_iff_exists.mp h

theorem forall₂_names (m : GoMap) (R : String → scoreAndDependencyName → Prop)
    (ks : List String) (keys : List scoreAndDependencyName)
    (hf : List.Forall₂ (fun k key => key.dependencyName = (m.index k).Name ∧ R k key) ks keys)
    (hmem : ∀ k ∈ ks, (m.index k).Name = k) :
    keys.map (fun key => key.dependencyName) = ks := by
  induction hf with
  | nil => rfl
  | cons hab _ ih =>
    simp only [List.map_cons]
    rw [ih (fun k hk => hmem k (List.mem_cons_of_mem _ hk)), hab.1,
      hmem _ (List.mem_cons_self _ _)]

/-- The names of the sort keys are the keys of the map, in the order of `range`. -/
theorem sortKeys_names (env : Env) (hv : env.Valid) (m : GoMap) (hm : m.WellKeyed)
    (keys : List scoreAndDependencyName) (h : getDependencySortKeys env m = .ok keys) :
    keys.map (fun key => key.dependencyName) = env.mapRange m := by
  obtain ⟨doc, _, hf⟩ := getDependencySortKeys_ok env m keys h
  have hmem : ∀ k ∈ env.mapRange m, (m.index k).Name = k := by
    intro k hk
    obtain ⟨d, hd⟩ := m.exists_get?_of_mem_keys k ((hv m).mem_iff.mp hk)
    rw [m.index_of_get? k d hd]
    exact hm k d hd
  exact forall₂_names m _ _ _ hf hmem

/-! ## Lemmas on `sort.SliceStable` -/

theorem insertStable_perm {α : Type} (less : α → α → Bool) (x : α) (l : List α) :
    (insertStable less x l).Perm (x :: l) := by
  induction l with
  | nil => exact List.Perm.refl _
  | cons y ys ih =>
    unfold insertStable
    split
    · exact (List.Perm.cons y ih).trans (List.Perm.swap x y ys)
    · exact List.Perm.refl _

theorem sliceStable_perm {α : Type} (less : α → α → Bool) (l : List α) :
    (sliceStable less l).Perm l := by
  induction l with
  | nil => exact List.Perm.refl _
  | cons x xs ih =>
    unfold sliceStable
    exact (insertStable_perm less x _).trans (List.Perm.cons x ih)

theorem insertStable_sorted (x : scoreAndDependencyName) (l : List scoreAndDependencyName)
    (h : l.Pairwise (fun a b => b.aggregateScore ≤ a.aggregateScore)) :
    (insertStable scoreGreater x l).Pairwise (fun a b => b.aggregateScore ≤ a.aggregateScore) := by
  induction l with
  | nil => simp [insertStable]
  | cons y ys ih =>
    unfold insertStable
    rw [List.pairwise_cons] at h
    by_cases hyx : scoreGreater y x = true
    · rw [if_pos hyx, List.pairwise_cons]
      refine ⟨?_, ih h.2⟩
      intro z hz
      rcases List.mem_cons.mp ((insertStable_perm scoreGreater x ys).mem_iff.mp hz) with hz | hz
      · subst hz
        simp only [scoreGreater, decide_eq_true_eq] at hyx
        exact le_of_lt hyx
      · exact h.1 z hz
    · rw [if_neg hyx, List.pairwise_cons]
      simp only [scoreGreater, decide_eq_true_eq, not_lt] at hyx
      refine ⟨?_, List.pairwise_cons.mpr h⟩
      intro z hz
      rcases List.mem_cons.mp hz with hz | hz
      · subst hz
        exact hyx
      · exact le_trans (h.1 z hz) hyx

/-- The sorted keys are in non-increasing order of aggregate score. -/
theorem sliceStable_sorted (l : List scoreAndDependencyName) :
    (sliceStable scoreGreater l).Pairwise (fun a b => b.aggregateScore ≤ a.aggregateScore) := by
  induction l with
  | nil => simp [sliceStable]
  | cons x xs ih =>
    unfold sliceStable
    exact insertStable_sorted x _ ih

theorem insertStable_filter (s : ℚ) (x : scoreAndDependencyName)
    (l : List scoreAndDependencyName) :
    (insertStable scoreGreater x l).filter (fun a => decide (a.aggregateScore = s)) =
      (x :: l).filter (fun a => decide (a.aggregateScore = s)) := by
  induction l with
  | nil => simp [insertStable]
  | cons y ys ih =>
    unfold insertStable
    by_cases hyx : scoreGreater y x = true
    · rw [if_pos hyx]
      simp only [scoreGreater, decide_eq_true_eq] at hyx
      by_cases hx : x.aggregateScore = s
      · have hy : ¬ y.aggregateScore = s := fun e => by rw [e, hx] at hyx; exact lt_irrefl _ hyx
        rw [List.filter_cons_of_neg (by simpa using hy), ih]
        simp [hx, hy]
      · by_cases hy : y.aggregateScore = s
        · rw [List.filter_cons_of_pos (by simpa using hy), ih]
          simp [hx, hy]
        · rw [List.filter_cons_of_neg (by simpa using hy), ih]
          simp [hx, hy]
    · rw [if_neg hyx]

/-- Stability: the keys of one score keep the order they had before the sort. -/
theorem sliceStable_filter (s : ℚ) (l : List scoreAndDependencyName) :
    (sliceStable scoreGreater l).filter (fun a => decide (a.aggregateScore = s)) =
      l.filter (fun a => decide (a.aggregateScore = s)) := by
  induction l with
  | nil => simp [sliceStable]
  | cons x xs ih =>
    unfold sliceStable
    rw [insertStable_filter]
    by_cases hx : x.aggregateScore = s
    · rw [List.filter_cons_of_pos (by simpa using hx), List.filter_cons_of_pos (by simpa using hx),
        ih]
    · rw [List.filter_cons_of_neg (by simpa using hx), List.filter_cons_of_neg (by simpa using hx),
        ih]

/-! ## Lemmas on the loops over the sort keys -/

theorem foldl_append_entry (l : List String) (acc : String) :
    l.foldl (fun results current => results ++ (current ++ "\n\n")) acc =
      acc ++ concatEntries l := by
  unfold concatEntries
  induction l generalizing acc with
  | nil => simp
  | cons c cs ih =>
    rw [List.foldl_cons, List.foldl_cons, ih, ih ("" ++ (c ++ "\n\n"))]
    simp [String.append_assoc]

theorem concatEntries_nil : concatEntries [] = "" := rfl

theorem concatEntries_cons (c : String) (cs : List String) :
    concatEntries (c :: cs) = (c ++ "\n\n") ++ concatEntries cs := by
  have h := foldl_append_entry cs ("" ++ (c ++ "\n\n"))
  unfold concatEntries at *
  rw [List.foldl_cons, h]
  simp

theorem concatEntries_append (l₁ l₂ : List String) :
    concatEntries (l₁ ++ l₂) = concatEntries l₁ ++ concatEntries l₂ := by
  induction l₁ with
  | nil => simp [concatEntries_nil]
  | cons c cs ih => simp [concatEntries_cons, ih, String.append_assoc]

theorem concatEntries_eq_empty_iff (l : List String) : concatEntries l = "" ↔ l = [] := by
  constructor
  · intro h
    cases l with
    | nil => rfl
    | cons c cs =>
      rw [concatEntries_cons] at h
      have := congrArg String.length h
      simp [String.length_append] at this
      exact absurd this.1.2 (by decide)
  · intro h
    rw [h]
    rfl

theorem entriesOf_cons (body : scoreAndDependencyName → Except Failure (Option String))
    (key : scoreAndDependencyName) (rest : List scoreAndDependencyName) :
    entriesOf body (key :: rest) =
      (match body key with
        | .ok (some current) => [(key, current)]
        | _ => []) ++ entriesOf body rest := by
  unfold entriesOf
  rw [List.filterMap_cons]
  cases body key with
  | error f => rfl
  | ok o => cases o <;> rfl

theorem forKeys_ok (body : scoreAndDependencyName → Except Failure (Option String))
    (keys : List scoreAndDependencyName) (acc r : String) (h : forKeys body keys acc = .ok r) :
    r = acc ++ concatEntries ((entriesOf body keys).map Prod.snd) ∧
      ∀ key ∈ keys, ∃ o, body key = .ok o := by
  induction keys generalizing acc with
  | nil =>
    simp only [forKeys, Except.ok.injEq] at h
    simp [entriesOf, concatEntries_nil, h]
  | cons key rest ih =>
    unfold forKeys at h
    rw [entriesOf_cons]
    cases hb : body key with
    | error f => simp [hb] at h
    | ok o =>
      cases o with
      | none =>
        simp only [hb] at h
        obtain ⟨hr, hall⟩ := ih _ h
        refine ⟨by simpa using hr, ?_⟩
        intro k hk
        rcases List.mem_cons.mp hk with hk | hk
        · subst hk; exact ⟨_, hb⟩
        · exact hall k hk
      | some current =>
        simp only [hb] at h
        obtain ⟨hr, hall⟩ := ih _ h
        refine ⟨?_, ?_⟩
        · rw [hr]
          simp [concatEntries_cons, String.append_assoc]
        · intro k hk
          rcases List.mem_cons.mp hk with hk | hk
          · subst hk; exact ⟨_, hb⟩
          · exact hall k hk

theorem forKeys_of_ok (body : scoreAndDependencyName → Except Failure (Option String))
    (keys : List scoreAndDependencyName) (acc : String)
    (h : ∀ key ∈ keys, ∃ o, body key = .ok o) :
    ∃ r, forKeys body keys acc = .ok r := by
  induction keys generalizing acc with
  | nil => exact ⟨acc, rfl⟩
  | cons key rest ih =>
    unfold forKeys
    obtain ⟨o, ho⟩ := h key (List.mem_cons_self _ _)
    rw [ho]
    cases o with
    | none => exact ih _ (fun k hk => h k (List.mem_cons_of_mem _ hk))
    | some current => exact ih _ (fun k hk => h k (List.mem_cons_of_mem _ hk))

theorem forKeys_error (body : scoreAndDependencyName → Except Failure (Option String))
    (keys : List scoreAndDependencyName) (acc : String) (f : Failure)
    (h : forKeys body keys acc = .error f) :
    ∃ key ∈ keys, body key = .error f := by
  induction keys generalizing acc with
  | nil => simp [forKeys] at h
  | cons key rest ih =>
    unfold forKeys at h
    cases hb : body key with
    | error f0 =>
      simp only [hb, Except.error.injEq] at h
      exact ⟨key, List.mem_cons_self _ _, by rw [hb, h]⟩
    | ok o =>
      cases o with
      | none =>
        simp only [hb] at h
        obtain ⟨k, hk, hbk⟩ := ih _ h
        exact ⟨k, List.mem_cons_of_mem _ hk, hbk⟩
      | some current =>
        simp only [hb] at h
        obtain ⟨k, hk, hbk⟩ := ih _ h
        exact ⟨k, List.mem_cons_of_mem _ hk, hbk⟩

/-! ## Lemmas on the entries -/

theorem mem_entriesOf (body : scoreAndDependencyName → Except Failure (Option String))
    (keys : List scoreAndDependencyName) (e : scoreAndDependencyName × String) :
    e ∈ entriesOf body keys ↔ e.1 ∈ keys ∧ body e.1 = .ok (some e.2) := by
  unfold entriesOf
  rw [List.mem_filterMap]
  constructor
  · rintro ⟨key, hk, hb⟩
    cases hbk : body key with
    | error f => simp [hbk] at hb
    | ok o =>
      cases o with
      | none => simp [hbk] at hb
      | some current =>
        simp only [hbk, Option.some.injEq] at hb
        subst hb
        exact ⟨hk, hbk⟩
  · rintro ⟨hk, hb⟩
    exact ⟨e.1, hk, by simp [hb]⟩

theorem entriesOf_filter (body : scoreAndDependencyName → Except Failure (Option String))
    (p : scoreAndDependencyName → Bool) (keys : List scoreAndDependencyName) :
    (entriesOf body keys).filter (fun e => p e.1) = entriesOf body (keys.filter p) := by
  induction keys with
  | nil => rfl
  | cons key rest ih =>
    rw [entriesOf_cons, List.filter_append, ih]
    by_cases hp : p key = true
    · rw [List.filter_cons_of_pos hp, entriesOf_cons]
      congr 1
      cases hb : body key with
      | error f => rfl
      | ok o => cases o <;> simp [hp]
    · rw [List.filter_cons_of_neg hp]
      cases hb : body key with
      | error f => rfl
      | ok o => cases o <;> simp [hp]

theorem entriesOf_of_all (body : scoreAndDependencyName → Except Failure (Option String))
    (keys : List scoreAndDependencyName)
    (h : ∀ key ∈ keys, ∃ current, body key = .ok (some current)) :
    (entriesOf body keys).map Prod.fst = keys := by
  induction keys with
  | nil => rfl
  | cons key rest ih =>
    rw [entriesOf_cons]
    obtain ⟨current, hc⟩ := h key (List.mem_cons_self _ _)
    rw [hc]
    simp [ih (fun k hk => h k (List.mem_cons_of_mem _ hk))]

theorem entriesOf_of_none (body : scoreAndDependencyName → Except Failure (Option String))
    (keys : List scoreAndDependencyName) (h : ∀ key ∈ keys, body key = .ok none) :
    entriesOf body keys = [] := by
  induction keys with
  | nil => rfl
  | cons key rest ih =>
    rw [entriesOf_cons, h key (List.mem_cons_self _ _),
      ih (fun k hk => h k (List.mem_cons_of_mem _ hk))]
    rfl

theorem entriesOf_map_fst_sublist (body : scoreAndDependencyName → Except Failure (Option String))
    (keys : List scoreAndDependencyName) :
    ((entriesOf body keys).map Prod.fst).Sublist keys := by
  induction keys with
  | nil => exact List.Sublist.slnil
  | cons key rest ih =>
    rw [entriesOf_cons]
    cases hb : body key with
    | error f => exact List.Sublist.cons _ ih
    | ok o =>
      cases o with
      | none => exact List.Sublist.cons _ ih
      | some current => exact List.Sublist.cons₂ _ ih

theorem filter_eq_singleton_of_nodup {α β : Type} [DecidableEq β] (f : α → β) (l : List α)
    (hn : (l.map f).Nodup) (a : α) (ha : a ∈ l) :
    l.filter (fun b => decide (f b = f a)) = [a] := by
  induction l with
  | nil => simp at ha
  | cons x xs ih =>
    rw [List.map_cons, List.nodup_cons] at hn
    rcases List.mem_cons.mp ha with h | h
    · subst h
      rw [List.filter_cons_of_pos (by simp)]
      congr 1
      rw [List.filter_eq_nil_iff]
      intro b hb
      simp only [decide_eq_true_eq]
      intro hfb
      exact hn.1 (by rw [← hfb]; exact List.mem_map_of_mem f hb)
    · have hx : ¬ f x = f a := fun e => hn.1 (by rw [e]; exact List.mem_map_of_mem f h)
      rw [List.filter_cons_of_neg (by simpa using hx)]
      exact ih hn.2 h

theorem filter_eq_nil_of_not_mem {α β : Type} [DecidableEq β] (f : α → β) (l : List α) (n : β)
    (h : n ∉ l.map f) : l.filter (fun b => decide (f b = n)) = [] := by
  rw [List.filter_eq_nil_iff]
  intro b hb
  simp only [decide_eq_true_eq]
  intro e
  exact h (by rw [← e]; exact List.mem_map_of_mem f hb)

/-! ## Lemmas on the entries of output.go -/

theorem Output.packageAsMarkdown_some_output (name : String) (version srcRepo : Option String)
    (ct : ChangeType) :
    ∃ fragment, Output.packageAsMarkdown name version srcRepo (some ct) = .ok fragment := by
  unfold Output.packageAsMarkdown
  simp only []
  split <;> [exact ⟨_, rfl⟩; (split <;> exact ⟨_, rfl⟩)]

theorem Output.addedEntry_none_output (added removed : GoMap) (key : scoreAndDependencyName)
    (h : added.get? key.dependencyName = none) :
    Output.addedEntry added removed key = .ok none := by
  simp [Output.addedEntry, h]

theorem Output.addedEntry_added_output (added removed : GoMap) (key : scoreAndDependencyName)
    (newResult : DependencyCheckResult) (fragment : String)
    (hA : added.get? key.dependencyName = some newResult)
    (hR : removed.get? key.dependencyName = none)
    (hf : Output.packageAsMarkdown newResult.Name newResult.Version newResult.SourceRepository
      newResult.ChangeType = .ok fragment) :
    Output.addedEntry added removed key =
      .ok (some (addedTag ++ scoreTag key.aggregateScore ++ fragment)) := by
  simp [Output.addedEntry, hA, hR, hf]

theorem Output.addedEntry_updated_output (added removed : GoMap) (key : scoreAndDependencyName)
    (newResult oldResult : DependencyCheckResult) (fragment oldFragment : String)
    (hA : added.get? key.dependencyName = some newResult)
    (hR : removed.get? key.dependencyName = some oldResult)
    (hf : Output.packageAsMarkdown newResult.Name newResult.Version newResult.SourceRepository
      newResult.ChangeType = .ok fragment)
    (hg : Output.packageAsMarkdown oldResult.Name oldResult.Version oldResult.SourceRepository
      oldResult.ChangeType = .ok oldFragment) :
    Output.addedEntry added removed key =
      .ok (some (addedTag ++ updatedTag ++ scoreTag key.aggregateScore ++ fragment ++
        oldFragment)) := by
  simp [Output.addedEntry, hA, hR, hf, hg]

theorem Output.removedEntry_skip_output (added removed : GoMap) (key : scoreAndDependencyName)
    (newResult : DependencyCheckResult) (hA : added.get? key.dependencyName = some newResult) :
    Output.removedEntry added removed key = .ok none := by
  simp [Output.removedEntry, hA]

theorem Output.removedEntry_none_output (added removed : GoMap) (key : scoreAndDependencyName)
    (hR : removed.get? key.dependencyName = none) :
    Output.removedEntry added removed key = .ok none := by
  unfold Output.removedEntry
  simp only [hR]
  split <;> rfl

theorem Output.removedEntry_removed_output (added removed : GoMap) (key : scoreAndDependencyName)
    (oldResult : DependencyCheckResult) (fragment : String)
    (hA : added.get? key.dependencyName = none)
    (hR : removed.get? key.dependencyName = some oldResult)
    (hf : Output.packageAsMarkdown oldResult.Name oldResult.Version oldResult.SourceRepository
      oldResult.ChangeType = .ok fragment) :
    Output.removedEntry added removed key =
      .ok (some (removedTag ++ scoreTag key.aggregateScore ++ fragment)) := by
  simp [Output.removedEntry, hA, hR, hf]

/-! ## Lemmas on the entries of comment_markdown.go -/

theorem CommentMarkdown.packageAsMarkdown_some_comment (name : String) (version srcRepo : Option String)
    (ct : ChangeType) :
    ∃ fragment, CommentMarkdown.packageAsMarkdown name version srcRepo (some ct) =
      .ok fragment := by
  unfold CommentMarkdown.packageAsMarkdown
  simp only []
  split <;> exact ⟨_, rfl⟩

theorem CommentMarkdown.addedEntry_none_comment (env : Env) (added removed : GoMap)
    (key : scoreAndDependencyName) (h : added.get? key.dependencyName = none) :
    CommentMarkdown.addedEntry env added removed key = .ok none := by
  simp [CommentMarkdown.addedEntry, h]

theorem CommentMarkdown.addedEntry_added_comment (env : Env) (added removed : GoMap)
    (key : scoreAndDependencyName) (newResult : DependencyCheckResult) (tag fragment : String)
    (hA : added.get? key.dependencyName = some newResult)
    (hR : removed.get? key.dependencyName = none)
    (ht : CommentMarkdown.depsDevPart env newResult = .ok tag)
    (hf : CommentMarkdown.packageAsMarkdown newResult.Name newResult.Version
      newResult.SourceRepository newResult.ChangeType = .ok fragment) :
    CommentMarkdown.addedEntry env added removed key =
      .ok (some (addedTag ++ tag ++ scoreTag key.aggregateScore ++ fragment)) := by
  simp [CommentMarkdown.addedEntry, hA, hR, ht, hf]

theorem CommentMarkdown.addedEntry_updated_comment (env : Env) (added removed : GoMap)
    (key : scoreAndDependencyName) (newResult oldResult : DependencyCheckResult)
    (tag fragment oldFragment : String)
    (hA : added.get? key.dependencyName = some newResult)
    (hR : removed.get? key.dependencyName = some oldResult)
    (ht : CommentMarkdown.depsDevPart env newResult = .ok tag)
    (hf : CommentMarkdown.packageAsMarkdown newResult.Name newResult.Version
      newResult.SourceRepository newResult.ChangeType = .ok fragment)
    (hg : CommentMarkdown.packageAsMarkdown oldResult.Name oldResult.Version
      oldResult.SourceRepository oldResult.ChangeType = .ok oldFragment) :
    CommentMarkdown.addedEntry env added removed key =
      .ok (some (addedTag ++ updatedTag ++ tag ++ scoreTag key.aggregateScore ++ fragment ++
        oldFragment)) := by
  simp [CommentMarkdown.addedEntry, hA, hR, ht, hf, hg]

theorem CommentMarkdown.addedEntry_error (env : Env) (added removed : GoMap)
    (key : scoreAndDependencyName) (newResult : DependencyCheckResult) (f : Failure)
    (hA : added.get? key.dependencyName = some newResult)
    (ht : CommentMarkdown.depsDevPart env newResult = .error f) :
    CommentMarkdown.addedEntry env added removed key = .error f := by
  simp [CommentMarkdown.addedEntry, hA, ht]

theorem CommentMarkdown.depsDevPart_total (env : Env) (newResult : DependencyCheckResult) :
    (∃ tag, CommentMarkdown.depsDevPart env newResult = .ok tag) ∨
      (∃ msg, CommentMarkdown.depsDevPart env newResult = .error (.error msg)) := by
  unfold CommentMarkdown.depsDevPart
  split
  · split
    · exact Or.inr ⟨_, rfl⟩
    · exact Or.inl ⟨_, rfl⟩
    · exact Or.inl ⟨_, rfl⟩
  · exact Or.inl ⟨_, rfl⟩

theorem CommentMarkdown.removedEntry_skip_comment (added removed : GoMap) (key : scoreAndDependencyName)
    (newResult : DependencyCheckResult) (hA : added.get? key.dependencyName = some newResult) :
    CommentMarkdown.removedEntry added removed key = .ok none := by
  simp [CommentMarkdown.removedEntry, hA]

theorem CommentMarkdown.removedEntry_none_comment (added removed : GoMap) (key : scoreAndDependencyName)
    (hR : removed.get? key.dependencyName = none) :
    CommentMarkdown.removedEntry added removed key = .ok none := by
  unfold CommentMarkdown.removedEntry
  simp only [hR]
  split <;> rfl

theorem CommentMarkdown.removedEntry_removed_comment (added removed : GoMap)
    (key : scoreAndDependencyName) (oldResult : DependencyCheckResult) (fragment : String)
    (hA : added.get? key.dependencyName = none)
    (hR : removed.get? key.dependencyName = some oldResult)
    (hf : CommentMarkdown.packageAsMarkdown oldResult.Name oldResult.Version
      oldResult.SourceRepository oldResult.ChangeType = .ok fragment) :
    CommentMarkdown.removedEntry added removed key =
      .ok (some (removedTag ++
        (if key.aggregateScore ≠ InconclusiveResultScore then scoreTag key.aggregateScore
          else "") ++ fragment)) := by
  by_cases h : key.aggregateScore = InconclusiveResultScore <;>
    simp [CommentMarkdown.removedEntry, hA, hR, hf, h]

/-! ## The shape of a rendered report -/

theorem Output.render_ok_output (env : Env) (ds : List DependencyCheckResult) (base head out : String)
    (h : Output.dependencydiffResultsAsMarkdown env ds base head = .ok out) :
    ∃ aks rks, getDependencySortKeys env (classify ds).1 = .ok aks ∧
      getDependencySortKeys env (classify ds).2 = .ok rks ∧
      out = Output.assemble
        (reportBody (Output.addedEntries (classify ds).1 (classify ds).2 aks)
          (Output.removedEntries (classify ds).1 (classify ds).2 rks)) base head := by
  unfold Output.dependencydiffResultsAsMarkdown at h
  simp only [] at h
  cases ha : getDependencySortKeys env (classify ds).1 with
  | error e => simp [ha] at h
  | ok aks =>
    cases hr : getDependencySortKeys env (classify ds).2 with
    | error e => simp [ha, hr] at h
    | ok rks =>
      simp only [ha, hr] at h
      cases h1 : forKeys (Output.addedEntry (classify ds).1 (classify ds).2)
          (sliceStable scoreGreater aks) "" with
      | error f => simp [h1] at h
      | ok results =>
        simp only [h1] at h
        cases h2 : forKeys (Output.removedEntry (classify ds).1 (classify ds).2)
            (sliceStable scoreGreater rks) results with
        | error f => simp [h2] at h
        | ok results2 =>
          simp only [h2, Except.ok.injEq] at h
          refine ⟨aks, rks, rfl, rfl, ?_⟩
          rw [← h, (forKeys_ok _ _ _ _ h2).1, (forKeys_ok _ _ _ _ h1).1]
          simp [reportBody, Output.addedEntries, Output.removedEntries, concatEntries_append]

theorem CommentMarkdown.render_ok_comment (env : Env) (ds : List DependencyCheckResult)
    (base head out : String)
    (h : CommentMarkdown.dependencydiffResultsAsMarkdown env ds base head = .ok out) :
    ∃ aks rks, getDependencySortKeys env (classify ds).1 = .ok aks ∧
      getDependencySortKeys env (classify ds).2 = .ok rks ∧
      out = CommentMarkdown.assemble
        (reportBody (CommentMarkdown.addedEntries env (classify ds).1 (classify ds).2 aks)
          (CommentMarkdown.removedEntries (classify ds).1 (classify ds).2 rks)) base head := by
  unfold CommentMarkdown.dependencydiffResultsAsMarkdown at h
  rw [dependencySliceToMaps_eq_classify] at h
  simp only [] at h
  cases ha : getDependencySortKeys env (classify ds).1 with
  | error e => simp [ha] at h
  | ok aks =>
    cases hr : getDependencySortKeys env (classify ds).2 with
    | error e => simp [ha, hr] at h
    | ok rks =>
      simp only [ha, hr] at h
      cases h1 : forKeys (CommentMarkdown.addedEntry env (classify ds).1 (classify ds).2)
          (sliceStable scoreGreater aks) "" with
      | error f => simp [h1] at h
      | ok results =>
        simp only [h1] at h
        cases h2 : forKeys (CommentMarkdown.removedEntry (classify ds).1 (classify ds).2)
            (sliceStable scoreGreater rks) results with
        | error f => simp [h2] at h
        | ok results2 =>
          simp only [h2, Except.ok.injEq] at h
          refine ⟨aks, rks, rfl, rfl, ?_⟩
          rw [← h, (forKeys_ok _ _ _ _ h2).1, (forKeys_ok _ _ _ _ h1).1]
          simp [reportBody, CommentMarkdown.addedEntries, CommentMarkdown.removedEntries,
            concatEntries_append]

/-! ## Facts on the maps and the sort keys of a run -/

theorem classify_fst_wellKeyed (ds : List DependencyCheckResult) : (classify ds).1.WellKeyed :=
  fun n d h => (classify_fst_get?_some ds n d h).2.2

theorem classify_snd_wellKeyed (ds : List DependencyCheckResult) : (classify ds).2.WellKeyed :=
  fun n d h => (classify_snd_get?_some ds n d h).2.2

theorem forall₂_mem_right {α β : Type} (R : α → β → Prop) (l₁ : List α) (l₂ : List β)
    (h : List.Forall₂ R l₁ l₂) (b : β) (hb : b ∈ l₂) : ∃ a ∈ l₁, R a b := by
  induction h with
  | nil => simp at hb
  | cons hab _ ih =>
    rcases List.mem_cons.mp hb with hb | hb
    · subst hb
      exact ⟨_, List.mem_cons_self _ _, hab⟩
    · obtain ⟨a, ha, hr⟩ := ih hb
      exact ⟨a, List.mem_cons_of_mem _ ha, hr⟩

/-- The sorted keys of a map: their names are the keys of the map, each once, and
each carries the aggregate score computed for the record stored under its name. -/
theorem sortedKeys_facts (env : Env) (hv : env.Valid) (m : GoMap) (hm : m.WellKeyed)
    (keys : List scoreAndDependencyName) (h : getDependencySortKeys env m = .ok keys) :
    ((sliceStable scoreGreater keys).map (fun key => key.dependencyName)).Perm m.keys ∧
    ∃ doc, env.docsRead = .ok doc ∧
      ∀ key ∈ sliceStable scoreGreater keys, ∃ d, m.get? key.dependencyName = some d ∧
        rankOf env doc d = .ok key.aggregateScore := by
  refine ⟨?_, ?_⟩
  · have h1 := (sliceStable_perm scoreGreater keys).map (fun key => key.dependencyName)
    rw [sortKeys_names env hv m hm keys h] at h1
    exact h1.trans (hv m)
  · obtain ⟨doc, hd, hf⟩ := getDependencySortKeys_ok env m keys h
    refine ⟨doc, hd, ?_⟩
    intro key hkey
    have hk : key ∈ keys := (sliceStable_perm scoreGreater keys).mem_iff.mp hkey
    obtain ⟨k, hk1, hname, hrank⟩ := forall₂_mem_right _ _ _ hf key hk
    obtain ⟨d, hd⟩ := m.exists_get?_of_mem_keys k ((hv m).mem_iff.mp hk1)
    rw [m.index_of_get? k d hd] at hname hrank
    refine ⟨d, ?_, hrank⟩
    rw [hname, hm k d hd]
    exact hd

theorem entries_filter_name_singleton
    (body : scoreAndDependencyName → Except Failure (Option String))
    (keys : List scoreAndDependencyName)
    (hn : (keys.map (fun key => key.dependencyName)).Nodup) (key : scoreAndDependencyName)
    (hk : key ∈ keys) (text : String) (hb : body key = .ok (some text)) :
    (entriesOf body keys).filter (fun e => decide (e.1.dependencyName = key.dependencyName)) =
      [(key, text)] := by
  rw [entriesOf_filter body (fun k => decide (k.dependencyName = key.dependencyName)),
    filter_eq_singleton_of_nodup (fun k : scoreAndDependencyName => k.dependencyName) keys hn key hk,
    entriesOf_cons, hb]
  rfl

theorem entries_filter_name_nil
    (body : scoreAndDependencyName → Except Failure (Option String))
    (keys : List scoreAndDependencyName) (n : String)
    (h : ∀ key ∈ keys, key.dependencyName = n → body key = .ok none) :
    (entriesOf body keys).filter (fun e => decide (e.1.dependencyName = n)) = [] := by
  rw [entriesOf_filter body (fun k => decide (k.dependencyName = n))]
  apply entriesOf_of_none
  intro key hkey
  have := List.mem_filter.mp hkey
  exact h key this.1 (by simpa using this.2)

theorem exists_key_of_mem_keys (keys : List scoreAndDependencyName) (l : List String)
    (hp : (keys.map (fun key => key.dependencyName)).Perm l) (n : String) (hn : n ∈ l) :
    ∃ key ∈ keys, key.dependencyName = n := by
  have := hp.mem_iff.mpr hn
  obtain ⟨key, hk, he⟩ := List.mem_map.mp this
  exact ⟨key, hk, he⟩

theorem not_mem_names_of_not_mem_keys (keys : List scoreAndDependencyName) (l : List String)
    (hp : (keys.map (fun key => key.dependencyName)).Perm l) (n : String) (hn : n ∉ l) :
    ∀ key ∈ keys, key.dependencyName ≠ n := by
  intro key hk e
  exact hn (hp.mem_iff.mp (by rw [← e]; exact List.mem_map_of_mem _ hk))

theorem Sample.env_valid : Sample.env.Valid := fun _ => List.Perm.refl _

theorem Sample.envReversed_valid : Sample.envReversed.Valid :=
  fun m => List.reverse_perm m.keys

/-! ## C2 -/

/-- C2. In a rendered report every name of `added` or `removed` has exactly one
entry: for a name in both maps the entry is appended by the first loop and starts
with the added tag followed by the updated tag, and the second loop appends no
entry (none with the removed tag) for it; for a name only in `added` the one entry
is the added tag, not followed by the updated tag; for a name only in `removed`
the one entry starts with the removed tag.  Both renderers. -/
theorem render_each_name_once (env : Env) (hv : env.Valid) (ds : List DependencyCheckResult)
    (base head : String) :
    (∀ out, Output.dependencydiffResultsAsMarkdown env ds base head = .ok out →
      ∃ aks rks addedEntries removedEntries,
        getDependencySortKeys env (classify ds).1 = .ok aks ∧
        getDependencySortKeys env (classify ds).2 = .ok rks ∧
        addedEntries = Output.addedEntries (classify ds).1 (classify ds).2 aks ∧
        removedEntries = Output.removedEntries (classify ds).1 (classify ds).2 rks ∧
        out = Output.assemble (reportBody addedEntries removedEntries) base head ∧
        ∀ n,
          (n ∈ (classify ds).1.keys → n ∈ (classify ds).2.keys →
            (∃ key rest, addedEntries.filter (fun e => decide (e.1.dependencyName = n)) =
              [(key, addedTag ++ updatedTag ++ rest)]) ∧
            removedEntries.filter (fun e => decide (e.1.dependencyName = n)) = []) ∧
          (n ∈ (classify ds).1.keys → n ∉ (classify ds).2.keys →
            (∃ key newResult fragment, (classify ds).1.get? n = some newResult ∧
              Output.packageAsMarkdown newResult.Name newResult.Version
                newResult.SourceRepository newResult.ChangeType = .ok fragment ∧
              addedEntries.filter (fun e => decide (e.1.dependencyName = n)) =
                [(key, addedTag ++ scoreTag key.aggregateScore ++ fragment)]) ∧
            removedEntries.filter (fun e => decide (e.1.dependencyName = n)) = []) ∧
          (n ∉ (classify ds).1.keys → n ∈ (classify ds).2.keys →
            addedEntries.filter (fun e => decide (e.1.dependencyName = n)) = [] ∧
            ∃ key rest, removedEntries.filter (fun e => decide (e.1.dependencyName = n)) =
              [(key, removedTag ++ rest)])) ∧
    (∀ out, CommentMarkdown.dependencydiffResultsAsMarkdown env ds base head = .ok out →
      ∃ aks rks addedEntries removedEntries,
        getDependencySortKeys env (classify ds).1 = .ok aks ∧
        getDependencySortKeys env (classify ds).2 = .ok rks ∧
        addedEntries = CommentMarkdown.addedEntries env (classify ds).1 (classify ds).2 aks ∧
        removedEntries = CommentMarkdown.removedEntries (classify ds).1 (classify ds).2 rks ∧
        out = CommentMarkdown.assemble (reportBody addedEntries removedEntries) base head ∧
        ∀ n,
          (n ∈ (classify ds).1.keys → n ∈ (classify ds).2.keys →
            (∃ key rest, addedEntries.filter (fun e => decide (e.1.dependencyName = n)) =
              [(key, addedTag ++ updatedTag ++ rest)]) ∧
            removedEntries.filter (fun e => decide (e.1.dependencyName = n)) = []) ∧
          (n ∈ (classify ds).1.keys → n ∉ (classify ds).2.keys →
            (∃ key newResult tag fragment, (classify ds).1.get? n = some newResult ∧
              CommentMarkdown.depsDevPart env newResult = .ok tag ∧
              CommentMarkdown.packageAsMarkdown newResult.Name newResult.Version
                newResult.SourceRepository newResult.ChangeType = .ok fragment ∧
              addedEntries.filter (fun e => decide (e.1.dependencyName = n)) =
                [(key, addedTag ++ tag ++ scoreTag key.aggregateScore ++ fragment)]) ∧
            removedEntries.filter (fun e => decide (e.1.dependencyName = n)) = []) ∧
          (n ∉ (classify ds).1.keys → n ∈ (classify ds).2.keys →
            addedEntries.filter (fun e => decide (e.1.dependencyName = n)) = [] ∧
            ∃ key rest, removedEntries.filter (fun e => decide (e.1.dependencyName = n)) =
              [(key, removedTag ++ rest)])) := by
  have hnA := (classify_nodup ds).1
  have hnR := (classify_nodup ds).2
  constructor
  · intro out h
    obtain ⟨aks, rks, ha, hr, hout⟩ := Output.render_ok_output env ds base head out h
    refine ⟨aks, rks, _, _, ha, hr, rfl, rfl, hout, ?_⟩
    obtain ⟨hpA, _, _, hkA⟩ := sortedKeys_facts env hv _ (classify_fst_wellKeyed ds) aks ha
    obtain ⟨hpR, _, _, hkR⟩ := sortedKeys_facts env hv _ (classify_snd_wellKeyed ds) rks hr
    have hndA := hpA.nodup_iff.mpr hnA
    have hndR := hpR.nodup_iff.mpr hnR
    intro n
    refine ⟨?_, ?_, ?_⟩
    · intro hA hR
      obtain ⟨key, hkey, hname⟩ := exists_key_of_mem_keys _ _ hpA n hA
      obtain ⟨dA, hdA⟩ := GoMap.exists_get?_of_mem_keys _ n hA
      obtain ⟨dR, hdR⟩ := GoMap.exists_get?_of_mem_keys _ n hR
      obtain ⟨fA, hfA⟩ := Output.packageAsMarkdown_some_output dA.Name dA.Version dA.SourceRepository Added
      obtain ⟨fR, hfR⟩ :=
        Output.packageAsMarkdown_some_output dR.Name dR.Version dR.SourceRepository Removed
      rw [← (classify_fst_get?_some ds n dA hdA).2.1] at hfA
      rw [← (classify_snd_get?_some ds n dR hdR).2.1] at hfR
      subst hname
      refine ⟨⟨key, scoreTag key.aggregateScore ++ fA ++ fR, ?_⟩, ?_⟩
      · rw [Output.addedEntries, entries_filter_name_singleton _ _ hndA key hkey _
          (Output.addedEntry_updated_output _ _ key dA dR fA fR hdA hdR hfA hfR)]
        simp [String.append_assoc]
      · rw [Output.removedEntries]
        apply entries_filter_name_nil
        intro k _ hk
        exact Output.removedEntry_skip_output _ _ k dA (by rw [hk]; exact hdA)
    · intro hA hR
      obtain ⟨key, hkey, hname⟩ := exists_key_of_mem_keys _ _ hpA n hA
      obtain ⟨dA, hdA⟩ := GoMap.exists_get?_of_mem_keys _ n hA
      have hdR := (GoMap.get?_eq_none_iff _ n).mpr hR
      obtain ⟨fA, hfA⟩ := Output.packageAsMarkdown_some_output dA.Name dA.Version dA.SourceRepository Added
      rw [← (classify_fst_get?_some ds n dA hdA).2.1] at hfA
      subst hname
      refine ⟨⟨key, dA, fA, hdA, hfA, ?_⟩, ?_⟩
      · rw [Output.addedEntries, entries_filter_name_singleton _ _ hndA key hkey _
          (Output.addedEntry_added_output _ _ key dA fA hdA hdR hfA)]
      · rw [Output.removedEntries]
        apply entries_filter_name_nil
        intro k _ hk
        exact Output.removedEntry_skip_output _ _ k dA (by rw [hk]; exact hdA)
    · intro hA hR
      obtain ⟨key, hkey, hname⟩ := exists_key_of_mem_keys _ _ hpR n hR
      obtain ⟨dR, hdR⟩ := GoMap.exists_get?_of_mem_keys _ n hR
      have hdA := (GoMap.get?_eq_none_iff _ n).mpr hA
      obtain ⟨fR, hfR⟩ :=
        Output.packageAsMarkdown_some_output dR.Name dR.Version dR.SourceRepository Removed
      rw [← (classify_snd_get?_some ds n dR hdR).2.1] at hfR
      subst hname
      refine ⟨?_, key, scoreTag key.aggregateScore ++ fR, ?_⟩
      · rw [Output.addedEntries]
        apply entries_filter_name_nil
        intro k _ hk
        exact Output.addedEntry_none_output _ _ k (by rw [hk]; exact hdA)
      · rw [Output.removedEntries, entries_filter_name_singleton _ _ hndR key hkey _
          (Output.removedEntry_removed_output _ _ key dR fR hdA hdR hfR)]
        simp [String.append_assoc]
  · intro out h
    obtain ⟨aks, rks, ha, hr, hout⟩ := CommentMarkdown.render_ok_comment env ds base head out h
    refine ⟨aks, rks, _, _, ha, hr, rfl, rfl, hout, ?_⟩
    obtain ⟨hpA, _, _, hkA⟩ := sortedKeys_facts env hv _ (classify_fst_wellKeyed ds) aks ha
    obtain ⟨hpR, _, _, hkR⟩ := sortedKeys_facts env hv _ (classify_snd_wellKeyed ds) rks hr
    have hndA := hpA.nodup_iff.mpr hnA
    have hndR := hpR.nodup_iff.mpr hnR
    -- the first loop returned: the deps.dev lookup answered for every record of `added`
    have hloop : ∀ key ∈ sliceStable scoreGreater aks,
        ∃ o, CommentMarkdown.addedEntry env (classify ds).1 (classify ds).2 key = .ok o := by
      unfold CommentMarkdown.dependencydiffResultsAsMarkdown at h
      rw [dependencySliceToMaps_eq_classify] at h
      simp only [ha, hr] at h
      cases h1 : forKeys (CommentMarkdown.addedEntry env (classify ds).1 (classify ds).2)
          (sliceStable scoreGreater aks) "" with
      | error f => simp [h1] at h
      | ok results => exact (forKeys_ok _ _ _ _ h1).2
    have htag : ∀ key ∈ sliceStable scoreGreater aks, ∀ d,
        (classify ds).1.get? key.dependencyName = some d →
        ∃ tag, CommentMarkdown.depsDevPart env d = .ok tag := by
      intro key hkey d hd
      obtain ⟨o, ho⟩ := hloop key hkey
      cases ht : CommentMarkdown.depsDevPart env d with
      | error f =>
        rw [CommentMarkdown.addedEntry_error env _ _ key d f hd ht] at ho
        cases ho
      | ok tag => exact ⟨tag, rfl⟩
    intro n
    refine ⟨?_, ?_, ?_⟩
    · intro hA hR
      obtain ⟨key, hkey, hname⟩ := exists_key_of_mem_keys _ _ hpA n hA
      obtain ⟨dA, hdA⟩ := GoMap.exists_get?_of_mem_keys _ n hA
      obtain ⟨dR, hdR⟩ := GoMap.exists_get?_of_mem_keys _ n hR
      obtain ⟨fA, hfA⟩ :=
        CommentMarkdown.packageAsMarkdown_some_comment dA.Name dA.Version dA.SourceRepository Added
      obtain ⟨fR, hfR⟩ :=
        CommentMarkdown.packageAsMarkdown_some_comment dR.Name dR.Version dR.SourceRepository Removed
      rw [← (classify_fst_get?_some ds n dA hdA).2.1] at hfA
      rw [← (classify_snd_get?_some ds n dR hdR).2.1] at hfR
      subst hname
      obtain ⟨tag, htg⟩ := htag key hkey dA hdA
      refine ⟨⟨key, tag ++ scoreTag key.aggregateScore ++ fA ++ fR, ?_⟩, ?_⟩
      · rw [CommentMarkdown.addedEntries, entries_filter_name_singleton _ _ hndA key hkey _
          (CommentMarkdown.addedEntry_updated_comment env _ _ key dA dR tag fA fR hdA hdR htg hfA hfR)]
        simp [String.append_assoc]
      · rw [CommentMarkdown.removedEntries]
        apply entries_filter_name_nil
        intro k _ hk
        exact CommentMarkdown.removedEntry_skip_comment _ _ k dA (by rw [hk]; exact hdA)
    · intro hA hR
      obtain ⟨key, hkey, hname⟩ := exists_key_of_mem_keys _ _ hpA n hA
      obtain ⟨dA, hdA⟩ := GoMap.exists_get?_of_mem_keys _ n hA
      have hdR := (GoMap.get?_eq_none_iff _ n).mpr hR
      obtain ⟨fA, hfA⟩ :=
        CommentMarkdown.packageAsMarkdown_some_comment dA.Name dA.Version dA.SourceRepository Added
      rw [← (classify_fst_get?_some ds n dA hdA).2.1] at hfA
      subst hname
      obtain ⟨tag, htg⟩ := htag key hkey dA hdA
      refine ⟨⟨key, dA, tag, fA, hdA, htg, hfA, ?_⟩, ?_⟩
      · rw [CommentMarkdown.addedEntries, entries_filter_name_singleton _ _ hndA key hkey _
          (CommentMarkdown.addedEntry_added_comment env _ _ key dA tag fA hdA hdR htg hfA)]
      · rw [CommentMarkdown.removedEntries]
        apply entries_filter_name_nil
        intro k _ hk
        exact CommentMarkdown.removedEntry_skip_comment _ _ k dA (by rw [hk]; exact hdA)
    · intro hA hR
      obtain ⟨key, hkey, hname⟩ := exists_key_of_mem_keys _ _ hpR n hR
      obtain ⟨dR, hdR⟩ := GoMap.exists_get?_of_mem_keys _ n hR
      have hdA := (GoMap.get?_eq_none_iff _ n).mpr hA
      obtain ⟨fR, hfR⟩ :=
        CommentMarkdown.packageAsMarkdown_some_comment dR.Name dR.Version dR.SourceRepository Removed
      rw [← (classify_snd_get?_some ds n dR hdR).2.1] at hfR
      subst hname
      refine ⟨?_, key, (if key.aggregateScore ≠ InconclusiveResultScore then
        scoreTag key.aggregateScore else "") ++ fR, ?_⟩
      · rw [CommentMarkdown.addedEntries]
        apply entries_filter_name_nil
        intro k _ hk
        exact CommentMarkdown.addedEntry_none_comment env _ _ k (by rw [hk]; exact hdA)
      · rw [CommentMarkdown.removedEntries, entries_filter_name_singleton _ _ hndR key hkey _
          (CommentMarkdown.removedEntry_removed_comment _ _ key dR fR hdA hdR hfR)]
        simp [String.append_assoc]

/-! ## Lemmas on the order of the entries -/

theorem entries_key_mem (body : scoreAndDependencyName → Except Failure (Option String))
    (keys : List scoreAndDependencyName) (e : scoreAndDependencyName × String)
    (h : e ∈ entriesOf body keys) : e.1 ∈ keys :=
  ((mem_entriesOf body keys e).mp h).1

theorem entries_pairwise_of_keys
    (body : scoreAndDependencyName → Except Failure (Option String))
    (keys : List scoreAndDependencyName) (S : scoreAndDependencyName → scoreAndDependencyName → Prop)
    (h : keys.Pairwise S) : (entriesOf body keys).Pairwise (fun e₁ e₂ => S e₁.1 e₂.1) := by
  have h1 := h.sublist (entriesOf_map_fst_sublist body keys)
  exact List.pairwise_map.mp h1

/-- The keys of a map sorted by `sort.SliceStable`: the scores do not increase,
and once every computed score is above the sentinel, a key whose record has no
assessment is followed only by such keys. -/
theorem sortedKeys_order (env : Env) (hv : env.Valid) (m : GoMap) (hm : m.WellKeyed)
    (keys : List scoreAndDependencyName) (h : getDependencySortKeys env m = .ok keys)
    (hs : ∀ n d sc doc s, m.get? n = some d → d.ScorecardResult = some sc →
      env.getAggregateScore sc doc = .ok s → negInf < s) :
    (sliceStable scoreGreater keys).Pairwise (fun k₁ k₂ =>
      k₂.aggregateScore ≤ k₁.aggregateScore ∧
        ((m.index k₁.dependencyName).ScorecardResult = none →
          (m.index k₂.dependencyName).ScorecardResult = none)) := by
  obtain ⟨_, doc, _, hk⟩ := sortedKeys_facts env hv m hm keys h
  refine (sliceStable_sorted keys).imp_of_mem ?_
  intro k₁ k₂ h1 h2 hle
  refine ⟨hle, ?_⟩
  obtain ⟨d1, hd1, hr1⟩ := hk k₁ h1
  obtain ⟨d2, hd2, hr2⟩ := hk k₂ h2
  rw [m.index_of_get? _ d1 hd1, m.index_of_get? _ d2 hd2]
  intro hnone
  simp only [rankOf, hnone, Except.ok.injEq] at hr1
  cases hsc : d2.ScorecardResult with
  | none => rfl
  | some sc =>
    simp only [rankOf, hsc] at hr2
    have := hs _ d2 sc doc _ hd2 hsc hr2
    rw [← hr1] at hle
    exact absurd this (not_lt.mpr hle)

theorem sortedKeys_rank (env : Env) (hv : env.Valid) (m : GoMap) (hm : m.WellKeyed)
    (keys : List scoreAndDependencyName) (h : getDependencySortKeys env m = .ok keys)
    (doc : env.Doc) (hd : env.docsRead = .ok doc) :
    ∀ key ∈ sliceStable scoreGreater keys,
      rankOf env doc (m.index key.dependencyName) = .ok key.aggregateScore := by
  obtain ⟨_, doc', hd', hk⟩ := sortedKeys_facts env hv m hm keys h
  rw [hd] at hd'
  cases hd'
  intro key hkey
  obtain ⟨d, hd1, hr⟩ := hk key hkey
  rw [m.index_of_get? _ d hd1]
  exact hr

theorem Output.addedEntry_emits_output (added removed : GoMap) (key : scoreAndDependencyName)
    (d : DependencyCheckResult) (hA : added.get? key.dependencyName = some d)
    (hct : d.ChangeType = some Added)
    (hR : ∀ dR, removed.get? key.dependencyName = some dR → dR.ChangeType = some Removed) :
    ∃ text, Output.addedEntry added removed key = .ok (some text) := by
  obtain ⟨f, hf⟩ := Output.packageAsMarkdown_some_output d.Name d.Version d.SourceRepository Added
  rw [← hct] at hf
  cases hr : removed.get? key.dependencyName with
  | none => exact ⟨_, Output.addedEntry_added_output _ _ key d f hA hr hf⟩
  | some dR =>
    obtain ⟨g, hg⟩ := Output.packageAsMarkdown_some_output dR.Name dR.Version dR.SourceRepository Removed
    rw [← hR dR hr] at hg
    exact ⟨_, Output.addedEntry_updated_output _ _ key d dR f g hA hr hf hg⟩

theorem Output.removedEntry_some_output (added removed : GoMap) (key : scoreAndDependencyName)
    (text : String) (h : Output.removedEntry added removed key = .ok (some text)) :
    added.get? key.dependencyName = none := by
  cases hA : added.get? key.dependencyName with
  | none => rfl
  | some d =>
    rw [Output.removedEntry_skip_output _ _ key d hA] at h
    cases h

theorem CommentMarkdown.removedEntry_some_comment (added removed : GoMap) (key : scoreAndDependencyName)
    (text : String) (h : CommentMarkdown.removedEntry added removed key = .ok (some text)) :
    added.get? key.dependencyName = none := by
  cases hA : added.get? key.dependencyName with
  | none => rfl
  | some d =>
    rw [CommentMarkdown.removedEntry_skip_comment _ _ key d hA] at h
    cases h

theorem CommentMarkdown.addedEntry_emits_comment (env : Env) (added removed : GoMap)
    (key : scoreAndDependencyName) (d : DependencyCheckResult)
    (hA : added.get? key.dependencyName = some d) (hct : d.ChangeType = some Added)
    (hR : ∀ dR, removed.get? key.dependencyName = some dR → dR.ChangeType = some Removed)
    (o : Option String) (ho : CommentMarkdown.addedEntry env added removed key = .ok o) :
    ∃ text, CommentMarkdown.addedEntry env added removed key = .ok (some text) := by
  cases ht : CommentMarkdown.depsDevPart env d with
  | error f =>
    rw [CommentMarkdown.addedEntry_error env _ _ key d f hA ht] at ho
    cases ho
  | ok tag =>
    obtain ⟨f, hf⟩ :=
      CommentMarkdown.packageAsMarkdown_some_comment d.Name d.Version d.SourceRepository Added
    rw [← hct] at hf
    cases hr : removed.get? key.dependencyName with
    | none => exact ⟨_, CommentMarkdown.addedEntry_added_comment env _ _ key d tag f hA hr ht hf⟩
    | some dR =>
      obtain ⟨g, hg⟩ :=
        CommentMarkdown.packageAsMarkdown_some_comment dR.Name dR.Version dR.SourceRepository Removed
      rw [← hR dR hr] at hg
      exact ⟨_, CommentMarkdown.addedEntry_updated_comment env _ _ key d dR tag f g hA hr ht hf hg⟩

/-- Every key of the first loop of output.go appends an entry. -/
theorem Output.addedEntries_keys_output (env : Env) (hv : env.Valid) (ds : List DependencyCheckResult)
    (aks : List scoreAndDependencyName)
    (ha : getDependencySortKeys env (classify ds).1 = .ok aks) :
    (Output.addedEntries (classify ds).1 (classify ds).2 aks).map Prod.fst =
      sliceStable scoreGreater aks := by
  obtain ⟨_, _, _, hk⟩ := sortedKeys_facts env hv _ (classify_fst_wellKeyed ds) aks ha
  apply entriesOf_of_all
  intro key hkey
  obtain ⟨d, hd, _⟩ := hk key hkey
  exact Output.addedEntry_emits_output _ _ key d hd (classify_fst_get?_some ds _ d hd).2.1
    (fun dR hdR => (classify_snd_get?_some ds _ dR hdR).2.1)

/-- Every key of the first loop of comment_markdown.go appends an entry, once the
loop returns. -/
theorem CommentMarkdown.addedEntries_keys_comment (env : Env) (hv : env.Valid)
    (ds : List DependencyCheckResult) (aks : List scoreAndDependencyName)
    (ha : getDependencySortKeys env (classify ds).1 = .ok aks)
    (hloop : ∀ key ∈ sliceStable scoreGreater aks,
      ∃ o, CommentMarkdown.addedEntry env (classify ds).1 (classify ds).2 key = .ok o) :
    (CommentMarkdown.addedEntries env (classify ds).1 (classify ds).2 aks).map Prod.fst =
      sliceStable scoreGreater aks := by
  obtain ⟨_, _, _, hk⟩ := sortedKeys_facts env hv _ (classify_fst_wellKeyed ds) aks ha
  apply entriesOf_of_all
  intro key hkey
  obtain ⟨d, hd, _⟩ := hk key hkey
  obtain ⟨o, ho⟩ := hloop key hkey
  exact CommentMarkdown.addedEntry_emits_comment env _ _ key d hd (classify_fst_get?_some ds _ d hd).2.1
    (fun dR hdR => (classify_snd_get?_some ds _ dR hdR).2.1) o ho

theorem CommentMarkdown.render_loop_ok (env : Env) (ds : List DependencyCheckResult)
    (base head out : String) (aks : List scoreAndDependencyName)
    (h : CommentMarkdown.dependencydiffResultsAsMarkdown env ds base head = .ok out)
    (ha : getDependencySortKeys env (classify ds).1 = .ok aks) :
    ∀ key ∈ sliceStable scoreGreater aks,
      ∃ o, CommentMarkdown.addedEntry env (classify ds).1 (classify ds).2 key = .ok o := by
  unfold CommentMarkdown.dependencydiffResultsAsMarkdown at h
  rw [dependencySliceToMaps_eq_classify] at h
  simp only [ha] at h
  cases hr : getDependencySortKeys env (classify ds).2 with
  | error e => simp [hr] at h
  | ok rks =>
    simp only [hr] at h
    cases h1 : forKeys (CommentMarkdown.addedEntry env (classify ds).1 (classify ds).2)
        (sliceStable scoreGreater aks) "" with
    | error f => simp [h1] at h
    | ok results => exact (forKeys_ok _ _ _ _ h1).2

/-- C2, witness: the update of `foo` with the removal of `bar`, in both renderers. -/
theorem render_each_name_once_witness :
    Sample.env.Valid ∧
    Output.dependencydiffResultsAsMarkdown Sample.env Sample.updateInput "main" "dev" =
      .ok Sample.updateReport ∧
    CommentMarkdown.dependencydiffResultsAsMarkdown Sample.env Sample.updateInput "main" "dev" =
      .ok Sample.updateComment ∧
    (∃ aks rks key rest,
      getDependencySortKeys Sample.env (classify Sample.updateInput).1 = .ok aks ∧
      getDependencySortKeys Sample.env (classify Sample.updateInput).2 = .ok rks ∧
      (Output.addedEntries (classify Sample.updateInput).1 (classify Sample.updateInput).2
        aks).filter (fun e => decide (e.1.dependencyName = "foo")) =
          [(key, addedTag ++ updatedTag ++ rest)] ∧
      (Output.removedEntries (classify Sample.updateInput).1 (classify Sample.updateInput).2
        rks).filter (fun e => decide (e.1.dependencyName = "foo")) = []) ∧
    (∃ aks rks key rest,
      getDependencySortKeys Sample.env (classify Sample.updateInput).1 = .ok aks ∧
      getDependencySortKeys Sample.env (classify Sample.updateInput).2 = .ok rks ∧
      (CommentMarkdown.addedEntries Sample.env (classify Sample.updateInput).1
        (classify Sample.updateInput).2 aks).filter
          (fun e => decide (e.1.dependencyName = "foo")) =
            [(key, addedTag ++ updatedTag ++ rest)] ∧
      (CommentMarkdown.removedEntries (classify Sample.updateInput).1
        (classify Sample.updateInput).2 rks).filter
          (fun e => decide (e.1.dependencyName = "foo")) = []) := by
  have h := render_each_name_once Sample.env Sample.env_valid Sample.updateInput "main" "dev"
  refine ⟨Sample.env_valid, by decide, by decide, ?_, ?_⟩
  · obtain ⟨aks, rks, _, _, ha, hr, rfl, rfl, _, hn⟩ := h.1 Sample.updateReport (by decide)
    obtain ⟨⟨key, rest, h1⟩, h2⟩ := (hn "foo").1 (by decide) (by decide)
    exact ⟨aks, rks, key, rest, ha, hr, h1, h2⟩
  · obtain ⟨aks, rks, _, _, ha, hr, rfl, rfl, _, hn⟩ := h.2 Sample.updateComment (by decide)
    obtain ⟨⟨key, rest, h1⟩, h2⟩ := (hn "foo").1 (by decide) (by decide)
    exact ⟨aks, rks, key, rest, ha, hr, h1, h2⟩

/-! ## C3 -/

/-- C3. In a rendered report, when every aggregate score computed for a record
of the input is above the sentinel `negInf`, the entries of the first loop, one
for each name of `added`, stand in non-increasing order of the aggregate score of
their records, and an entry whose record has no assessment is followed only by
such entries; the same holds among the entries of the second loop, which are
those of the names of `removed` that are not in `added`.  Both renderers. -/
theorem render_sorted_by_score (env : Env) (hv : env.Valid) (ds : List DependencyCheckResult)
    (base head : String)
    (hs : ∀ d ∈ ds, ∀ sc doc s, d.ScorecardResult = some sc →
      env.getAggregateScore sc doc = .ok s → negInf < s) :
    (∀ out, Output.dependencydiffResultsAsMarkdown env ds base head = .ok out →
      ∃ doc aks rks addedEntries removedEntries,
        env.docsRead = .ok doc ∧
        getDependencySortKeys env (classify ds).1 = .ok aks ∧
        getDependencySortKeys env (classify ds).2 = .ok rks ∧
        addedEntries = Output.addedEntries (classify ds).1 (classify ds).2 aks ∧
        removedEntries = Output.removedEntries (classify ds).1 (classify ds).2 rks ∧
        out = Output.assemble (reportBody addedEntries removedEntries) base head ∧
        (addedEntries.map (fun e => e.1.dependencyName)).Perm (classify ds).1.keys ∧
        (∀ e ∈ addedEntries, rankOf env doc ((classify ds).1.index e.1.dependencyName) =
          .ok e.1.aggregateScore) ∧
        (∀ e ∈ removedEntries, e.1.dependencyName ∉ (classify ds).1.keys ∧
          rankOf env doc ((classify ds).2.index e.1.dependencyName) = .ok e.1.aggregateScore) ∧
        addedEntries.Pairwise (fun e₁ e₂ =>
          e₂.1.aggregateScore ≤ e₁.1.aggregateScore ∧
          (((classify ds).1.index e₁.1.dependencyName).ScorecardResult = none →
            ((classify ds).1.index e₂.1.dependencyName).ScorecardResult = none)) ∧
        removedEntries.Pairwise (fun e₁ e₂ =>
          e₂.1.aggregateScore ≤ e₁.1.aggregateScore ∧
          (((classify ds).2.index e₁.1.dependencyName).ScorecardResult = none →
            ((classify ds).2.index e₂.1.dependencyName).ScorecardResult = none))) ∧
    (∀ out, CommentMarkdown.dependencydiffResultsAsMarkdown env ds base head = .ok out →
      ∃ doc aks rks addedEntries removedEntries,
        env.docsRead = .ok doc ∧
        getDependencySortKeys env (classify ds).1 = .ok aks ∧
        getDependencySortKeys env (classify ds).2 = .ok rks ∧
        addedEntries = CommentMarkdown.addedEntries env (classify ds).1 (classify ds).2 aks ∧
        removedEntries = CommentMarkdown.removedEntries (classify ds).1 (classify ds).2 rks ∧
        out = CommentMarkdown.assemble (reportBody addedEntries removedEntries) base head ∧
        (addedEntries.map (fun e => e.1.dependencyName)).Perm (classify ds).1.keys ∧
        (∀ e ∈ addedEntries, rankOf env doc ((classify ds).1.index e.1.dependencyName) =
          .ok e.1.aggregateScore) ∧
        (∀ e ∈ removedEntries, e.1.dependencyName ∉ (classify ds).1.keys ∧
          rankOf env doc ((classify ds).2.index e.1.dependencyName) = .ok e.1.aggregateScore) ∧
        addedEntries.Pairwise (fun e₁ e₂ =>
          e₂.1.aggregateScore ≤ e₁.1.aggregateScore ∧
          (((classify ds).1.index e₁.1.dependencyName).ScorecardResult = none →
            ((classify ds).1.index e₂.1.dependencyName).ScorecardResult = none)) ∧
        removedEntries.Pairwise (fun e₁ e₂ =>
          e₂.1.aggregateScore ≤ e₁.1.aggregateScore ∧
          (((classify ds).2.index e₁.1.dependencyName).ScorecardResult = none →
            ((classify ds).2.index e₂.1.dependencyName).ScorecardResult = none))) := by
  have hsA : ∀ n d sc doc s, (classify ds).1.get? n = some d → d.ScorecardResult = some sc →
      env.getAggregateScore sc doc = .ok s → negInf < s :=
    fun n d sc doc s hd => hs d (classify_fst_get?_some ds n d hd).1 sc doc s
  have hsR : ∀ n d sc doc s, (classify ds).2.get? n = some d → d.ScorecardResult = some sc →
      env.getAggregateScore sc doc = .ok s → negInf < s :=
    fun n d sc doc s hd => hs d (classify_snd_get?_some ds n d hd).1 sc doc s
  constructor
  · intro out h
    obtain ⟨aks, rks, ha, hr, hout⟩ := Output.render_ok_output env ds base head out h
    obtain ⟨hpA, doc, hdoc, _⟩ := sortedKeys_facts env hv _ (classify_fst_wellKeyed ds) aks ha
    have hkeys := Output.addedEntries_keys_output env hv ds aks ha
    refine ⟨doc, aks, rks, _, _, hdoc, ha, hr, rfl, rfl, hout, ?_, ?_, ?_, ?_, ?_⟩
    · have : (Output.addedEntries (classify ds).1 (classify ds).2 aks).map
          (fun e => e.1.dependencyName) =
          (sliceStable scoreGreater aks).map (fun key => key.dependencyName) := by
        rw [← hkeys, List.map_map]
        rfl
      rw [this]
      exact hpA
    · intro e he
      exact sortedKeys_rank env hv _ (classify_fst_wellKeyed ds) aks ha doc hdoc e.1
        (entries_key_mem _ _ e he)
    · intro e he
      refine ⟨?_, sortedKeys_rank env hv _ (classify_snd_wellKeyed ds) rks hr doc hdoc e.1
        (entries_key_mem _ _ e he)⟩
      rw [← GoMap.get?_eq_none_iff]
      exact Output.removedEntry_some_output _ _ e.1 e.2 ((mem_entriesOf _ _ e).mp he).2
    · exact entries_pairwise_of_keys _ _ _
        (sortedKeys_order env hv _ (classify_fst_wellKeyed ds) aks ha hsA)
    · exact entries_pairwise_of_keys _ _ _
        (sortedKeys_order env hv _ (classify_snd_wellKeyed ds) rks hr hsR)
  · intro out h
    obtain ⟨aks, rks, ha, hr, hout⟩ := CommentMarkdown.render_ok_comment env ds base head out h
    obtain ⟨hpA, doc, hdoc, _⟩ := sortedKeys_facts env hv _ (classify_fst_wellKeyed ds) aks ha
    have hkeys := CommentMarkdown.addedEntries_keys_comment env hv ds aks ha
      (CommentMarkdown.render_loop_ok env ds base head out aks h ha)
    refine ⟨doc, aks, rks, _, _, hdoc, ha, hr, rfl, rfl, hout, ?_, ?_, ?_, ?_, ?_⟩
    · have : (CommentMarkdown.addedEntries env (classify ds).1 (classify ds).2 aks).map
          (fun e => e.1.dependencyName) =
          (sliceStable scoreGreater aks).map (fun key => key.dependencyName) := by
        rw [← hkeys, List.map_map]
        rfl
      rw [this]
      exact hpA
    · intro e he
      exact sortedKeys_rank env hv _ (classify_fst_wellKeyed ds) aks ha doc hdoc e.1
        (entries_key_mem _ _ e he)
    · intro e he
      refine ⟨?_, sortedKeys_rank env hv _ (classify_snd_wellKeyed ds) rks hr doc hdoc e.1
        (entries_key_mem _ _ e he)⟩
      rw [← GoMap.get?_eq_none_iff]
      exact CommentMarkdown.removedEntry_some_comment _ _ e.1 e.2 ((mem_entriesOf _ _ e).mp he).2
    · exact entries_pairwise_of_keys _ _ _
        (sortedKeys_order env hv _ (classify_fst_wellKeyed ds) aks ha hsA)
    · exact entries_pairwise_of_keys _ _ _
        (sortedKeys_order env hv _ (classify_snd_wellKeyed ds) rks hr hsR)

theorem Sample.rankedInput_scores : ∀ d ∈ Sample.rankedInput, ∀ sc doc s,
    d.ScorecardResult = some sc → Sample.env.getAggregateScore sc doc = .ok s → negInf < s := by
  intro d hd sc doc s hsc hscore
  simp only [Sample.rankedInput, List.mem_cons, List.mem_singleton, List.not_mem_nil,
    or_false] at hd
  rcases hd with rfl | rfl | rfl
  · simp only [Sample.addedDep, Option.map, Option.some.injEq] at hsc
    subst hsc
    simp only [Sample.env, Sample.scored, Except.ok.injEq] at hscore
    subst hscore
    decide
  · simp [Sample.addedDep] at hsc
  · simp only [Sample.addedDep, Option.map, Option.some.injEq] at hsc
    subst hsc
    simp only [Sample.env, Sample.scored, Except.ok.injEq] at hscore
    subst hscore
    decide

/-- C3, witness: added dependencies scoring 2 and 9 and one without assessment
are rendered 9 first, then 2, then the one without assessment. -/
theorem render_sorted_by_score_witness :
    Sample.env.Valid ∧
    (∀ d ∈ Sample.rankedInput, ∀ sc doc s, d.ScorecardResult = some sc →
      Sample.env.getAggregateScore sc doc = .ok s → negInf < s) ∧
    Output.dependencydiffResultsAsMarkdown Sample.env Sample.rankedInput "main" "dev" =
      .ok Sample.rankedReport ∧
    CommentMarkdown.dependencydiffResultsAsMarkdown Sample.env Sample.rankedInput "main" "dev" =
      .ok Sample.rankedComment ∧
    (∃ aks, getDependencySortKeys Sample.env (classify Sample.rankedInput).1 = .ok aks ∧
      (Output.addedEntries (classify Sample.rankedInput).1 (classify Sample.rankedInput).2
        aks).Pairwise (fun e₁ e₂ => e₂.1.aggregateScore ≤ e₁.1.aggregateScore)) ∧
    (∃ aks, getDependencySortKeys Sample.env (classify Sample.rankedInput).1 = .ok aks ∧
      (CommentMarkdown.addedEntries Sample.env (classify Sample.rankedInput).1
        (classify Sample.rankedInput).2 aks).Pairwise
          (fun e₁ e₂ => e₂.1.aggregateScore ≤ e₁.1.aggregateScore)) := by
  have h := render_sorted_by_score Sample.env Sample.env_valid Sample.rankedInput "main" "dev"
    Sample.rankedInput_scores
  refine ⟨Sample.env_valid, Sample.rankedInput_scores, by decide, by decide, ?_, ?_⟩
  · obtain ⟨_, aks, _, _, _, _, ha, _, rfl, _, _, _, _, _, hp, _⟩ :=
      h.1 Sample.rankedReport (by decide)
    exact ⟨aks, ha, hp.imp (fun h => h.1)⟩
  · obtain ⟨_, aks, _, _, _, _, ha, _, rfl, _, _, _, _, _, hp, _⟩ :=
      h.2 Sample.rankedComment (by decide)
    exact ⟨aks, ha, hp.imp (fun h => h.1)⟩

/-! ## C4 -/

/-- C4, counterexample. Two runs on the same input and labels, in environments
that differ only in the order in which `range` visits a map, give different
reports: with `a` and `b` both added without assessment, in this order, the one
run renders `a` first and the other renders `b` first, against the input order. -/
theorem render_order_depends_on_range :
    Sample.env.Valid ∧ Sample.envReversed.Valid ∧
    Sample.envReversed = Sample.env.withRange (fun m => m.keys.reverse) ∧
    Output.dependencydiffResultsAsMarkdown Sample.env Sample.tiedInput "main" "dev" =
      .ok Sample.tiedReport ∧
    Output.dependencydiffResultsAsMarkdown Sample.envReversed Sample.tiedInput "main" "dev" =
      .ok Sample.tiedReportReversed ∧
    Sample.tiedReport ≠ Sample.tiedReportReversed :=
  ⟨Sample.env_valid, Sample.envReversed_valid, rfl, by decide, by decide, by decide⟩

theorem sortKeysLoop_withRange (env : Env) (range : GoMap → List String) (doc : env.Doc)
    (m : GoMap) (ks : List String) (acc : List scoreAndDependencyName) :
    sortKeysLoop (env.withRange range) doc m ks acc = sortKeysLoop env doc m ks acc := by
  induction ks generalizing acc with
  | nil => rfl
  | cons k ks ih =>
    unfold sortKeysLoop
    cases (m.index k).ScorecardResult with
    | none => exact ih _
    | some sc =>
      simp only []
      have : (env.withRange range).getAggregateScore sc doc = env.getAggregateScore sc doc := rfl
      rw [this]
      cases env.getAggregateScore sc doc with
      | error e => rfl
      | ok s => exact ih _

theorem getDependencySortKeys_withRange (env : Env) (range : GoMap → List String) (m : GoMap)
    (h : range m = env.mapRange m) :
    getDependencySortKeys (env.withRange range) m = getDependencySortKeys env m := by
  cases env with
  | mk Doc docsRead gas mr ee tl pe sp =>
    cases docsRead with
    | error e => rfl
    | ok doc =>
      have h' : range m = mr m := h
      show sortKeysLoop ((Env.mk Doc (.ok doc) gas mr ee tl pe sp).withRange range) doc m
        (range m) [] = sortKeysLoop (Env.mk Doc (.ok doc) gas mr ee tl pe sp) doc m (mr m) []
      rw [h', sortKeysLoop_withRange]

/-- The entries of the second loop of output.go are those of the sorted keys whose
name is not a key of `added`. -/
theorem Output.removedEntries_keys (env : Env) (hv : env.Valid) (ds : List DependencyCheckResult)
    (rks : List scoreAndDependencyName)
    (hr : getDependencySortKeys env (classify ds).2 = .ok rks) :
    (Output.removedEntries (classify ds).1 (classify ds).2 rks).map Prod.fst =
      (sliceStable scoreGreater rks).filter
        (fun key => decide (key.dependencyName ∉ (classify ds).1.keys)) := by
  obtain ⟨_, _, _, hk⟩ := sortedKeys_facts env hv _ (classify_snd_wellKeyed ds) rks hr
  unfold Output.removedEntries
  generalize sliceStable scoreGreater rks = keys at hk
  induction keys with
  | nil => rfl
  | cons key rest ih =>
    rw [entriesOf_cons]
    obtain ⟨d, hd, _⟩ := hk key (List.mem_cons_self _ _)
    have ih' := ih (fun k hk' => hk k (List.mem_cons_of_mem _ hk'))
    by_cases hA : key.dependencyName ∈ (classify ds).1.keys
    · obtain ⟨dA, hdA⟩ := GoMap.exists_get?_of_mem_keys _ _ hA
      rw [Output.removedEntry_skip_output _ _ key dA hdA,
        List.filter_cons_of_neg (by simpa using hA)]
      simpa using ih'
    · have hdA := (GoMap.get?_eq_none_iff _ _).mpr hA
      obtain ⟨f, hf⟩ :=
        Output.packageAsMarkdown_some_output d.Name d.Version d.SourceRepository Removed
      rw [← (classify_snd_get?_some ds _ d hd).2.1] at hf
      rw [Output.removedEntry_removed_output _ _ key d f hdA hd hf,
        List.filter_cons_of_pos (by simpa using hA)]
      simpa using ih'

theorem filter_filter_comm {α : Type} (p q : α → Bool) (l : List α) :
    (l.filter p).filter q = (l.filter q).filter p := by
  rw [List.filter_filter, List.filter_filter]
  congr 1
  funext a
  exact Bool.and_comm _ _

/-- C4, amended. The report of output.go is a function of the input, the labels
and the order in which `range` visits the maps `added` and `removed`: another
order of `range` that agrees on these two maps gives the same result.  The names
of the unsorted keys are in the order of `range`, and the entries of one aggregate
score stand in the order of their unsorted keys: ties keep the order of `range`. -/
theorem render_determined_by_range (env : Env) (hv : env.Valid)
    (ds : List DependencyCheckResult) (base head : String) :
    (∀ range : GoMap → List String,
      range (classify ds).1 = env.mapRange (classify ds).1 →
      range (classify ds).2 = env.mapRange (classify ds).2 →
      Output.dependencydiffResultsAsMarkdown (env.withRange range) ds base head =
        Output.dependencydiffResultsAsMarkdown env ds base head) ∧
    (∀ out, Output.dependencydiffResultsAsMarkdown env ds base head = .ok out →
      ∃ aks rks addedEntries removedEntries,
        getDependencySortKeys env (classify ds).1 = .ok aks ∧
        getDependencySortKeys env (classify ds).2 = .ok rks ∧
        addedEntries = Output.addedEntries (classify ds).1 (classify ds).2 aks ∧
        removedEntries = Output.removedEntries (classify ds).1 (classify ds).2 rks ∧
        out = Output.assemble (reportBody addedEntries removedEntries) base head ∧
        aks.map (fun key => key.dependencyName) = env.mapRange (classify ds).1 ∧
        rks.map (fun key => key.dependencyName) = env.mapRange (classify ds).2 ∧
        ∀ s : ℚ,
          (addedEntries.map Prod.fst).filter (fun key => decide (key.aggregateScore = s)) =
            aks.filter (fun key => decide (key.aggregateScore = s)) ∧
          (removedEntries.map Prod.fst).filter (fun key => decide (key.aggregateScore = s)) =
            (rks.filter (fun key => decide (key.aggregateScore = s))).filter
              (fun key => decide (key.dependencyName ∉ (classify ds).1.keys))) := by
  constructor
  · intro range hA hR
    simp only [Output.dependencydiffResultsAsMarkdown,
      getDependencySortKeys_withRange env range _ hA,
      getDependencySortKeys_withRange env range _ hR]
  · intro out h
    obtain ⟨aks, rks, ha, hr, hout⟩ := Output.render_ok_output env ds base head out h
    refine ⟨aks, rks, _, _, ha, hr, rfl, rfl, hout,
      sortKeys_names env hv _ (classify_fst_wellKeyed ds) aks ha,
      sortKeys_names env hv _ (classify_snd_wellKeyed ds) rks hr, ?_⟩
    intro s
    constructor
    · rw [Output.addedEntries_keys_output env hv ds aks ha, sliceStable_filter]
    · rw [Output.removedEntries_keys env hv ds rks hr, filter_filter_comm, sliceStable_filter]

/-- C4, witness: `tiedInput` rendered with `range` in the order of the map. -/
theorem render_determined_by_range_witness :
    Sample.env.Valid ∧
    Output.dependencydiffResultsAsMarkdown Sample.env Sample.tiedInput "main" "dev" =
      .ok Sample.tiedReport ∧
    Output.dependencydiffResultsAsMarkdown (Sample.env.withRange Sample.env.mapRange)
      Sample.tiedInput "main" "dev" = .ok Sample.tiedReport ∧
    ∃ aks, getDependencySortKeys Sample.env (classify Sample.tiedInput).1 = .ok aks ∧
      aks.map (fun key => key.dependencyName) = ["a", "b"] ∧
      ((Output.addedEntries (classify Sample.tiedInput).1 (classify Sample.tiedInput).2
        aks).map Prod.fst).filter (fun key => decide (key.aggregateScore = negInf)) =
        aks.filter (fun key => decide (key.aggregateScore = negInf)) := by
  have h := render_determined_by_range Sample.env Sample.env_valid Sample.tiedInput "main" "dev"
  have h0 : Output.dependencydiffResultsAsMarkdown Sample.env Sample.tiedInput "main" "dev" =
      .ok Sample.tiedReport := by decide
  refine ⟨Sample.env_valid, h0, ?_, ?_⟩
  · rw [h.1 Sample.env.mapRange rfl rfl]
    exact h0
  · obtain ⟨aks, _, _, _, ha, _, rfl, _, _, hn, _, hs⟩ := h.2 Sample.tiedReport h0
    exact ⟨aks, ha, hn, (hs negInf).1⟩

/-! ## Lemmas on the outcomes of a run -/

theorem forKeys_total (body : scoreAndDependencyName → Except Failure (Option String))
    (keys : List scoreAndDependencyName) (acc : String)
    (h : ∀ key ∈ keys, (∃ o, body key = .ok o) ∨ (∃ msg, body key = .error (.error msg))) :
    (∃ r, forKeys body keys acc = .ok r) ∨ (∃ msg, forKeys body keys acc = .error (.error msg)) := by
  induction keys generalizing acc with
  | nil => exact Or.inl ⟨acc, rfl⟩
  | cons key rest ih =>
    unfold forKeys
    rcases h key (List.mem_cons_self _ _) with ⟨o, ho⟩ | ⟨msg, hmsg⟩
    · rw [ho]
      cases o with
      | none => exact ih _ (fun k hk => h k (List.mem_cons_of_mem _ hk))
      | some current => exact ih _ (fun k hk => h k (List.mem_cons_of_mem _ hk))
    · rw [hmsg]
      exact Or.inr ⟨msg, rfl⟩

theorem Output.addedEntry_total_output (ds : List DependencyCheckResult) (key : scoreAndDependencyName) :
    ∃ o, Output.addedEntry (classify ds).1 (classify ds).2 key = .ok o := by
  cases hA : (classify ds).1.get? key.dependencyName with
  | none => exact ⟨none, Output.addedEntry_none_output _ _ key hA⟩
  | some d =>
    obtain ⟨text, ht⟩ := Output.addedEntry_emits_output _ _ key d hA
      (classify_fst_get?_some ds _ d hA).2.1
      (fun dR hdR => (classify_snd_get?_some ds _ dR hdR).2.1)
    exact ⟨some text, ht⟩

theorem Output.removedEntry_total_output (ds : List DependencyCheckResult)
    (key : scoreAndDependencyName) :
    ∃ o, Output.removedEntry (classify ds).1 (classify ds).2 key = .ok o := by
  cases hA : (classify ds).1.get? key.dependencyName with
  | some d => exact ⟨none, Output.removedEntry_skip_output _ _ key d hA⟩
  | none =>
    cases hR : (classify ds).2.get? key.dependencyName with
    | none => exact ⟨none, Output.removedEntry_none_output _ _ key hR⟩
    | some d =>
      obtain ⟨f, hf⟩ :=
        Output.packageAsMarkdown_some_output d.Name d.Version d.SourceRepository Removed
      rw [← (classify_snd_get?_some ds _ d hR).2.1] at hf
      exact ⟨_, Output.removedEntry_removed_output _ _ key d f hA hR hf⟩

theorem CommentMarkdown.addedEntry_total_comment (env : Env) (ds : List DependencyCheckResult)
    (key : scoreAndDependencyName) :
    (∃ o, CommentMarkdown.addedEntry env (classify ds).1 (classify ds).2 key = .ok o) ∨
      (∃ msg, CommentMarkdown.addedEntry env (classify ds).1 (classify ds).2 key =
        .error (.error msg)) := by
  cases hA : (classify ds).1.get? key.dependencyName with
  | none => exact Or.inl ⟨none, CommentMarkdown.addedEntry_none_comment env _ _ key hA⟩
  | some d =>
    rcases CommentMarkdown.depsDevPart_total env d with ⟨tag, ht⟩ | ⟨msg, hmsg⟩
    · have h0 : ∃ o, CommentMarkdown.addedEntry env (classify ds).1 (classify ds).2 key =
          .ok o := by
        obtain ⟨f, hf⟩ :=
          CommentMarkdown.packageAsMarkdown_some_comment d.Name d.Version d.SourceRepository Added
        rw [← (classify_fst_get?_some ds _ d hA).2.1] at hf
        cases hr : (classify ds).2.get? key.dependencyName with
        | none =>
          exact ⟨_, CommentMarkdown.addedEntry_added_comment env _ _ key d tag f hA hr ht hf⟩
        | some dR =>
          obtain ⟨g, hg⟩ := CommentMarkdown.packageAsMarkdown_some_comment dR.Name dR.Version
            dR.SourceRepository Removed
          rw [← (classify_snd_get?_some ds _ dR hr).2.1] at hg
          exact ⟨_, CommentMarkdown.addedEntry_updated_comment env _ _ key d dR tag f g hA hr ht
            hf hg⟩
      exact Or.inl h0
    · exact Or.inr ⟨msg, CommentMarkdown.addedEntry_error env _ _ key d _ hA hmsg⟩

theorem CommentMarkdown.removedEntry_total_comment (ds : List DependencyCheckResult)
    (key : scoreAndDependencyName) :
    ∃ o, CommentMarkdown.removedEntry (classify ds).1 (classify ds).2 key = .ok o := by
  cases hA : (classify ds).1.get? key.dependencyName with
  | some d => exact ⟨none, CommentMarkdown.removedEntry_skip_comment _ _ key d hA⟩
  | none =>
    cases hR : (classify ds).2.get? key.dependencyName with
    | none => exact ⟨none, CommentMarkdown.removedEntry_none_comment _ _ key hR⟩
    | some d =>
      obtain ⟨f, hf⟩ :=
        CommentMarkdown.packageAsMarkdown_some_comment d.Name d.Version d.SourceRepository Removed
      rw [← (classify_snd_get?_some ds _ d hR).2.1] at hf
      exact ⟨_, CommentMarkdown.removedEntry_removed_comment _ _ key d f hA hR hf⟩

/-- A run of output.go returns a report or an error: it does not panic. -/
theorem Output.render_total_output (env : Env) (ds : List DependencyCheckResult) (base head : String) :
    (∃ out, Output.dependencydiffResultsAsMarkdown env ds base head = .ok out) ∨
      (∃ msg, Output.dependencydiffResultsAsMarkdown env ds base head = .error (.error msg)) := by
  rcases getDependencySortKeys_total env (classify ds).1 with ⟨aks, ha⟩ | ⟨msg, ha⟩
  · rcases getDependencySortKeys_total env (classify ds).2 with ⟨rks, hr⟩ | ⟨msg, hr⟩
    · obtain ⟨r1, h1⟩ := forKeys_of_ok (Output.addedEntry (classify ds).1 (classify ds).2)
        (sliceStable scoreGreater aks) "" (fun key _ => Output.addedEntry_total_output ds key)
      obtain ⟨r2, h2⟩ := forKeys_of_ok (Output.removedEntry (classify ds).1 (classify ds).2)
        (sliceStable scoreGreater rks) r1 (fun key _ => Output.removedEntry_total_output ds key)
      exact Or.inl ⟨Output.assemble r2 base head, by
        simp only [Output.dependencydiffResultsAsMarkdown, ha, hr, h1, h2]⟩
    · exact Or.inr ⟨msg, by simp only [Output.dependencydiffResultsAsMarkdown, ha, hr]⟩
  · exact Or.inr ⟨msg, by simp only [Output.dependencydiffResultsAsMarkdown, ha]⟩

/-- A run of comment_markdown.go returns a report or an error: it does not panic. -/
theorem CommentMarkdown.render_total_comment (env : Env) (ds : List DependencyCheckResult)
    (base head : String) :
    (∃ out, CommentMarkdown.dependencydiffResultsAsMarkdown env ds base head = .ok out) ∨
      (∃ msg, CommentMarkdown.dependencydiffResultsAsMarkdown env ds base head =
        .error (.error msg)) := by
  rcases getDependencySortKeys_total env (classify ds).1 with ⟨aks, ha⟩ | ⟨msg, ha⟩
  · rcases getDependencySortKeys_total env (classify ds).2 with ⟨rks, hr⟩ | ⟨msg, hr⟩
    · rcases forKeys_total (CommentMarkdown.addedEntry env (classify ds).1 (classify ds).2)
        (sliceStable scoreGreater aks) ""
        (fun key _ => CommentMarkdown.addedEntry_total_comment env ds key) with ⟨r1, h1⟩ | ⟨msg, h1⟩
      · obtain ⟨r2, h2⟩ :=
          forKeys_of_ok (CommentMarkdown.removedEntry (classify ds).1 (classify ds).2)
            (sliceStable scoreGreater rks) r1
            (fun key _ => CommentMarkdown.removedEntry_total_comment ds key)
        exact Or.inl ⟨CommentMarkdown.assemble r2 base head, by
          simp only [CommentMarkdown.dependencydiffResultsAsMarkdown,
            dependencySliceToMaps_eq_classify, ha, hr, h1, h2]⟩
      · exact Or.inr ⟨msg, by
          simp only [CommentMarkdown.dependencydiffResultsAsMarkdown,
            dependencySliceToMaps_eq_classify, ha, hr, h1]⟩
    · exact Or.inr ⟨msg, by
        simp only [CommentMarkdown.dependencydiffResultsAsMarkdown,
          dependencySliceToMaps_eq_classify, ha, hr]⟩
  · exact Or.inr ⟨msg, by
      simp only [CommentMarkdown.dependencydiffResultsAsMarkdown,
        dependencySliceToMaps_eq_classify, ha]⟩

/-- A failing score of a record of the map makes `getDependencySortKeys` fail. -/
theorem getDependencySortKeys_fails (env : Env) (hv : env.Valid) (m : GoMap) (n : String)
    (d : DependencyCheckResult) (sc : ScorecardResult) (doc : env.Doc) (e : String)
    (hd : m.get? n = some d) (hsc : d.ScorecardResult = some sc)
    (hdoc : env.docsRead = .ok doc) (he : env.getAggregateScore sc doc = .error e) :
    ∃ msg, getDependencySortKeys env m = .error (.error msg) := by
  have hk : n ∈ env.mapRange m := by
    rw [(hv m).mem_iff, GoMap.mem_keys_iff, hd]
    rfl
  apply getDependencySortKeys_error env m doc n e hdoc hk
  rw [m.index_of_get? n d hd]
  simp [rankOf, hsc, he]

/-! ## C5 -/

/-- C5. Rendering is all or nothing, in both renderers: when the aggregate score
of a record held in `added` or in `removed` cannot be computed, the call returns
an error and no report; and every call returns either a report and no error, or
an error and no report. -/
theorem render_all_or_nothing (env : Env) (hv : env.Valid) (ds : List DependencyCheckResult)
    (base head : String) :
    ((∃ n d sc doc e,
        ((classify ds).1.get? n = some d ∨ (classify ds).2.get? n = some d) ∧
        d.ScorecardResult = some sc ∧ env.docsRead = .ok doc ∧
        env.getAggregateScore sc doc = .error e) →
      (∃ msg, Output.dependencydiffResultsAsMarkdown env ds base head = .error (.error msg)) ∧
      (∃ msg, CommentMarkdown.dependencydiffResultsAsMarkdown env ds base head =
        .error (.error msg))) ∧
    ((∃ out, Output.dependencydiffResultsAsMarkdown env ds base head = .ok out) ∨
      (∃ msg, Output.dependencydiffResultsAsMarkdown env ds base head = .error (.error msg))) ∧
    ((∃ out, CommentMarkdown.dependencydiffResultsAsMarkdown env ds base head = .ok out) ∨
      (∃ msg, CommentMarkdown.dependencydiffResultsAsMarkdown env ds base head =
        .error (.error msg))) := by
  refine ⟨?_, Output.render_total_output env ds base head, CommentMarkdown.render_total_comment env ds base head⟩
  rintro ⟨n, d, sc, doc, e, hd, hsc, hdoc, he⟩
  have hkeys : (∃ msg, getDependencySortKeys env (classify ds).1 = .error (.error msg)) ∨
      ((∃ aks, getDependencySortKeys env (classify ds).1 = .ok aks) ∧
        ∃ msg, getDependencySortKeys env (classify ds).2 = .error (.error msg)) := by
    rcases hd with hd | hd
    · exact Or.inl (getDependencySortKeys_fails env hv _ n d sc doc e hd hsc hdoc he)
    · rcases getDependencySortKeys_total env (classify ds).1 with ha | ha
      · exact Or.inr ⟨ha, getDependencySortKeys_fails env hv _ n d sc doc e hd hsc hdoc he⟩
      · exact Or.inl ha
  rcases hkeys with ⟨msg, ha⟩ | ⟨⟨aks, ha⟩, msg, hr⟩
  · exact ⟨⟨msg, by simp only [Output.dependencydiffResultsAsMarkdown, ha]⟩,
      ⟨msg, by simp only [CommentMarkdown.dependencydiffResultsAsMarkdown,
        dependencySliceToMaps_eq_classify, ha]⟩⟩
  · exact ⟨⟨msg, by simp only [Output.dependencydiffResultsAsMarkdown, ha, hr]⟩,
      ⟨msg, by simp only [CommentMarkdown.dependencydiffResultsAsMarkdown,
        dependencySliceToMaps_eq_classify, ha, hr]⟩⟩

/-- C5, witness: a removed record whose assessment has no check, for which the
score of the sample environment fails, after an added record that scores 5. -/
theorem render_all_or_nothing_witness :
    Sample.env.Valid ∧
    (classify Sample.failingInput).2.get? "bad" = some (Sample.unscoredDep "bad") ∧
    (Sample.unscoredDep "bad").ScorecardResult = some ⟨[]⟩ ∧
    Sample.env.getAggregateScore ⟨[]⟩ () = .error "no checks" ∧
    (∃ msg, Output.dependencydiffResultsAsMarkdown Sample.env Sample.failingInput "main" "dev" =
      .error (.error msg)) ∧
    (∃ msg, CommentMarkdown.dependencydiffResultsAsMarkdown Sample.env Sample.failingInput
      "main" "dev" = .error (.error msg)) := by
  have h := (render_all_or_nothing Sample.env Sample.env_valid Sample.failingInput "main"
    "dev").1 ⟨"bad", Sample.unscoredDep "bad", ⟨[]⟩, (), "no checks", Or.inr (by decide), rfl, rfl,
      rfl⟩
  exact ⟨Sample.env_valid, by decide, rfl, rfl, h.1, h.2⟩

/-! ## Lemmas on the body of the report -/

theorem Output.addedEntry_form_output (ds : List DependencyCheckResult) (key : scoreAndDependencyName)
    (text : String)
    (h : Output.addedEntry (classify ds).1 (classify ds).2 key = .ok (some text)) :
    ∃ rest, text = addedTag ++ rest := by
  cases hA : (classify ds).1.get? key.dependencyName with
  | none =>
    rw [Output.addedEntry_none_output _ _ key hA] at h
    cases h
  | some d =>
    obtain ⟨f, hf⟩ := Output.packageAsMarkdown_some_output d.Name d.Version d.SourceRepository Added
    rw [← (classify_fst_get?_some ds _ d hA).2.1] at hf
    cases hr : (classify ds).2.get? key.dependencyName with
    | none =>
      rw [Output.addedEntry_added_output _ _ key d f hA hr hf] at h
      cases h
      exact ⟨scoreTag key.aggregateScore ++ f, by simp [String.append_assoc]⟩
    | some dR =>
      obtain ⟨g, hg⟩ :=
        Output.packageAsMarkdown_some_output dR.Name dR.Version dR.SourceRepository Removed
      rw [← (classify_snd_get?_some ds _ dR hr).2.1] at hg
      rw [Output.addedEntry_updated_output _ _ key d dR f g hA hr hf hg] at h
      cases h
      exact ⟨updatedTag ++ scoreTag key.aggregateScore ++ f ++ g, by simp [String.append_assoc]⟩

theorem Output.removedEntry_form_output (ds : List DependencyCheckResult) (key : scoreAndDependencyName)
    (text : String)
    (h : Output.removedEntry (classify ds).1 (classify ds).2 key = .ok (some text)) :
    ∃ rest, text = removedTag ++ rest := by
  have hA := Output.removedEntry_some_output _ _ key text h
  cases hR : (classify ds).2.get? key.dependencyName with
  | none =>
    rw [Output.removedEntry_none_output _ _ key hR] at h
    cases h
  | some d =>
    obtain ⟨f, hf⟩ :=
      Output.packageAsMarkdown_some_output d.Name d.Version d.SourceRepository Removed
    rw [← (classify_snd_get?_some ds _ d hR).2.1] at hf
    rw [Output.removedEntry_removed_output _ _ key d f hA hR hf] at h
    cases h
    exact ⟨scoreTag key.aggregateScore ++ f, by simp [String.append_assoc]⟩

theorem CommentMarkdown.addedEntry_form_comment (env : Env) (ds : List DependencyCheckResult)
    (key : scoreAndDependencyName) (text : String)
    (h : CommentMarkdown.addedEntry env (classify ds).1 (classify ds).2 key = .ok (some text)) :
    ∃ rest, text = addedTag ++ rest := by
  cases hA : (classify ds).1.get? key.dependencyName with
  | none =>
    rw [CommentMarkdown.addedEntry_none_comment env _ _ key hA] at h
    cases h
  | some d =>
    cases ht : CommentMarkdown.depsDevPart env d with
    | error f =>
      rw [CommentMarkdown.addedEntry_error env _ _ key d f hA ht] at h
      cases h
    | ok tag =>
      obtain ⟨f, hf⟩ :=
        CommentMarkdown.packageAsMarkdown_some_comment d.Name d.Version d.SourceRepository Added
      rw [← (classify_fst_get?_some ds _ d hA).2.1] at hf
      cases hr : (classify ds).2.get? key.dependencyName with
      | none =>
        rw [CommentMarkdown.addedEntry_added_comment env _ _ key d tag f hA hr ht hf] at h
        cases h
        exact ⟨tag ++ scoreTag key.aggregateScore ++ f, by simp [String.append_assoc]⟩
      | some dR =>
        obtain ⟨g, hg⟩ := CommentMarkdown.packageAsMarkdown_some_comment dR.Name dR.Version
          dR.SourceRepository Removed
        rw [← (classify_snd_get?_some ds _ dR hr).2.1] at hg
        rw [CommentMarkdown.addedEntry_updated_comment env _ _ key d dR tag f g hA hr ht hf hg]
          at h
        cases h
        exact ⟨updatedTag ++ tag ++ scoreTag key.aggregateScore ++ f ++ g,
          by simp [String.append_assoc]⟩

theorem CommentMarkdown.removedEntry_form_comment (ds : List DependencyCheckResult)
    (key : scoreAndDependencyName) (text : String)
    (h : CommentMarkdown.removedEntry (classify ds).1 (classify ds).2 key = .ok (some text)) :
    ∃ rest, text = removedTag ++ rest := by
  have hA := CommentMarkdown.removedEntry_some_comment _ _ key text h
  cases hR : (classify ds).2.get? key.dependencyName with
  | none =>
    rw [CommentMarkdown.removedEntry_none_comment _ _ key hR] at h
    cases h
  | some d =>
    obtain ⟨f, hf⟩ :=
      CommentMarkdown.packageAsMarkdown_some_comment d.Name d.Version d.SourceRepository Removed
    rw [← (classify_snd_get?_some ds _ d hR).2.1] at hf
    rw [CommentMarkdown.removedEntry_removed_comment _ _ key d f hA hR hf] at h
    cases h
    exact ⟨(if key.aggregateScore ≠ InconclusiveResultScore then scoreTag key.aggregateScore
      else "") ++ f, by simp [String.append_assoc]⟩

theorem head?_data_append (s t : String) (c : Char) (h : s.data.head? = some c) :
    (s ++ t).data.head? = some c := by
  rw [String.data_append, List.head?_append, h]
  rfl

/-- A body whose first entry starts with a tag is not the no-changes line. -/
theorem concatEntries_ne_noChangesLine (texts : List String) (hne : texts ≠ [])
    (h : ∀ t ∈ texts, ∃ rest, t = addedTag ++ rest ∨ t = removedTag ++ rest) :
    concatEntries texts ≠ noChangesLine := by
  cases texts with
  | nil => exact absurd rfl hne
  | cons t ts =>
    intro e
    rw [concatEntries_cons] at e
    have ht : t.data.head? = some ' ' := by
      obtain ⟨rest, hr | hr⟩ := h t (List.mem_cons_self _ _)
      · rw [hr]
        exact head?_data_append _ _ _ (by decide)
      · rw [hr]
        exact head?_data_append _ _ _ (by decide)
    have e' := congrArg (fun s => s.data.head?) e
    simp only [] at e'
    rw [head?_data_append _ _ _ (head?_data_append _ _ _ ht)] at e'
    exact absurd e' (by decide)

/-- The entries of the second loop of comment_markdown.go are those of the sorted
keys whose name is not a key of `added`. -/
theorem CommentMarkdown.removedEntries_keys_comment (env : Env) (hv : env.Valid)
    (ds : List DependencyCheckResult) (rks : List scoreAndDependencyName)
    (hr : getDependencySortKeys env (classify ds).2 = .ok rks) :
    (CommentMarkdown.removedEntries (classify ds).1 (classify ds).2 rks).map Prod.fst =
      (sliceStable scoreGreater rks).filter
        (fun key => decide (key.dependencyName ∉ (classify ds).1.keys)) := by
  obtain ⟨_, _, _, hk⟩ := sortedKeys_facts env hv _ (classify_snd_wellKeyed ds) rks hr
  unfold CommentMarkdown.removedEntries
  generalize sliceStable scoreGreater rks = keys at hk
  induction keys with
  | nil => rfl
  | cons key rest ih =>
    rw [entriesOf_cons]
    obtain ⟨d, hd, _⟩ := hk key (List.mem_cons_self _ _)
    have ih' := ih (fun k hk' => hk k (List.mem_cons_of_mem _ hk'))
    by_cases hA : key.dependencyName ∈ (classify ds).1.keys
    · obtain ⟨dA, hdA⟩ := GoMap.exists_get?_of_mem_keys _ _ hA
      rw [CommentMarkdown.removedEntry_skip_comment _ _ key dA hdA,
        List.filter_cons_of_neg (by simpa using hA)]
      simpa using ih'
    · have hdA := (GoMap.get?_eq_none_iff _ _).mpr hA
      obtain ⟨f, hf⟩ :=
        CommentMarkdown.packageAsMarkdown_some_comment d.Name d.Version d.SourceRepository Removed
      rw [← (classify_snd_get?_some ds _ d hd).2.1] at hf
      rw [CommentMarkdown.removedEntry_removed_comment _ _ key d f hdA hd hf,
        List.filter_cons_of_pos (by simpa using hA)]
      simpa using ih'

/-- Without a record that is Added or Removed both maps are empty. -/
theorem classify_eq_nil (ds : List DependencyCheckResult)
    (h : ∀ d ∈ ds, d.ChangeType ≠ some Added ∧ d.ChangeType ≠ some Removed) :
    (classify ds).1 = [] ∧ (classify ds).2 = [] := by
  constructor
  · have hk : (classify ds).1.keys = [] := by
      rw [List.eq_nil_iff_forall_not_mem]
      intro n hn
      obtain ⟨d, hd, hct, _⟩ := (classify_fst_mem_keys ds n).mp hn
      exact (h d hd).1 hct
    exact List.map_eq_nil_iff.mp hk
  · have hk : (classify ds).2.keys = [] := by
      rw [List.eq_nil_iff_forall_not_mem]
      intro n hn
      obtain ⟨d, hd, hct, _⟩ := (classify_snd_mem_keys ds n).mp hn
      exact (h d hd).2 hct
    exact List.map_eq_nil_iff.mp hk

/-- Over the empty map `getDependencySortKeys` returns no key. -/
theorem getDependencySortKeys_nil (env : Env) (hv : env.Valid)
    (keys : List scoreAndDependencyName) (h : getDependencySortKeys env [] = .ok keys) :
    keys = [] := by
  have h1 := sortKeys_names env hv [] (fun n d hd => by simp [GoMap.get?] at hd) keys h
  have h2 : env.mapRange [] = [] := (hv []).eq_nil
  rw [h2] at h1
  exact List.map_eq_nil_iff.mp h1

/-- With a record that is Added or Removed one of the loops appends an entry:
either `added` has a key, or a key of `removed` is not a key of `added`. -/
theorem exists_entry_key (env : Env) (hv : env.Valid) (ds : List DependencyCheckResult)
    (aks rks : List scoreAndDependencyName)
    (ha : getDependencySortKeys env (classify ds).1 = .ok aks)
    (hr : getDependencySortKeys env (classify ds).2 = .ok rks)
    (h : ∃ d ∈ ds, d.ChangeType = some Added ∨ d.ChangeType = some Removed) :
    sliceStable scoreGreater aks ≠ [] ∨
      (sliceStable scoreGreater rks).filter
        (fun key => decide (key.dependencyName ∉ (classify ds).1.keys)) ≠ [] := by
  obtain ⟨hpA, _⟩ := sortedKeys_facts env hv _ (classify_fst_wellKeyed ds) aks ha
  obtain ⟨hpR, _⟩ := sortedKeys_facts env hv _ (classify_snd_wellKeyed ds) rks hr
  by_cases hA : (classify ds).1.keys = []
  · right
    obtain ⟨d, hd, hct⟩ := h
    have hR : d.Name ∈ (classify ds).2.keys := by
      rcases hct with hct | hct
      · have : d.Name ∈ (classify ds).1.keys := (classify_fst_mem_keys ds _).mpr ⟨d, hd, hct, rfl⟩
        rw [hA] at this
        cases this
      · exact (classify_snd_mem_keys ds _).mpr ⟨d, hd, hct, rfl⟩
    obtain ⟨key, hkey, hname⟩ := exists_key_of_mem_keys _ _ hpR _ hR
    apply List.ne_nil_of_mem (a := key)
    rw [List.mem_filter]
    refine ⟨hkey, ?_⟩
    rw [hA]
    simp
  · left
    intro e
    rw [e] at hpA
    exact hA hpA.symm.eq_nil

/-! ## C6 -/

/-- C6. In a rendered report, of either renderer, the body is the fixed line
`No dependency changes found.` and no entry when no record of the input is Added
or Removed (the empty input, or one of Updated and kind-less records only);
otherwise the body is the concatenation of the entries of the two loops, of which
there is at least one, and is not that line. -/
theorem render_no_changes_iff (env : Env) (hv : env.Valid) (ds : List DependencyCheckResult)
    (base head : String) :
    (∀ out, Output.dependencydiffResultsAsMarkdown env ds base head = .ok out →
      ((∀ d ∈ ds, d.ChangeType ≠ some Added ∧ d.ChangeType ≠ some Removed) →
        out = Output.titleLine ++ referenceLine base head ++ (noChangesLine ++ "\n")) ∧
      ((∃ d ∈ ds, d.ChangeType = some Added ∨ d.ChangeType = some Removed) →
        ∃ aks rks addedEntries removedEntries,
          getDependencySortKeys env (classify ds).1 = .ok aks ∧
          getDependencySortKeys env (classify ds).2 = .ok rks ∧
          addedEntries = Output.addedEntries (classify ds).1 (classify ds).2 aks ∧
          removedEntries = Output.removedEntries (classify ds).1 (classify ds).2 rks ∧
          addedEntries ++ removedEntries ≠ [] ∧
          reportBody addedEntries removedEntries ≠ "" ∧
          reportBody addedEntries removedEntries ≠ noChangesLine ∧
          out = Output.titleLine ++ referenceLine base head ++
            (reportBody addedEntries removedEntries ++ "\n"))) ∧
    (∀ out, CommentMarkdown.dependencydiffResultsAsMarkdown env ds base head = .ok out →
      ((∀ d ∈ ds, d.ChangeType ≠ some Added ∧ d.ChangeType ≠ some Removed) →
        out = CommentMarkdown.titleLine ++ referenceLine base head ++ (noChangesLine ++ "\n") ++
          CommentMarkdown.experimentalFeature) ∧
      ((∃ d ∈ ds, d.ChangeType = some Added ∨ d.ChangeType = some Removed) →
        ∃ aks rks addedEntries removedEntries,
          getDependencySortKeys env (classify ds).1 = .ok aks ∧
          getDependencySortKeys env (classify ds).2 = .ok rks ∧
          addedEntries = CommentMarkdown.addedEntries env (classify ds).1 (classify ds).2 aks ∧
          removedEntries = CommentMarkdown.removedEntries (classify ds).1 (classify ds).2 rks ∧
          addedEntries ++ removedEntries ≠ [] ∧
          reportBody addedEntries removedEntries ≠ "" ∧
          reportBody addedEntries removedEntries ≠ noChangesLine ∧
          out = CommentMarkdown.titleLine ++ referenceLine base head ++
            (reportBody addedEntries removedEntries ++ "\n") ++
              CommentMarkdown.experimentalFeature)) := by
  constructor
  · intro out h
    obtain ⟨aks, rks, ha, hr, hout⟩ := Output.render_ok_output env ds base head out h
    constructor
    · intro hnone
      obtain ⟨hA, hR⟩ := classify_eq_nil ds hnone
      rw [hA] at ha
      rw [hR] at hr
      rw [hout, getDependencySortKeys_nil env hv aks ha, getDependencySortKeys_nil env hv rks hr]
      rfl
    · intro hsome
      have hne : Output.addedEntries (classify ds).1 (classify ds).2 aks ++
          Output.removedEntries (classify ds).1 (classify ds).2 rks ≠ [] := by
        intro e
        obtain ⟨e1, e2⟩ := List.append_eq_nil.mp e
        have k1 := Output.addedEntries_keys_output env hv ds aks ha
        have k2 := Output.removedEntries_keys env hv ds rks hr
        rw [e1] at k1
        rw [e2] at k2
        rcases exists_entry_key env hv ds aks rks ha hr hsome with h1 | h1
        · exact h1 k1.symm
        · exact h1 k2.symm
      have htexts : (Output.addedEntries (classify ds).1 (classify ds).2 aks).map Prod.snd ++
          (Output.removedEntries (classify ds).1 (classify ds).2 rks).map Prod.snd ≠ [] := by
        rw [← List.map_append]
        exact fun e => hne (List.map_eq_nil_iff.mp e)
      have hbody : reportBody (Output.addedEntries (classify ds).1 (classify ds).2 aks)
          (Output.removedEntries (classify ds).1 (classify ds).2 rks) ≠ "" :=
        fun e => htexts ((concatEntries_eq_empty_iff _).mp e)
      refine ⟨aks, rks, _, _, ha, hr, rfl, rfl, hne, hbody, ?_, ?_⟩
      · apply concatEntries_ne_noChangesLine _ htexts
        intro t ht
        rcases List.mem_append.mp ht with ht | ht
        · obtain ⟨e, he, rfl⟩ := List.mem_map.mp ht
          obtain ⟨rest, hrest⟩ := Output.addedEntry_form_output ds e.1 e.2 ((mem_entriesOf _ _ e).mp he).2
          exact ⟨rest, Or.inl hrest⟩
        · obtain ⟨e, he, rfl⟩ := List.mem_map.mp ht
          obtain ⟨rest, hrest⟩ :=
            Output.removedEntry_form_output ds e.1 e.2 ((mem_entriesOf _ _ e).mp he).2
          exact ⟨rest, Or.inr hrest⟩
      · rw [hout]
        simp only [Output.assemble, hbody, if_false]
  · intro out h
    obtain ⟨aks, rks, ha, hr, hout⟩ := CommentMarkdown.render_ok_comment env ds base head out h
    constructor
    · intro hnone
      obtain ⟨hA, hR⟩ := classify_eq_nil ds hnone
      rw [hA] at ha
      rw [hR] at hr
      rw [hout, getDependencySortKeys_nil env hv aks ha, getDependencySortKeys_nil env hv rks hr]
      rfl
    · intro hsome
      have hne : CommentMarkdown.addedEntries env (classify ds).1 (classify ds).2 aks ++
          CommentMarkdown.removedEntries (classify ds).1 (classify ds).2 rks ≠ [] := by
        intro e
        obtain ⟨e1, e2⟩ := List.append_eq_nil.mp e
        have k1 := CommentMarkdown.addedEntries_keys_comment env hv ds aks ha
          (CommentMarkdown.render_loop_ok env ds base head out aks h ha)
        have k2 := CommentMarkdown.removedEntries_keys_comment env hv ds rks hr
        rw [e1] at k1
        rw [e2] at k2
        rcases exists_entry_key env hv ds aks rks ha hr hsome with h1 | h1
        · exact h1 k1.symm
        · exact h1 k2.symm
      have htexts :
          (CommentMarkdown.addedEntries env (classify ds).1 (classify ds).2 aks).map Prod.snd ++
          (CommentMarkdown.removedEntries (classify ds).1 (classify ds).2 rks).map Prod.snd ≠
            [] := by
        rw [← List.map_append]
        exact fun e => hne (List.map_eq_nil_iff.mp e)
      have hbody : reportBody (CommentMarkdown.addedEntries env (classify ds).1 (classify ds).2 aks)
          (CommentMarkdown.removedEntries (classify ds).1 (classify ds).2 rks) ≠ "" :=
        fun e => htexts ((concatEntries_eq_empty_iff _).mp e)
      refine ⟨aks, rks, _, _, ha, hr, rfl, rfl, hne, hbody, ?_, ?_⟩
      · apply concatEntries_ne_noChangesLine _ htexts
        intro t ht
        rcases List.mem_append.mp ht with ht | ht
        · obtain ⟨e, he, rfl⟩ := List.mem_map.mp ht
          obtain ⟨rest, hrest⟩ :=
            CommentMarkdown.addedEntry_form_comment env ds e.1 e.2 ((mem_entriesOf _ _ e).mp he).2
          exact ⟨rest, Or.inl hrest⟩
        · obtain ⟨e, he, rfl⟩ := List.mem_map.mp ht
          obtain ⟨rest, hrest⟩ :=
            CommentMarkdown.removedEntry_form_comment ds e.1 e.2 ((mem_entriesOf _ _ e).mp he).2
          exact ⟨rest, Or.inr hrest⟩
      · rw [hout]
        simp only [CommentMarkdown.assemble, hbody, if_false]

/-- C6, witness: the empty input renders the no-changes line in both renderers,
and `updateInput`, which has Added and Removed records, renders entries. -/
theorem render_no_changes_iff_witness :
    Sample.env.Valid ∧
    Output.dependencydiffResultsAsMarkdown Sample.env [] "main" "dev" = .ok Sample.emptyReport ∧
    CommentMarkdown.dependencydiffResultsAsMarkdown Sample.env [] "main" "dev" =
      .ok Sample.emptyComment ∧
    Sample.emptyReport =
      Output.titleLine ++ referenceLine "main" "dev" ++ (noChangesLine ++ "\n") ∧
    Sample.emptyComment =
      CommentMarkdown.titleLine ++ referenceLine "main" "dev" ++ (noChangesLine ++ "\n") ++
        CommentMarkdown.experimentalFeature ∧
    Output.dependencydiffResultsAsMarkdown Sample.env Sample.updateInput "main" "dev" =
      .ok Sample.updateReport ∧
    (∃ d ∈ Sample.updateInput, d.ChangeType = some Added ∨ d.ChangeType = some Removed) ∧
    (∃ aks rks,
      getDependencySortKeys Sample.env (classify Sample.updateInput).1 = .ok aks ∧
      getDependencySortKeys Sample.env (classify Sample.updateInput).2 = .ok rks ∧
      reportBody
        (Output.addedEntries (classify Sample.updateInput).1 (classify Sample.updateInput).2 aks)
        (Output.removedEntries (classify Sample.updateInput).1 (classify Sample.updateInput).2
          rks) ≠ noChangesLine ∧
      Sample.updateReport = Output.titleLine ++ referenceLine "main" "dev" ++
        (reportBody
          (Output.addedEntries (classify Sample.updateInput).1 (classify Sample.updateInput).2
            aks)
          (Output.removedEntries (classify Sample.updateInput).1 (classify Sample.updateInput).2
            rks) ++ "\n")) := by
  have hE := render_no_changes_iff Sample.env Sample.env_valid [] "main" "dev"
  have hU := render_no_changes_iff Sample.env Sample.env_valid Sample.updateInput "main" "dev"
  have hsome : ∃ d ∈ Sample.updateInput, d.ChangeType = some Added ∨ d.ChangeType = some Removed :=
    ⟨Sample.addedDep "foo" (some "2.0") (some 5), by decide, Or.inl rfl⟩
  refine ⟨Sample.env_valid, by decide, by decide,
    (hE.1 Sample.emptyReport (by decide)).1 (fun d hd => by cases hd),
    (hE.2 Sample.emptyComment (by decide)).1 (fun d hd => by cases hd), by decide, hsome, ?_⟩
  obtain ⟨aks, rks, _, _, ha, hr, rfl, rfl, _, _, hne, hout⟩ :=
    (hU.1 Sample.updateReport (by decide)).2 hsome
  exact ⟨aks, rks, ha, hr, hne, hout⟩

/-! ## C7 -/

/-- C7. The report of output.go does not have the form the claim states: on the
empty input with the labels `main` and `dev` no line break follows the title (the
line naming the references is glued to it) and the report ends with the
no-changes line, not with the disclaimer `experimentalFeature`, which output.go
declares and never appends. -/
theorem output_report_without_disclaimer :
    Output.dependencydiffResultsAsMarkdown Sample.env [] "main" "dev" =
      .ok ("# [Scorecard Action](https://github.com/ossf/scorecard-action) Dependency-diff Report" ++
        "Dependency-diffs (changes) between the BASE reference `main` and the HEAD reference `dev`:\n\n" ++
        "No dependency changes found.\n") ∧
    Output.titleLine.data.getLast? = some 't' ∧
    Sample.emptyReport.data.getLast? = some '\n' ∧
    Output.experimentalFeature.data.getLast? = some '\t' ∧
    CommentMarkdown.dependencydiffResultsAsMarkdown Sample.env [] "main" "dev" =
      .ok ("# [Scorecard Action](https://github.com/ossf/scorecard-action) Dependency-diff Report\n\n" ++
        "Dependency-diffs (changes) between the BASE reference `main` and the HEAD reference `dev`:\n\n" ++
        "No dependency changes found.\n" ++ CommentMarkdown.experimentalFeature) := by
  refine ⟨by decide, by decide, by decide, by decide, by decide⟩

/-- The report of comment_markdown.go has the form C7 states: the title line, the
line naming `base` and `head`, the body ended by a line break, the disclaimer. -/
theorem CommentMarkdown.report_form_comment (env : Env) (ds : List DependencyCheckResult)
    (base head out : String)
    (h : CommentMarkdown.dependencydiffResultsAsMarkdown env ds base head = .ok out) :
    ∃ body, out = CommentMarkdown.titleLine ++ referenceLine base head ++ (body ++ "\n") ++
      CommentMarkdown.experimentalFeature := by
  obtain ⟨aks, rks, _, _, hout⟩ := CommentMarkdown.render_ok_comment env ds base head out h
  rw [hout]
  unfold CommentMarkdown.assemble
  simp only []
  split
  · exact ⟨noChangesLine, rfl⟩
  · exact ⟨_, rfl⟩

/-- The report of output.go: the title, glued to the line naming `base` and `head`,
then the body ended by a line break, and nothing after it. -/
theorem Output.report_form_output (env : Env) (ds : List DependencyCheckResult)
    (base head out : String)
    (h : Output.dependencydiffResultsAsMarkdown env ds base head = .ok out) :
    ∃ body, out = Output.titleLine ++ referenceLine base head ++ (body ++ "\n") := by
  obtain ⟨aks, rks, _, _, hout⟩ := Output.render_ok_output env ds base head out h
  rw [hout]
  unfold Output.assemble
  simp only []
  split
  · exact ⟨noChangesLine, rfl⟩
  · exact ⟨_, rfl⟩

/-! ## C8 -/

/-- C8, counterexample. For a removed dependency the `packageAsMarkdown` of
output.go returns the text with the label ` (old) ` and no strike-through marker,
where that of comment_markdown.go returns the struck-through text. -/
theorem output_removed_fragment_not_struck :
    Output.packageAsMarkdown "foo" (some "1.0") none (some Removed) = .ok " foo @ 1.0 (old) " ∧
    ¬ ("~~".data <:+: " foo @ 1.0 (old) ".data) ∧
    CommentMarkdown.packageAsMarkdown "foo" (some "1.0") none (some Removed) =
      .ok " ~~foo @ 1.0~~ " := by
  refine ⟨by decide, by decide, by decide⟩

/-- The call `strings.Trim(s, " ")` removes spaces, and only spaces, at both ends. -/
theorem CommentMarkdown.trimSpaces_spec (s : String) :
    ∃ l r : List Char, s.data = l ++ (CommentMarkdown.trimSpaces s).data ++ r ∧
      (∀ c ∈ l, c = ' ') ∧ (∀ c ∈ r, c = ' ') ∧
      (CommentMarkdown.trimSpaces s).data.head? ≠ some ' ' ∧
      (CommentMarkdown.trimSpaces s).data.getLast? ≠ some ' ' := by
  let p : Char → Bool := fun c => c == ' '
  let m := s.data.dropWhile p
  refine ⟨s.data.takeWhile p, (m.reverse.takeWhile p).reverse, ?_, ?_, ?_, ?_, ?_⟩
  · have h1 : s.data = s.data.takeWhile p ++ m := (List.takeWhile_append_dropWhile p s.data).symm
    have h2 : m = (m.reverse.dropWhile p).reverse ++ (m.reverse.takeWhile p).reverse := by
      rw [← List.reverse_append, List.takeWhile_append_dropWhile, List.reverse_reverse]
    show s.data = s.data.takeWhile p ++ (m.reverse.dropWhile p).reverse ++
      (m.reverse.takeWhile p).reverse
    rw [List.append_assoc, ← h2]
    exact h1
  · intro c hc
    have := List.mem_takeWhile_imp hc
    simpa [p] using this
  · intro c hc
    have := List.mem_takeWhile_imp (List.mem_reverse.mp hc)
    simpa [p] using this
  · show ((m.reverse.dropWhile p).reverse).head? ≠ some ' '
    rw [List.head?_reverse]
    intro h
    obtain ⟨t, ht⟩ : (m.reverse.dropWhile p) <:+ m.reverse := List.dropWhile_suffix p
    have e := congrArg List.getLast? ht
    rw [List.getLast?_append, h] at e
    simp only [Option.or] at e
    rw [List.getLast?_reverse] at e
    have h := e.symm
    have hd : m.head? = some ' ' := h
    have hp : ∀ c, m.head? = some c → p c = false := by
      intro c hc
      have := List.head?_dropWhile_not p s.data
      rw [show List.dropWhile p s.data = m from rfl, hc] at this
      simpa using this
    have := hp ' ' hd
    simp [p] at this
  · show ((m.reverse.dropWhile p).reverse).getLast? ≠ some ' '
    rw [List.getLast?_reverse]
    intro h
    have := List.head?_dropWhile_not p m.reverse
    rw [h] at this
    simp [p] at this

/-- C8, amended. For every name, optional version, optional source-repository URL
and change kind, both versions of `packageAsMarkdown` build the same display text:
the name after a space, wrapped as `[ name](URL)` when the URL is present, and then
` @ version` when the version is present.  That of comment_markdown.go returns it
as it is for a kind other than Removed and, for Removed, encloses it, trimmed of
the spaces at its two ends, in ` ~~` and `~~ `.  That of output.go adds no
strike-through marker: it appends ` (new) ` for Added, ` (old) ` for Removed, and
nothing for another kind. -/
theorem packageAsMarkdown_format (name : String) (version srcRepo : Option String)
    (ct : ChangeType) :
    ∃ display : String,
      display =
        (match srcRepo with
          | some repo => "[" ++ (" " ++ name) ++ "]" ++ "(" ++ repo ++ ")"
          | none => " " ++ name) ++
        (match version with
          | some v => " @ " ++ v
          | none => "") ∧
      CommentMarkdown.packageAsMarkdown name version srcRepo (some ct) =
        .ok (if ct = Removed then " ~~" ++ CommentMarkdown.trimSpaces display ++ "~~ "
          else display) ∧
      (∃ l r : List Char, display.data = l ++ (CommentMarkdown.trimSpaces display).data ++ r ∧
        (∀ c ∈ l, c = ' ') ∧ (∀ c ∈ r, c = ' ')) ∧
      Output.packageAsMarkdown name version srcRepo (some ct) =
        .ok (display ++
          (if ct = Added then " (new) " else if ct = Removed then " (old) " else "")) := by
  refine ⟨_, rfl, ?_, ?_, ?_⟩
  · unfold CommentMarkdown.packageAsMarkdown
    cases srcRepo <;> cases version <;> by_cases h : ct = Removed <;> simp [h]
  · obtain ⟨l, r, h, hl, hr, _⟩ := CommentMarkdown.trimSpaces_spec
      ((match srcRepo with
          | some repo => "[" ++ (" " ++ name) ++ "]" ++ "(" ++ repo ++ ")"
          | none => " " ++ name) ++
        (match version with
          | some v => " @ " ++ v
          | none => ""))
    exact ⟨l, r, h, hl, hr⟩
  · unfold Output.packageAsMarkdown
    have hne : ¬ Removed = Added := by decide
    cases srcRepo <;> cases version <;> by_cases h : ct = Added <;>
      by_cases h' : ct = Removed <;> simp [h, h', hne]

/-! ## The shape of an entry -/

theorem Output.addedEntry_shape_output (ds : List DependencyCheckResult) (key : scoreAndDependencyName)
    (text : String)
    (h : Output.addedEntry (classify ds).1 (classify ds).2 key = .ok (some text)) :
    ∃ d fragment, (classify ds).1.get? key.dependencyName = some d ∧
      Output.packageAsMarkdown d.Name d.Version d.SourceRepository d.ChangeType = .ok fragment ∧
      (((classify ds).2.get? key.dependencyName = none ∧
          text = addedTag ++ scoreTag key.aggregateScore ++ fragment) ∨
        (∃ dR oldFragment, (classify ds).2.get? key.dependencyName = some dR ∧
          Output.packageAsMarkdown dR.Name dR.Version dR.SourceRepository dR.ChangeType =
            .ok oldFragment ∧
          text = addedTag ++ updatedTag ++ scoreTag key.aggregateScore ++ fragment ++
            oldFragment)) := by
  cases hA : (classify ds).1.get? key.dependencyName with
  | none =>
    rw [Output.addedEntry_none_output _ _ key hA] at h
    cases h
  | some d =>
    obtain ⟨f, hf⟩ := Output.packageAsMarkdown_some_output d.Name d.Version d.SourceRepository Added
    rw [← (classify_fst_get?_some ds _ d hA).2.1] at hf
    cases hr : (classify ds).2.get? key.dependencyName with
    | none =>
      rw [Output.addedEntry_added_output _ _ key d f hA hr hf] at h
      cases h
      exact ⟨d, f, rfl, hf, Or.inl ⟨rfl, rfl⟩⟩
    | some dR =>
      obtain ⟨g, hg⟩ :=
        Output.packageAsMarkdown_some_output dR.Name dR.Version dR.SourceRepository Removed
      rw [← (classify_snd_get?_some ds _ dR hr).2.1] at hg
      rw [Output.addedEntry_updated_output _ _ key d dR f g hA hr hf hg] at h
      cases h
      exact ⟨d, f, rfl, hf, Or.inr ⟨dR, g, rfl, hg, rfl⟩⟩

theorem Output.removedEntry_shape_output (ds : List DependencyCheckResult)
    (key : scoreAndDependencyName) (text : String)
    (h : Output.removedEntry (classify ds).1 (classify ds).2 key = .ok (some text)) :
    ∃ d fragment, (classify ds).1.get? key.dependencyName = none ∧
      (classify ds).2.get? key.dependencyName = some d ∧
      Output.packageAsMarkdown d.Name d.Version d.SourceRepository d.ChangeType = .ok fragment ∧
      text = removedTag ++ scoreTag key.aggregateScore ++ fragment := by
  have hA := Output.removedEntry_some_output _ _ key text h
  cases hR : (classify ds).2.get? key.dependencyName with
  | none =>
    rw [Output.removedEntry_none_output _ _ key hR] at h
    cases h
  | some d =>
    obtain ⟨f, hf⟩ :=
      Output.packageAsMarkdown_some_output d.Name d.Version d.SourceRepository Removed
    rw [← (classify_snd_get?_some ds _ d hR).2.1] at hf
    rw [Output.removedEntry_removed_output _ _ key d f hA hR hf] at h
    cases h
    exact ⟨d, f, hA, rfl, hf, rfl⟩

theorem CommentMarkdown.addedEntry_shape_comment (env : Env) (ds : List DependencyCheckResult)
    (key : scoreAndDependencyName) (text : String)
    (h : CommentMarkdown.addedEntry env (classify ds).1 (classify ds).2 key = .ok (some text)) :
    ∃ d tag fragment, (classify ds).1.get? key.dependencyName = some d ∧
      CommentMarkdown.depsDevPart env d = .ok tag ∧
      CommentMarkdown.packageAsMarkdown d.Name d.Version d.SourceRepository d.ChangeType =
        .ok fragment ∧
      (((classify ds).2.get? key.dependencyName = none ∧
          text = addedTag ++ tag ++ scoreTag key.aggregateScore ++ fragment) ∨
        (∃ dR oldFragment, (classify ds).2.get? key.dependencyName = some dR ∧
          CommentMarkdown.packageAsMarkdown dR.Name dR.Version dR.SourceRepository
            dR.ChangeType = .ok oldFragment ∧
          text = addedTag ++ updatedTag ++ tag ++ scoreTag key.aggregateScore ++ fragment ++
            oldFragment)) := by
  cases hA : (classify ds).1.get? key.dependencyName with
  | none =>
    rw [CommentMarkdown.addedEntry_none_comment env _ _ key hA] at h
    cases h
  | some d =>
    cases ht : CommentMarkdown.depsDevPart env d with
    | error f =>
      rw [CommentMarkdown.addedEntry_error env _ _ key d f hA ht] at h
      cases h
    | ok tag =>
      obtain ⟨f, hf⟩ :=
        CommentMarkdown.packageAsMarkdown_some_comment d.Name d.Version d.SourceRepository Added
      rw [← (classify_fst_get?_some ds _ d hA).2.1] at hf
      cases hr : (classify ds).2.get? key.dependencyName with
      | none =>
        rw [CommentMarkdown.addedEntry_added_comment env _ _ key d tag f hA hr ht hf] at h
        cases h
        exact ⟨d, tag, f, rfl, ht, hf, Or.inl ⟨rfl, rfl⟩⟩
      | some dR =>
        obtain ⟨g, hg⟩ := CommentMarkdown.packageAsMarkdown_some_comment dR.Name dR.Version
          dR.SourceRepository Removed
        rw [← (classify_snd_get?_some ds _ dR hr).2.1] at hg
        rw [CommentMarkdown.addedEntry_updated_comment env _ _ key d dR tag f g hA hr ht hf hg]
          at h
        cases h
        exact ⟨d, tag, f, rfl, ht, hf, Or.inr ⟨dR, g, rfl, hg, rfl⟩⟩

theorem CommentMarkdown.removedEntry_shape_comment (ds : List DependencyCheckResult)
    (key : scoreAndDependencyName) (text : String)
    (h : CommentMarkdown.removedEntry (classify ds).1 (classify ds).2 key = .ok (some text)) :
    ∃ d fragment, (classify ds).1.get? key.dependencyName = none ∧
      (classify ds).2.get? key.dependencyName = some d ∧
      CommentMarkdown.packageAsMarkdown d.Name d.Version d.SourceRepository d.ChangeType =
        .ok fragment ∧
      text = removedTag ++
        (if key.aggregateScore ≠ InconclusiveResultScore then scoreTag key.aggregateScore
          else "") ++ fragment := by
  have hA := CommentMarkdown.removedEntry_some_comment _ _ key text h
  cases hR : (classify ds).2.get? key.dependencyName with
  | none =>
    rw [CommentMarkdown.removedEntry_none_comment _ _ key hR] at h
    cases h
  | some d =>
    obtain ⟨f, hf⟩ :=
      CommentMarkdown.packageAsMarkdown_some_comment d.Name d.Version d.SourceRepository Removed
    rw [← (classify_snd_get?_some ds _ d hR).2.1] at hf
    rw [CommentMarkdown.removedEntry_removed_comment _ _ key d f hA hR hf] at h
    cases h
    exact ⟨d, f, hA, rfl, hf, rfl⟩

theorem scoreTag_eq_empty_iff (s : ℚ) : scoreTag s = "" ↔ s = negInf := by
  unfold scoreTag
  constructor
  · intro h
    by_contra hs
    rw [if_neg hs] at h
    have := congrArg String.length h
    simp [String.length_append] at this
    exact absurd this.1.1 (by decide)
  · intro h
    rw [if_pos h]

/-- The score of a sort key: the sentinel when the record stored under the name
of the key has no assessment, its computed aggregate score otherwise. -/
theorem sortKeys_scores (env : Env) (hv : env.Valid) (m : GoMap) (hm : m.WellKeyed)
    (keys : List scoreAndDependencyName) (h : getDependencySortKeys env m = .ok keys) :
    ∃ doc, env.docsRead = .ok doc ∧ ∀ key ∈ sliceStable scoreGreater keys,
      ∃ d, m.get? key.dependencyName = some d ∧
        (d.ScorecardResult = none → key.aggregateScore = negInf) ∧
        (∀ sc, d.ScorecardResult = some sc →
          env.getAggregateScore sc doc = .ok key.aggregateScore) := by
  obtain ⟨_, doc, hdoc, hk⟩ := sortedKeys_facts env hv m hm keys h
  refine ⟨doc, hdoc, ?_⟩
  intro key hkey
  obtain ⟨d, hd, hr⟩ := hk key hkey
  refine ⟨d, hd, ?_, ?_⟩
  · intro hn
    simp only [rankOf, hn, Except.ok.injEq] at hr
    exact hr.symm
  · intro sc hsc
    simpa only [rankOf, hsc] using hr

/-! ## C9 -/

/-- C9, counterexample. In comment_markdown.go the entry of a removed dependency
whose assessment has the aggregate score -1 (`checker.InconclusiveResultScore`),
which is not the sentinel, carries no score tag; output.go renders the tag. -/
theorem inconclusive_removed_entry_has_no_score_tag :
    Sample.env.getAggregateScore (Sample.scored (-1)) () = .ok InconclusiveResultScore ∧
    InconclusiveResultScore ≠ negInf ∧
    scoreTag InconclusiveResultScore = "`Aggregate Score: -1.0` " ∧
    CommentMarkdown.removedEntry (classify Sample.inconclusiveInput).1
      (classify Sample.inconclusiveInput).2 ⟨"z", InconclusiveResultScore⟩ =
        .ok (some (removedTag ++ " ~~z~~ ")) ∧
    CommentMarkdown.dependencydiffResultsAsMarkdown Sample.env Sample.inconclusiveInput "main"
      "dev" = .ok Sample.inconclusiveComment ∧
    Output.dependencydiffResultsAsMarkdown Sample.env Sample.inconclusiveInput "main" "dev" =
      .ok Sample.inconclusiveReport := by
  refine ⟨by decide, by decide, by decide, by decide, by decide, by decide⟩

/-- C9, amended. The score tag is empty exactly for the sentinel `negInf` and is
`Aggregate Score: ` with the score to one decimal otherwise.  A sort key has the
score `negInf` when its record has no assessment and the computed aggregate score
of the assessment otherwise.  Every entry is exactly its tags, the score tag and
the fragments of its records: in the first loop of either renderer and in the
second loop of output.go the score tag is absent when the score of the key is
`negInf` and is `Aggregate Score: ` with that score otherwise; in the second loop
of comment_markdown.go it is absent when the score is `negInf` or
`checker.InconclusiveResultScore` and present otherwise.  The entries of a
rendered report are those the loop bodies give at the sorted keys. -/
theorem score_tag_rules (env : Env) (hv : env.Valid) (ds : List DependencyCheckResult) :
    (∀ s, scoreTag s = "" ↔ s = negInf) ∧
    (∀ s, s ≠ negInf → scoreTag s = "`Aggregate Score: " ++ formatF1 s ++ "` ") ∧
    (∀ keys, getDependencySortKeys env (classify ds).1 = .ok keys →
      ∃ doc, env.docsRead = .ok doc ∧ ∀ key ∈ sliceStable scoreGreater keys,
        ∃ d, (classify ds).1.get? key.dependencyName = some d ∧
          (d.ScorecardResult = none → key.aggregateScore = negInf) ∧
          (∀ sc, d.ScorecardResult = some sc →
            env.getAggregateScore sc doc = .ok key.aggregateScore)) ∧
    (∀ keys, getDependencySortKeys env (classify ds).2 = .ok keys →
      ∃ doc, env.docsRead = .ok doc ∧ ∀ key ∈ sliceStable scoreGreater keys,
        ∃ d, (classify ds).2.get? key.dependencyName = some d ∧
          (d.ScorecardResult = none → key.aggregateScore = negInf) ∧
          (∀ sc, d.ScorecardResult = some sc →
            env.getAggregateScore sc doc = .ok key.aggregateScore)) ∧
    (∀ key text, Output.addedEntry (classify ds).1 (classify ds).2 key = .ok (some text) →
      ∃ newResult fragment, (classify ds).1.get? key.dependencyName = some newResult ∧
        Output.packageAsMarkdown newResult.Name newResult.Version newResult.SourceRepository
          newResult.ChangeType = .ok fragment ∧
        (((classify ds).2.get? key.dependencyName = none ∧
            text = addedTag ++
              (if key.aggregateScore = negInf then ""
                else "`Aggregate Score: " ++ formatF1 key.aggregateScore ++ "` ") ++
              fragment) ∨
          (∃ oldResult oldFragment,
            (classify ds).2.get? key.dependencyName = some oldResult ∧
            Output.packageAsMarkdown oldResult.Name oldResult.Version
              oldResult.SourceRepository oldResult.ChangeType = .ok oldFragment ∧
            text = addedTag ++ updatedTag ++
              (if key.aggregateScore = negInf then ""
                else "`Aggregate Score: " ++ formatF1 key.aggregateScore ++ "` ") ++
              fragment ++ oldFragment))) ∧
    (∀ key text, Output.removedEntry (classify ds).1 (classify ds).2 key = .ok (some text) →
      ∃ oldResult fragment, (classify ds).1.get? key.dependencyName = none ∧
        (classify ds).2.get? key.dependencyName = some oldResult ∧
        Output.packageAsMarkdown oldResult.Name oldResult.Version oldResult.SourceRepository
          oldResult.ChangeType = .ok fragment ∧
        text = removedTag ++
          (if key.aggregateScore = negInf then ""
            else "`Aggregate Score: " ++ formatF1 key.aggregateScore ++ "` ") ++
          fragment) ∧
    (∀ key text,
      CommentMarkdown.addedEntry env (classify ds).1 (classify ds).2 key = .ok (some text) →
      ∃ newResult tag fragment, (classify ds).1.get? key.dependencyName = some newResult ∧
        CommentMarkdown.depsDevPart env newResult = .ok tag ∧
        CommentMarkdown.packageAsMarkdown newResult.Name newResult.Version
          newResult.SourceRepository newResult.ChangeType = .ok fragment ∧
        (((classify ds).2.get? key.dependencyName = none ∧
            text = addedTag ++ tag ++
              (if key.aggregateScore = negInf then ""
                else "`Aggregate Score: " ++ formatF1 key.aggregateScore ++ "` ") ++
              fragment) ∨
          (∃ oldResult oldFragment,
            (classify ds).2.get? key.dependencyName = some oldResult ∧
            CommentMarkdown.packageAsMarkdown oldResult.Name oldResult.Version
              oldResult.SourceRepository oldResult.ChangeType = .ok oldFragment ∧
            text = addedTag ++ updatedTag ++ tag ++
              (if key.aggregateScore = negInf then ""
                else "`Aggregate Score: " ++ formatF1 key.aggregateScore ++ "` ") ++
              fragment ++ oldFragment))) ∧
    (∀ key text,
      CommentMarkdown.removedEntry (classify ds).1 (classify ds).2 key = .ok (some text) →
      ∃ oldResult fragment, (classify ds).1.get? key.dependencyName = none ∧
        (classify ds).2.get? key.dependencyName = some oldResult ∧
        CommentMarkdown.packageAsMarkdown oldResult.Name oldResult.Version
          oldResult.SourceRepository oldResult.ChangeType = .ok fragment ∧
        text = removedTag ++
          (if key.aggregateScore = negInf ∨ key.aggregateScore = InconclusiveResultScore then ""
            else "`Aggregate Score: " ++ formatF1 key.aggregateScore ++ "` ") ++
          fragment) ∧
    (∀ base head out, Output.dependencydiffResultsAsMarkdown env ds base head = .ok out →
      ∃ aks rks,
        getDependencySortKeys env (classify ds).1 = .ok aks ∧
        getDependencySortKeys env (classify ds).2 = .ok rks ∧
        out = Output.assemble
          (reportBody (Output.addedEntries (classify ds).1 (classify ds).2 aks)
            (Output.removedEntries (classify ds).1 (classify ds).2 rks)) base head ∧
        (∀ e ∈ Output.addedEntries (classify ds).1 (classify ds).2 aks,
          e.1 ∈ sliceStable scoreGreater aks ∧
          Output.addedEntry (classify ds).1 (classify ds).2 e.1 = .ok (some e.2)) ∧
        (∀ e ∈ Output.removedEntries (classify ds).1 (classify ds).2 rks,
          e.1 ∈ sliceStable scoreGreater rks ∧
          Output.removedEntry (classify ds).1 (classify ds).2 e.1 = .ok (some e.2))) ∧
    (∀ base head out,
      CommentMarkdown.dependencydiffResultsAsMarkdown env ds base head = .ok out →
      ∃ aks rks,
        getDependencySortKeys env (classify ds).1 = .ok aks ∧
        getDependencySortKeys env (classify ds).2 = .ok rks ∧
        out = CommentMarkdown.assemble
          (reportBody (CommentMarkdown.addedEntries env (classify ds).1 (classify ds).2 aks)
            (CommentMarkdown.removedEntries (classify ds).1 (classify ds).2 rks)) base head ∧
        (∀ e ∈ CommentMarkdown.addedEntries env (classify ds).1 (classify ds).2 aks,
          e.1 ∈ sliceStable scoreGreater aks ∧
          CommentMarkdown.addedEntry env (classify ds).1 (classify ds).2 e.1 =
            .ok (some e.2)) ∧
        (∀ e ∈ CommentMarkdown.removedEntries (classify ds).1 (classify ds).2 rks,
          e.1 ∈ sliceStable scoreGreater rks ∧
          CommentMarkdown.removedEntry (classify ds).1 (classify ds).2 e.1 =
            .ok (some e.2))) := by
  refine ⟨scoreTag_eq_empty_iff, ?_, ?_, ?_, ?_, ?_, ?_, ?_, ?_, ?_⟩
  · intro s hs
    simp [scoreTag, hs]
  · intro keys h
    exact sortKeys_scores env hv _ (classify_fst_wellKeyed ds) keys h
  · intro keys h
    exact sortKeys_scores env hv _ (classify_snd_wellKeyed ds) keys h
  · intro key text h
    obtain ⟨d, f, hd, hf, ⟨hr, ht⟩ | ⟨dR, g, hr, hg, ht⟩⟩ :=
      Output.addedEntry_shape_output ds key text h
    · exact ⟨d, f, hd, hf, Or.inl ⟨hr, ht⟩⟩
    · exact ⟨d, f, hd, hf, Or.inr ⟨dR, g, hr, hg, ht⟩⟩
  · intro key text h
    obtain ⟨d, f, hA, hd, hf, ht⟩ := Output.removedEntry_shape_output ds key text h
    exact ⟨d, f, hA, hd, hf, ht⟩
  · intro key text h
    obtain ⟨d, tag, f, hd, htag, hf, ⟨hr, ht⟩ | ⟨dR, g, hr, hg, ht⟩⟩ :=
      CommentMarkdown.addedEntry_shape_comment env ds key text h
    · exact ⟨d, tag, f, hd, htag, hf, Or.inl ⟨hr, ht⟩⟩
    · exact ⟨d, tag, f, hd, htag, hf, Or.inr ⟨dR, g, hr, hg, ht⟩⟩
  · intro key text h
    obtain ⟨d, f, hA, hd, hf, ht⟩ := CommentMarkdown.removedEntry_shape_comment ds key text h
    refine ⟨d, f, hA, hd, hf, ?_⟩
    rw [ht]
    by_cases h1 : key.aggregateScore = InconclusiveResultScore
    · simp [h1]
    · by_cases h2 : key.aggregateScore = negInf
      · simp [h1, h2, scoreTag]
      · simp [h1, h2, scoreTag]
  · intro base head out h
    obtain ⟨aks, rks, ha, hr, hout⟩ := Output.render_ok_output env ds base head out h
    exact ⟨aks, rks, ha, hr, hout, fun e he => (mem_entriesOf _ _ e).mp he,
      fun e he => (mem_entriesOf _ _ e).mp he⟩
  · intro base head out h
    obtain ⟨aks, rks, ha, hr, hout⟩ := CommentMarkdown.render_ok_comment env ds base head out h
    exact ⟨aks, rks, ha, hr, hout, fun e he => (mem_entriesOf _ _ e).mp he,
      fun e he => (mem_entriesOf _ _ e).mp he⟩

/-- C9, witness: in the sample environment the removed `bar` of `updateInput`, which
has no assessment, is rendered by both renderers without score tag, the updated
`foo`, whose added record scores 5, with the tag `Aggregate Score: 5.0`, and the
removed `z` of `inconclusiveInput`, which scores -1, with the tag in output.go and
without it in comment_markdown.go. -/
theorem score_tag_rules_witness :
    Sample.env.Valid ∧
    scoreTag negInf = "" ∧
    scoreTag 5 = "`Aggregate Score: " ++ formatF1 5 ++ "` " ∧
    (∃ doc, Sample.env.docsRead = .ok doc ∧
      ∀ key ∈ sliceStable scoreGreater [(⟨"foo", 5⟩ : scoreAndDependencyName)],
        ∃ d, (classify Sample.updateInput).1.get? key.dependencyName = some d ∧
          (d.ScorecardResult = none → key.aggregateScore = negInf) ∧
          (∀ sc, d.ScorecardResult = some sc →
            Sample.env.getAggregateScore sc doc = .ok key.aggregateScore)) ∧
    Output.dependencydiffResultsAsMarkdown Sample.env Sample.updateInput "main" "dev" =
      .ok Sample.updateReport ∧
    (∃ aks rks,
      getDependencySortKeys Sample.env (classify Sample.updateInput).1 = .ok aks ∧
      getDependencySortKeys Sample.env (classify Sample.updateInput).2 = .ok rks ∧
      Sample.updateReport = Output.assemble
        (reportBody
          (Output.addedEntries (classify Sample.updateInput).1 (classify Sample.updateInput).2
            aks)
          (Output.removedEntries (classify Sample.updateInput).1
            (classify Sample.updateInput).2 rks)) "main" "dev") ∧
    Output.addedEntry (classify Sample.updateInput).1 (classify Sample.updateInput).2
        ⟨"foo", 5⟩ =
      .ok (some (" :sparkles: **`added`**  **`updated`** `Aggregate Score: 5.0` " ++
        " foo @ 2.0 (new)  foo @ 1.0 (old) ")) ∧
    (∃ fragment oldFragment,
      " :sparkles: **`added`**  **`updated`** `Aggregate Score: 5.0` " ++
          " foo @ 2.0 (new)  foo @ 1.0 (old) " =
        addedTag ++ updatedTag ++
          (if (5 : ℚ) = negInf then "" else "`Aggregate Score: " ++ formatF1 5 ++ "` ") ++
          fragment ++ oldFragment) ∧
    Output.removedEntry (classify Sample.updateInput).1 (classify Sample.updateInput).2
        ⟨"bar", negInf⟩ = .ok (some " ~~**`removed`**~~  bar (old) ") ∧
    (∃ fragment,
      Output.packageAsMarkdown "bar" none none (some Removed) = .ok fragment ∧
      " ~~**`removed`**~~  bar (old) " =
        removedTag ++
          (if negInf = negInf then "" else "`Aggregate Score: " ++ formatF1 negInf ++ "` ") ++
          fragment) ∧
    CommentMarkdown.removedEntry (classify Sample.updateInput).1
        (classify Sample.updateInput).2 ⟨"bar", negInf⟩ =
      .ok (some " ~~**`removed`**~~  ~~bar~~ ") ∧
    Output.removedEntry (classify Sample.inconclusiveInput).1
        (classify Sample.inconclusiveInput).2 ⟨"z", InconclusiveResultScore⟩ =
      .ok (some " ~~**`removed`**~~ `Aggregate Score: -1.0`  z (old) ") ∧
    (∃ fragment,
      CommentMarkdown.packageAsMarkdown "z" none none (some Removed) = .ok fragment ∧
      " ~~**`removed`**~~  ~~z~~ " =
        removedTag ++
          (if InconclusiveResultScore = negInf ∨
              InconclusiveResultScore = InconclusiveResultScore then ""
            else "`Aggregate Score: " ++ formatF1 InconclusiveResultScore ++ "` ") ++
          fragment) := by
  have h := score_tag_rules Sample.env Sample.env_valid Sample.updateInput
  have hI := score_tag_rules Sample.env Sample.env_valid Sample.inconclusiveInput
  have h0 : Output.dependencydiffResultsAsMarkdown Sample.env Sample.updateInput "main" "dev" =
      .ok Sample.updateReport := by decide
  have hfoo : Output.addedEntry (classify Sample.updateInput).1 (classify Sample.updateInput).2
      ⟨"foo", 5⟩ = .ok (some (" :sparkles: **`added`**  **`updated`** `Aggregate Score: 5.0` " ++
        " foo @ 2.0 (new)  foo @ 1.0 (old) ")) := by decide
  have hbar : Output.removedEntry (classify Sample.updateInput).1
      (classify Sample.updateInput).2 ⟨"bar", negInf⟩ =
        .ok (some " ~~**`removed`**~~  bar (old) ") := by decide
  have hz : CommentMarkdown.removedEntry (classify Sample.inconclusiveInput).1
      (classify Sample.inconclusiveInput).2 ⟨"z", InconclusiveResultScore⟩ =
        .ok (some " ~~**`removed`**~~  ~~z~~ ") := by decide
  refine ⟨Sample.env_valid, (h.1 negInf).mpr rfl, h.2.1 5 (by decide),
    h.2.2.1 [⟨"foo", 5⟩] (by decide), h0, ?_, hfoo, ?_, hbar, ?_, by decide, by decide, ?_⟩
  · obtain ⟨aks, rks, ha, hr, hout, _, _⟩ := h.2.2.2.2.2.2.2.2.1 "main" "dev" _ h0
    exact ⟨aks, rks, ha, hr, hout⟩
  · obtain ⟨d, f, _, _, hcase⟩ := h.2.2.2.2.1 _ _ hfoo
    rcases hcase with ⟨hnone, _⟩ | ⟨dR, g, _, _, ht⟩
    · exact absurd hnone (by decide)
    · exact ⟨f, g, ht⟩
  · obtain ⟨d, f, _, hd, hf, ht⟩ := h.2.2.2.2.2.1 _ _ hbar
    have hd' : (classify Sample.updateInput).2.get? "bar" =
        some (Sample.removedDep "bar" none none) := by decide
    have e : d = Sample.removedDep "bar" none none :=
      Option.some.inj ((show (classify Sample.updateInput).2.get? "bar" = some d from hd).symm.trans
        hd')
    subst e
    exact ⟨f, hf, ht⟩
  · obtain ⟨d, f, _, hd, hf, ht⟩ := hI.2.2.2.2.2.2.2.1 _ _ hz
    have hd' : (classify Sample.inconclusiveInput).2.get? "z" =
        some (Sample.removedDep "z" none (some (-1))) := by decide
    have e : d = Sample.removedDep "z" none (some (-1)) :=
      Option.some.inj ((show (classify Sample.inconclusiveInput).2.get? "z" = some d
        from hd).symm.trans hd')
    subst e
    exact ⟨f, hf, ht⟩

/-! ## C10 -/

/-- The loop of `createAnnotations` returns the slice it was given. -/
theorem annotationsLoop_ok (env : Env) (doc : env.Doc) (deps : List DependencyCheckResult)
    (acc r : List CheckRunAnnotation) (h : annotationsLoop env doc deps acc = .ok r) :
    r = acc := by
  induction deps with
  | nil =>
    simp only [annotationsLoop, Except.ok.injEq] at h
    exact h.symm
  | cons d rest ih =>
    unfold annotationsLoop at h
    cases ha : annotationOf env doc d with
    | error e => simp [ha] at h
    | ok a =>
      simp only [ha] at h
      exact ih h

/-- Whenever `createAnnotations` returns without error, it returns no annotation. -/
theorem createAnnotations_ok_nil (env : Env) (deps : List DependencyCheckResult)
    (r : List CheckRunAnnotation) (h : createAnnotations env deps = .ok r) : r = [] := by
  unfold createAnnotations at h
  cases hd : env.docsRead with
  | error e => simp [hd] at h
  | ok doc =>
    simp only [hd] at h
    exact annotationsLoop_ok env doc deps [] r h

/-- C10. For one added record with a version, a manifest path and an assessment,
the loop body of `createAnnotations` builds the annotation the claim describes,
and `createAnnotations` returns the empty slice: no annotation for the record. -/
theorem createAnnotations_returns_no_annotation :
    annotationOf Sample.env () (Sample.addedDep "foo" (some "1.0") (some 5)) =
      .ok ⟨some "go.mod", some 1, some 1, some "notice", some "added dependency: foo @ 1.0",
        some ("Scorecard check results: \n" ++ "Aggregate Score: 5.0\n" ++
          "Check name: Maintained, score: 5.0, reason: checked\n"), some "result"⟩ ∧
    createAnnotations Sample.env [Sample.addedDep "foo" (some "1.0") (some 5)] = .ok [] := by
  constructor <;> decide

/-! ## Lemmas on the replacement of a removed-side assessment -/

theorem withRemovedAssessment_fields (n : String) (a : ScorecardResult)
    (d : DependencyCheckResult) :
    (withRemovedAssessment n a d).ChangeType = d.ChangeType ∧
    (withRemovedAssessment n a d).Name = d.Name ∧
    (withRemovedAssessment n a d).Version = d.Version ∧
    (withRemovedAssessment n a d).SourceRepository = d.SourceRepository := by
  unfold withRemovedAssessment
  split <;> exact ⟨rfl, rfl, rfl, rfl⟩

theorem withRemovedAssessment_of_not (n : String) (a : ScorecardResult)
    (d : DependencyCheckResult) (h : ¬ (d.ChangeType = some Removed ∧ d.Name = n)) :
    withRemovedAssessment n a d = d := by
  unfold withRemovedAssessment
  rw [if_neg h]

theorem withRemovedAssessment_of_removed (n : String) (a : ScorecardResult)
    (d : DependencyCheckResult) (h : d.ChangeType = some Removed ∧ d.Name = n) :
    (withRemovedAssessment n a d).ScorecardResult = some a := by
  unfold withRemovedAssessment
  rw [if_pos h]

theorem GoMap.get?_mapValues (f : DependencyCheckResult → DependencyCheckResult) (m : GoMap)
    (k : String) : (m.mapValues f).get? k = (m.get? k).map f := by
  induction m with
  | nil => rfl
  | cons p rest ih =>
    obtain ⟨k0, v0⟩ := p
    have ih' : GoMap.get? (List.map (fun p => (p.1, f p.2)) rest) k =
        (GoMap.get? rest k).map f := ih
    by_cases h : k0 = k <;> simp [GoMap.mapValues, GoMap.get?, h, ih']

theorem GoMap.keys_mapValues (f : DependencyCheckResult → DependencyCheckResult) (m : GoMap) :
    (m.mapValues f).keys = m.keys := by
  simp [GoMap.mapValues, GoMap.keys, List.map_map, Function.comp_def]

theorem GoMap.set_mapValues (f : DependencyCheckResult → DependencyCheckResult) (m : GoMap)
    (k : String) (v : DependencyCheckResult) :
    (m.mapValues f).set k (f v) = (m.set k v).mapValues f := by
  induction m with
  | nil => rfl
  | cons p rest ih =>
    obtain ⟨k0, v0⟩ := p
    have ih' : GoMap.set (List.map (fun p => (p.1, f p.2)) rest) k (f v) =
        List.map (fun p => (p.1, f p.2)) (GoMap.set rest k v) := ih
    by_cases h : k0 = k <;> simp [GoMap.mapValues, GoMap.set, h, ih']

theorem GoMap.index_mapValues (f : DependencyCheckResult → DependencyCheckResult)
    (hf : f DependencyCheckResult.zero = DependencyCheckResult.zero) (m : GoMap) (k : String) :
    (m.mapValues f).index k = f (m.index k) := by
  unfold GoMap.index
  rw [GoMap.get?_mapValues]
  cases m.get? k with
  | none => exact hf.symm
  | some d => rfl

theorem classifyStep_withRemovedAssessment (n : String) (a : ScorecardResult)
    (maps : GoMap × GoMap) (d : DependencyCheckResult) :
    classifyStep (maps.1, maps.2.mapValues (withRemovedAssessment n a))
        (withRemovedAssessment n a d) =
      ((classifyStep maps d).1, (classifyStep maps d).2.mapValues (withRemovedAssessment n a)) := by
  have hne : ¬ Added = Removed := by decide
  by_cases hr : d.ChangeType = some Removed ∧ d.Name = n
  · have hfields := withRemovedAssessment_fields n a d
    unfold classifyStep
    rw [hfields.1, hfields.2.1, hr.1]
    have h1 : ¬ Removed = Added := by decide
    simp only [h1, if_false, if_true]
    rw [GoMap.set_mapValues]
  · rw [withRemovedAssessment_of_not n a d hr]
    unfold classifyStep
    cases hct : d.ChangeType with
    | none => rfl
    | some ct =>
      by_cases h1 : ct = Added
      · subst h1
        simp
      · by_cases h2 : ct = Removed
        · subst h2
          simp only [h1, if_false, if_true]
          rw [← GoMap.set_mapValues]
          congr 2
          exact (withRemovedAssessment_of_not n a d hr).symm
        · simp [h1, h2]

theorem foldl_classifyStep_withRemovedAssessment (n : String) (a : ScorecardResult)
    (ds : List DependencyCheckResult) (maps : GoMap × GoMap) :
    (ds.map (withRemovedAssessment n a)).foldl classifyStep
        (maps.1, maps.2.mapValues (withRemovedAssessment n a)) =
      ((ds.foldl classifyStep maps).1,
        (ds.foldl classifyStep maps).2.mapValues (withRemovedAssessment n a)) := by
  induction ds generalizing maps with
  | nil => rfl
  | cons d ds ih =>
    rw [List.map_cons, List.foldl_cons, List.foldl_cons, classifyStep_withRemovedAssessment]
    exact ih (classifyStep maps d)

/-- Replacing the assessment of the removed-side records of a name leaves `added`
as it is and changes, in `removed`, only the assessment of the record of that name. -/
theorem classify_replaceRemovedAssessment (n : String) (a : ScorecardResult)
    (ds : List DependencyCheckResult) :
    (classify (replaceRemovedAssessment n a ds)).1 = (classify ds).1 ∧
    (classify (replaceRemovedAssessment n a ds)).2 =
      (classify ds).2.mapValues (withRemovedAssessment n a) := by
  have h := foldl_classifyStep_withRemovedAssessment n a ds ([], [])
  have h0 : (([] : GoMap), GoMap.mapValues (withRemovedAssessment n a) []) = ([], []) := rfl
  unfold classify replaceRemovedAssessment
  simp only [h0] at h
  rw [h]
  exact ⟨rfl, rfl⟩

theorem Output.addedEntry_mapValues (n : String) (a : ScorecardResult) (added removed : GoMap) :
    Output.addedEntry added (removed.mapValues (withRemovedAssessment n a)) =
      Output.addedEntry added removed := by
  funext key
  unfold Output.addedEntry
  simp only [GoMap.get?_mapValues]
  cases removed.get? key.dependencyName with
  | none => rfl
  | some old =>
    obtain ⟨h1, h2, h3, h4⟩ := withRemovedAssessment_fields n a old
    simp only [Option.map, Option.isSome, h1, h2, h3, h4]

theorem Output.removedEntry_mapValues (n : String) (a : ScorecardResult)
    (added removed : GoMap) :
    Output.removedEntry added (removed.mapValues (withRemovedAssessment n a)) =
      Output.removedEntry added removed := by
  funext key
  unfold Output.removedEntry
  simp only [GoMap.get?_mapValues]
  cases removed.get? key.dependencyName with
  | none => rfl
  | some old =>
    obtain ⟨h1, h2, h3, h4⟩ := withRemovedAssessment_fields n a old
    simp only [Option.map, h1, h2, h3, h4]

theorem CommentMarkdown.addedEntry_mapValues_comment (env : Env) (n : String)
    (a : ScorecardResult) (added removed : GoMap) :
    CommentMarkdown.addedEntry env added (removed.mapValues (withRemovedAssessment n a)) =
      CommentMarkdown.addedEntry env added removed := by
  funext key
  unfold CommentMarkdown.addedEntry
  simp only [GoMap.get?_mapValues]
  cases removed.get? key.dependencyName with
  | none => rfl
  | some old =>
    obtain ⟨h1, h2, h3, h4⟩ := withRemovedAssessment_fields n a old
    simp only [Option.map, Option.isSome, h1, h2, h3, h4]

theorem CommentMarkdown.removedEntry_mapValues_comment (n : String) (a : ScorecardResult)
    (added removed : GoMap) :
    CommentMarkdown.removedEntry added (removed.mapValues (withRemovedAssessment n a)) =
      CommentMarkdown.removedEntry added removed := by
  funext key
  unfold CommentMarkdown.removedEntry
  simp only [GoMap.get?_mapValues]
  cases removed.get? key.dependencyName with
  | none => rfl
  | some old =>
    obtain ⟨h1, h2, h3, h4⟩ := withRemovedAssessment_fields n a old
    simp only [Option.map, h1, h2, h3, h4]

theorem withRemovedAssessment_zero (n : String) (a : ScorecardResult) :
    withRemovedAssessment n a DependencyCheckResult.zero = DependencyCheckResult.zero :=
  withRemovedAssessment_of_not n a _ (fun h => by cases h.1)

/-- The sort keys of a map and those of the map with the assessment of the removed
record of `n` replaced by one whose score computes: the loop returns again, and
the keys of the other names are the same, in the same order. -/
theorem sortKeysLoop_replaced (env : Env) (doc : env.Doc) (m : GoMap) (n : String)
    (a : ScorecardResult) (s : ℚ) (ha : env.getAggregateScore a doc = .ok s) (ks : List String)
    (acc acc' r : List scoreAndDependencyName)
    (hacc : acc'.filter (fun key => decide (key.dependencyName ≠ n)) =
      acc.filter (fun key => decide (key.dependencyName ≠ n)))
    (h : sortKeysLoop env doc m ks acc = .ok r) :
    ∃ r', sortKeysLoop env doc (m.mapValues (withRemovedAssessment n a)) ks acc' = .ok r' ∧
      r'.filter (fun key => decide (key.dependencyName ≠ n)) =
        r.filter (fun key => decide (key.dependencyName ≠ n)) := by
  induction ks generalizing acc acc' with
  | nil =>
    simp only [sortKeysLoop, Except.ok.injEq] at h
    exact ⟨acc', rfl, by rw [← h]; exact hacc⟩
  | cons k ks ih =>
    unfold sortKeysLoop at h ⊢
    rw [GoMap.index_mapValues _ (withRemovedAssessment_zero n a)]
    by_cases hr : (m.index k).ChangeType = some Removed ∧ (m.index k).Name = n
    · rw [withRemovedAssessment_of_removed n a _ hr, (withRemovedAssessment_fields n a _).2.1]
      simp only [ha]
      have hstep : ∀ s0 : ℚ,
          (acc' ++ [(⟨(m.index k).Name, s⟩ : scoreAndDependencyName)]).filter
            (fun key => decide (key.dependencyName ≠ n)) =
          (acc ++ [(⟨(m.index k).Name, s0⟩ : scoreAndDependencyName)]).filter
            (fun key => decide (key.dependencyName ≠ n)) := by
        intro s0
        rw [List.filter_append, List.filter_append, hacc]
        congr 1
        simp [hr.2]
      cases hsc : (m.index k).ScorecardResult with
      | none =>
        simp only [hsc] at h
        exact ih _ _ (hstep negInf) h
      | some sc =>
        simp only [hsc] at h
        cases hs : env.getAggregateScore sc doc with
        | error e => simp [hs] at h
        | ok s0 =>
          simp only [hs] at h
          exact ih _ _ (hstep s0) h
    · rw [withRemovedAssessment_of_not n a _ hr]
      cases hsc : (m.index k).ScorecardResult with
      | none =>
        simp only [hsc] at h ⊢
        exact ih _ _ (by rw [List.filter_append, List.filter_append, hacc]) h
      | some sc =>
        simp only [hsc] at h ⊢
        cases hs : env.getAggregateScore sc doc with
        | error e => simp [hs] at h
        | ok s0 =>
          simp only [hs] at h ⊢
          exact ih _ _ (by rw [List.filter_append, List.filter_append, hacc]) h

theorem getDependencySortKeys_replaced (env : Env) (doc : env.Doc) (m : GoMap) (n : String)
    (a : ScorecardResult) (s : ℚ) (hdoc : env.docsRead = .ok doc)
    (ha : env.getAggregateScore a doc = .ok s)
    (hrange : env.mapRange (m.mapValues (withRemovedAssessment n a)) = env.mapRange m)
    (r : List scoreAndDependencyName) (h : getDependencySortKeys env m = .ok r) :
    ∃ r', getDependencySortKeys env (m.mapValues (withRemovedAssessment n a)) = .ok r' ∧
      r'.filter (fun key => decide (key.dependencyName ≠ n)) =
        r.filter (fun key => decide (key.dependencyName ≠ n)) := by
  unfold getDependencySortKeys at h ⊢
  rw [hdoc] at h ⊢
  simp only [] at h ⊢
  rw [hrange]
  exact sortKeysLoop_replaced env doc m n a s ha _ [] [] r rfl h

theorem insertStable_cons {α : Type} (less : α → α → Bool) (x y : α) (ys : List α) :
    insertStable less x (y :: ys) =
      if less y x = true then y :: insertStable less x ys else x :: y :: ys := rfl

theorem sliceStable_cons {α : Type} (less : α → α → Bool) (x : α) (xs : List α) :
    sliceStable less (x :: xs) = insertStable less x (sliceStable less xs) := rfl

theorem insertStable_of_not_less (x : scoreAndDependencyName) (l : List scoreAndDependencyName)
    (h : ∀ z ∈ l, scoreGreater z x = false) : insertStable scoreGreater x l = x :: l := by
  cases l with
  | nil => rfl
  | cons y ys =>
    rw [insertStable_cons, h y (List.mem_cons_self _ _)]
    rfl

theorem insertStable_filter_comm (q : scoreAndDependencyName → Bool)
    (x : scoreAndDependencyName) (l : List scoreAndDependencyName)
    (hl : l.Pairwise (fun a b => b.aggregateScore ≤ a.aggregateScore)) :
    (insertStable scoreGreater x l).filter q =
      if q x = true then insertStable scoreGreater x (l.filter q) else l.filter q := by
  induction l with
  | nil =>
    by_cases hx : q x = true <;> simp [insertStable, hx]
  | cons y ys ih =>
    rw [List.pairwise_cons] at hl
    have ih' := ih hl.2
    rw [insertStable_cons]
    by_cases hyx : scoreGreater y x = true
    · rw [if_pos hyx]
      by_cases hy : q y = true
      · rw [List.filter_cons_of_pos hy, List.filter_cons_of_pos hy, ih']
        by_cases hx : q x = true
        · rw [if_pos hx, if_pos hx, insertStable_cons, if_pos hyx]
        · rw [if_neg hx, if_neg hx]
      · rw [List.filter_cons_of_neg hy, List.filter_cons_of_neg hy, ih']
    · rw [if_neg hyx]
      by_cases hx : q x = true
      · rw [List.filter_cons_of_pos hx, if_pos hx, insertStable_of_not_less]
        intro z hz
        have hz' := (List.mem_filter.mp hz).1
        simp only [scoreGreater, decide_eq_true_eq, not_lt] at hyx
        simp only [scoreGreater, decide_eq_false_iff_not, not_lt]
        rcases List.mem_cons.mp hz' with hz' | hz'
        · rw [hz']
          exact hyx
        · exact le_trans (hl.1 z hz') hyx
      · rw [List.filter_cons_of_neg hx, if_neg hx]

/-- Filtering commutes with the stable sort by score. -/
theorem sliceStable_filter_comm (q : scoreAndDependencyName → Bool)
    (l : List scoreAndDependencyName) :
    (sliceStable scoreGreater l).filter q = sliceStable scoreGreater (l.filter q) := by
  induction l with
  | nil => rfl
  | cons x xs ih =>
    rw [sliceStable_cons, insertStable_filter_comm q x _ (sliceStable_sorted xs), ih]
    by_cases hx : q x = true
    · rw [if_pos hx, List.filter_cons_of_pos hx, sliceStable_cons]
    · rw [if_neg hx, List.filter_cons_of_neg hx]

theorem forKeys_filter (body : scoreAndDependencyName → Except Failure (Option String))
    (q : scoreAndDependencyName → Bool) (hq : ∀ key, q key = false → body key = .ok none)
    (keys : List scoreAndDependencyName) (acc : String) :
    forKeys body (keys.filter q) acc = forKeys body keys acc := by
  induction keys generalizing acc with
  | nil => rfl
  | cons key rest ih =>
    by_cases hk : q key = true
    · rw [List.filter_cons_of_pos hk]
      unfold forKeys
      cases body key with
      | error f => rfl
      | ok o =>
        cases o with
        | none => exact ih _
        | some current => exact ih _
    · rw [List.filter_cons_of_neg hk]
      conv_rhs => unfold forKeys
      rw [hq key (by simpa using hk)]
      exact ih _

/-- A loop that skips the keys of the name `n` gives the same text over two lists
of unsorted keys that agree on the keys of the other names. -/
theorem forKeys_sorted_congr (body : scoreAndDependencyName → Except Failure (Option String))
    (n : String) (hq : ∀ key : scoreAndDependencyName, key.dependencyName = n →
      body key = .ok none)
    (r r' : List scoreAndDependencyName)
    (h : r'.filter (fun key => decide (key.dependencyName ≠ n)) =
      r.filter (fun key => decide (key.dependencyName ≠ n))) (acc : String) :
    forKeys body (sliceStable scoreGreater r') acc =
      forKeys body (sliceStable scoreGreater r) acc := by
  have hq' : ∀ key : scoreAndDependencyName, decide (key.dependencyName ≠ n) = false →
      body key = .ok none := fun key hk => hq key (by simpa using hk)
  rw [← forKeys_filter body _ hq' (sliceStable scoreGreater r'),
    ← forKeys_filter body _ hq' (sliceStable scoreGreater r), sliceStable_filter_comm,
    sliceStable_filter_comm, h]

/-- Replacing the assessment of the removed-side record of an updated name leaves
the result of output.go as it is, when the new score computes and `range` visits
`removed` in the same order. -/
theorem Output.render_replaced (env : Env) (ds : List DependencyCheckResult) (base head : String)
    (n : String) (a : ScorecardResult) (doc : env.Doc) (s : ℚ) (out : String)
    (hA : n ∈ (classify ds).1.keys) (hdoc : env.docsRead = .ok doc)
    (ha : env.getAggregateScore a doc = .ok s)
    (hrange : env.mapRange (classify (replaceRemovedAssessment n a ds)).2 =
      env.mapRange (classify ds).2)
    (h : Output.dependencydiffResultsAsMarkdown env ds base head = .ok out) :
    Output.dependencydiffResultsAsMarkdown env (replaceRemovedAssessment n a ds) base head =
      .ok out := by
  obtain ⟨hc1, hc2⟩ := classify_replaceRemovedAssessment n a ds
  rw [hc2] at hrange
  obtain ⟨aks, rks, haks, hrks, _⟩ := Output.render_ok_output env ds base head out h
  obtain ⟨rks', hrks', hfilter⟩ :=
    getDependencySortKeys_replaced env doc _ n a s hdoc ha hrange rks hrks
  obtain ⟨dA, hdA⟩ := GoMap.exists_get?_of_mem_keys _ n hA
  simp only [Output.dependencydiffResultsAsMarkdown, haks, hrks] at h
  simp only [Output.dependencydiffResultsAsMarkdown, hc1, hc2, haks, hrks',
    Output.addedEntry_mapValues, Output.removedEntry_mapValues]
  cases h1 : forKeys (Output.addedEntry (classify ds).1 (classify ds).2)
      (sliceStable scoreGreater aks) "" with
  | error f => simp [h1] at h
  | ok results =>
    simp only [h1] at h ⊢
    rw [forKeys_sorted_congr _ n
      (fun key hk => Output.removedEntry_skip_output _ _ key dA (by rw [hk]; exact hdA))
      rks rks' hfilter]
    exact h

/-- The same for comment_markdown.go. -/
theorem CommentMarkdown.render_replaced_comment (env : Env) (ds : List DependencyCheckResult)
    (base head : String) (n : String) (a : ScorecardResult) (doc : env.Doc) (s : ℚ)
    (out : String) (hA : n ∈ (classify ds).1.keys) (hdoc : env.docsRead = .ok doc)
    (ha : env.getAggregateScore a doc = .ok s)
    (hrange : env.mapRange (classify (replaceRemovedAssessment n a ds)).2 =
      env.mapRange (classify ds).2)
    (h : CommentMarkdown.dependencydiffResultsAsMarkdown env ds base head = .ok out) :
    CommentMarkdown.dependencydiffResultsAsMarkdown env (replaceRemovedAssessment n a ds) base
      head = .ok out := by
  obtain ⟨hc1, hc2⟩ := classify_replaceRemovedAssessment n a ds
  rw [hc2] at hrange
  obtain ⟨aks, rks, haks, hrks, _⟩ := CommentMarkdown.render_ok_comment env ds base head out h
  obtain ⟨rks', hrks', hfilter⟩ :=
    getDependencySortKeys_replaced env doc _ n a s hdoc ha hrange rks hrks
  obtain ⟨dA, hdA⟩ := GoMap.exists_get?_of_mem_keys _ n hA
  simp only [CommentMarkdown.dependencydiffResultsAsMarkdown, dependencySliceToMaps_eq_classify,
    haks, hrks] at h
  simp only [CommentMarkdown.dependencydiffResultsAsMarkdown, dependencySliceToMaps_eq_classify,
    hc1, hc2, haks, hrks', CommentMarkdown.addedEntry_mapValues_comment,
    CommentMarkdown.removedEntry_mapValues_comment]
  cases h1 : forKeys (CommentMarkdown.addedEntry env (classify ds).1 (classify ds).2)
      (sliceStable scoreGreater aks) "" with
  | error f => simp [h1] at h
  | ok results =>
    simp only [h1] at h ⊢
    rw [forKeys_sorted_congr _ n
      (fun key hk => CommentMarkdown.removedEntry_skip_comment _ _ key dA (by rw [hk]; exact hdA))
      rks rks' hfilter]
    exact h

theorem Sample.envByAssessment_valid : Sample.envByAssessment.Valid := by
  intro m
  show (if (m.index "foo").ScorecardResult = some (Sample.scored 9) then m.keys
    else m.keys.reverse).Perm m.keys
  split
  · exact List.Perm.refl _
  · exact List.reverse_perm m.keys

/-! ## C11 -/

/-- C11, counterexample. In comment_markdown.go the entry of an update whose added
record has an ecosystem and a version carries the deps.dev tag between the updated
tag and the score tag.  And with an order of `range` that depends on the records
of the map, replacing the removed-side assessment of the updated `foo` (score 9)
by one that scores 1 changes the report of output.go: the removed `a` and `b`
change places. -/
theorem update_entry_and_replacement_counterexample :
    getDependencySortKeys Sample.env (classify Sample.ecosystemInput).1 = .ok [⟨"foo", 5⟩] ∧
    CommentMarkdown.addedEntries Sample.env (classify Sample.ecosystemInput).1
        (classify Sample.ecosystemInput).2 [⟨"foo", 5⟩] =
      [(⟨"foo", 5⟩, addedTag ++ updatedTag ++ " **`[deps.dev](https://deps.dev/npm/foo)`** " ++
        scoreTag 5 ++ " foo @ 2.0" ++ " ~~foo @ 1.0~~ ")] ∧
    CommentMarkdown.dependencydiffResultsAsMarkdown Sample.env Sample.ecosystemInput "main"
      "dev" = .ok Sample.ecosystemComment ∧
    Sample.envByAssessment.Valid ∧
    Sample.envByAssessment.getAggregateScore (Sample.scored 1) () = .ok 1 ∧
    Output.dependencydiffResultsAsMarkdown Sample.envByAssessment Sample.replacedInput "main"
      "dev" = .ok Sample.replacedReport ∧
    Output.dependencydiffResultsAsMarkdown Sample.envByAssessment
      (replaceRemovedAssessment "foo" (Sample.scored 1) Sample.replacedInput) "main" "dev" =
        .ok Sample.replacedReportAfter ∧
    Sample.replacedReport ≠ Sample.replacedReportAfter :=
  ⟨by decide, by decide, by decide, Sample.envByAssessment_valid, by decide, by decide, by decide,
    by decide⟩

/-- C11, amended. For a name that is a key of both `added` and `removed`, the one
entry of a rendered report is the added tag, the updated tag, in comment_markdown.go
the deps.dev tag when the lookup gives one, the score tag of the aggregate score of
the added-side record, the fragment of the added-side record and then the fragment
of the removed-side record; the second loop appends nothing for the name.
Replacing the assessment of the removed-side record by one whose score computes
leaves `added` and every entry of the first loop as they are, and leaves the whole
report as it is when `range` visits `removed` in the same order as before. -/
theorem update_entry_composition (env : Env) (hv : env.Valid) (ds : List DependencyCheckResult)
    (base head n : String) (hA : n ∈ (classify ds).1.keys) (hR : n ∈ (classify ds).2.keys) :
    (∀ out, Output.dependencydiffResultsAsMarkdown env ds base head = .ok out →
      ∃ doc aks rks key newResult oldResult newFragment oldFragment,
        env.docsRead = .ok doc ∧
        getDependencySortKeys env (classify ds).1 = .ok aks ∧
        getDependencySortKeys env (classify ds).2 = .ok rks ∧
        out = Output.assemble
          (reportBody (Output.addedEntries (classify ds).1 (classify ds).2 aks)
            (Output.removedEntries (classify ds).1 (classify ds).2 rks)) base head ∧
        (classify ds).1.get? n = some newResult ∧ (classify ds).2.get? n = some oldResult ∧
        key.dependencyName = n ∧ rankOf env doc newResult = .ok key.aggregateScore ∧
        Output.packageAsMarkdown newResult.Name newResult.Version newResult.SourceRepository
          newResult.ChangeType = .ok newFragment ∧
        Output.packageAsMarkdown oldResult.Name oldResult.Version oldResult.SourceRepository
          oldResult.ChangeType = .ok oldFragment ∧
        (Output.addedEntries (classify ds).1 (classify ds).2 aks).filter
            (fun e => decide (e.1.dependencyName = n)) =
          [(key, addedTag ++ updatedTag ++ scoreTag key.aggregateScore ++ newFragment ++
            oldFragment)] ∧
        (Output.removedEntries (classify ds).1 (classify ds).2 rks).filter
          (fun e => decide (e.1.dependencyName = n)) = []) ∧
    (∀ out, CommentMarkdown.dependencydiffResultsAsMarkdown env ds base head = .ok out →
      ∃ doc aks rks key newResult oldResult tag newFragment oldFragment,
        env.docsRead = .ok doc ∧
        getDependencySortKeys env (classify ds).1 = .ok aks ∧
        getDependencySortKeys env (classify ds).2 = .ok rks ∧
        out = CommentMarkdown.assemble
          (reportBody (CommentMarkdown.addedEntries env (classify ds).1 (classify ds).2 aks)
            (CommentMarkdown.removedEntries (classify ds).1 (classify ds).2 rks)) base head ∧
        (classify ds).1.get? n = some newResult ∧ (classify ds).2.get? n = some oldResult ∧
        key.dependencyName = n ∧ rankOf env doc newResult = .ok key.aggregateScore ∧
        CommentMarkdown.depsDevPart env newResult = .ok tag ∧
        CommentMarkdown.packageAsMarkdown newResult.Name newResult.Version
          newResult.SourceRepository newResult.ChangeType = .ok newFragment ∧
        CommentMarkdown.packageAsMarkdown oldResult.Name oldResult.Version
          oldResult.SourceRepository oldResult.ChangeType = .ok oldFragment ∧
        (CommentMarkdown.addedEntries env (classify ds).1 (classify ds).2 aks).filter
            (fun e => decide (e.1.dependencyName = n)) =
          [(key, addedTag ++ updatedTag ++ tag ++ scoreTag key.aggregateScore ++ newFragment ++
            oldFragment)] ∧
        (CommentMarkdown.removedEntries (classify ds).1 (classify ds).2 rks).filter
          (fun e => decide (e.1.dependencyName = n)) = []) ∧
    (∀ assessment doc s, env.docsRead = .ok doc →
      env.getAggregateScore assessment doc = .ok s →
      (classify (replaceRemovedAssessment n assessment ds)).1 = (classify ds).1 ∧
      (∀ aks, Output.addedEntries (classify ds).1
          (classify (replaceRemovedAssessment n assessment ds)).2 aks =
        Output.addedEntries (classify ds).1 (classify ds).2 aks) ∧
      (∀ aks, CommentMarkdown.addedEntries env (classify ds).1
          (classify (replaceRemovedAssessment n assessment ds)).2 aks =
        CommentMarkdown.addedEntries env (classify ds).1 (classify ds).2 aks) ∧
      (env.mapRange (classify (replaceRemovedAssessment n assessment ds)).2 =
          env.mapRange (classify ds).2 →
        (∀ out, Output.dependencydiffResultsAsMarkdown env ds base head = .ok out →
          Output.dependencydiffResultsAsMarkdown env
            (replaceRemovedAssessment n assessment ds) base head = .ok out) ∧
        (∀ out, CommentMarkdown.dependencydiffResultsAsMarkdown env ds base head = .ok out →
          CommentMarkdown.dependencydiffResultsAsMarkdown env
            (replaceRemovedAssessment n assessment ds) base head = .ok out))) := by
  have hnA := (classify_nodup ds).1
  obtain ⟨dA, hdA⟩ := GoMap.exists_get?_of_mem_keys _ n hA
  obtain ⟨dR, hdR⟩ := GoMap.exists_get?_of_mem_keys _ n hR
  refine ⟨?_, ?_, ?_⟩
  · intro out h
    obtain ⟨aks, rks, ha, hr, hout⟩ := Output.render_ok_output env ds base head out h
    obtain ⟨hpA, doc, hdoc, hkA⟩ := sortedKeys_facts env hv _ (classify_fst_wellKeyed ds) aks ha
    have hndA := hpA.nodup_iff.mpr hnA
    obtain ⟨key, hkey, hname⟩ := exists_key_of_mem_keys _ _ hpA n hA
    obtain ⟨d, hd, hrank⟩ := hkA key hkey
    rw [hname, hdA] at hd
    cases hd
    obtain ⟨fA, hfA⟩ := Output.packageAsMarkdown_some_output dA.Name dA.Version dA.SourceRepository Added
    obtain ⟨fR, hfR⟩ :=
      Output.packageAsMarkdown_some_output dR.Name dR.Version dR.SourceRepository Removed
    rw [← (classify_fst_get?_some ds n dA hdA).2.1] at hfA
    rw [← (classify_snd_get?_some ds n dR hdR).2.1] at hfR
    refine ⟨doc, aks, rks, key, dA, dR, fA, fR, hdoc, ha, hr, hout, hdA, hdR, hname, hrank, hfA,
      hfR, ?_, ?_⟩
    · subst hname
      rw [Output.addedEntries, entries_filter_name_singleton _ _ hndA key hkey _
        (Output.addedEntry_updated_output _ _ key dA dR fA fR hdA hdR hfA hfR)]
    · rw [Output.removedEntries]
      apply entries_filter_name_nil
      intro k _ hk
      exact Output.removedEntry_skip_output _ _ k dA (by rw [hk]; exact hdA)
  · intro out h
    obtain ⟨aks, rks, ha, hr, hout⟩ := CommentMarkdown.render_ok_comment env ds base head out h
    obtain ⟨hpA, doc, hdoc, hkA⟩ := sortedKeys_facts env hv _ (classify_fst_wellKeyed ds) aks ha
    have hndA := hpA.nodup_iff.mpr hnA
    obtain ⟨key, hkey, hname⟩ := exists_key_of_mem_keys _ _ hpA n hA
    obtain ⟨d, hd, hrank⟩ := hkA key hkey
    rw [hname, hdA] at hd
    cases hd
    obtain ⟨o, ho⟩ := CommentMarkdown.render_loop_ok env ds base head out aks h ha key hkey
    obtain ⟨tag, htag⟩ : ∃ tag, CommentMarkdown.depsDevPart env dA = .ok tag := by
      cases ht : CommentMarkdown.depsDevPart env dA with
      | error f =>
        rw [CommentMarkdown.addedEntry_error env _ _ key dA f (by rw [hname]; exact hdA) ht] at ho
        cases ho
      | ok tag => exact ⟨tag, rfl⟩
    obtain ⟨fA, hfA⟩ :=
      CommentMarkdown.packageAsMarkdown_some_comment dA.Name dA.Version dA.SourceRepository Added
    obtain ⟨fR, hfR⟩ :=
      CommentMarkdown.packageAsMarkdown_some_comment dR.Name dR.Version dR.SourceRepository Removed
    rw [← (classify_fst_get?_some ds n dA hdA).2.1] at hfA
    rw [← (classify_snd_get?_some ds n dR hdR).2.1] at hfR
    refine ⟨doc, aks, rks, key, dA, dR, tag, fA, fR, hdoc, ha, hr, hout, hdA, hdR, hname, hrank,
      htag, hfA, hfR, ?_, ?_⟩
    · subst hname
      rw [CommentMarkdown.addedEntries, entries_filter_name_singleton _ _ hndA key hkey _
        (CommentMarkdown.addedEntry_updated_comment env _ _ key dA dR tag fA fR hdA hdR htag hfA
          hfR)]
    · rw [CommentMarkdown.removedEntries]
      apply entries_filter_name_nil
      intro k _ hk
      exact CommentMarkdown.removedEntry_skip_comment _ _ k dA (by rw [hk]; exact hdA)
  · intro assessment doc s hdoc hs
    obtain ⟨hc1, hc2⟩ := classify_replaceRemovedAssessment n assessment ds
    refine ⟨hc1, ?_, ?_, ?_⟩
    · intro aks
      rw [hc2, Output.addedEntries, Output.addedEntries, Output.addedEntry_mapValues]
    · intro aks
      rw [hc2, CommentMarkdown.addedEntries, CommentMarkdown.addedEntries,
        CommentMarkdown.addedEntry_mapValues_comment]
    · intro hrange
      exact ⟨fun out h => Output.render_replaced env ds base head n assessment doc s out hA hdoc hs
          hrange h,
        fun out h => CommentMarkdown.render_replaced_comment env ds base head n assessment doc s
          out hA hdoc hs hrange h⟩

/-- C11, witness: the update of `foo` in `updateInput`, and the same report after
the removed-side assessment of `foo` (score 9) is replaced by one that scores 1. -/
theorem update_entry_composition_witness :
    Sample.env.Valid ∧
    "foo" ∈ (classify Sample.updateInput).1.keys ∧
    "foo" ∈ (classify Sample.updateInput).2.keys ∧
    Output.dependencydiffResultsAsMarkdown Sample.env Sample.updateInput "main" "dev" =
      .ok Sample.updateReport ∧
    Sample.env.getAggregateScore (Sample.scored 1) () = .ok 1 ∧
    Sample.env.mapRange (classify (replaceRemovedAssessment "foo" (Sample.scored 1)
      Sample.updateInput)).2 = Sample.env.mapRange (classify Sample.updateInput).2 ∧
    Output.dependencydiffResultsAsMarkdown Sample.env
      (replaceRemovedAssessment "foo" (Sample.scored 1) Sample.updateInput) "main" "dev" =
        .ok Sample.updateReport ∧
    (∃ aks key newFragment oldFragment,
      getDependencySortKeys Sample.env (classify Sample.updateInput).1 = .ok aks ∧
      (Output.addedEntries (classify Sample.updateInput).1 (classify Sample.updateInput).2
          aks).filter (fun e => decide (e.1.dependencyName = "foo")) =
        [(key, addedTag ++ updatedTag ++ scoreTag key.aggregateScore ++ newFragment ++
          oldFragment)]) := by
  have h := update_entry_composition Sample.env Sample.env_valid Sample.updateInput "main" "dev"
    "foo" (by decide) (by decide)
  have h0 : Output.dependencydiffResultsAsMarkdown Sample.env Sample.updateInput "main" "dev" =
      .ok Sample.updateReport := by decide
  have hrange : Sample.env.mapRange (classify (replaceRemovedAssessment "foo" (Sample.scored 1)
      Sample.updateInput)).2 = Sample.env.mapRange (classify Sample.updateInput).2 := by decide
  refine ⟨Sample.env_valid, by decide, by decide, h0, rfl, hrange, ?_, ?_⟩
  · exact ((h.2.2 (Sample.scored 1) () 1 rfl rfl).2.2.2 hrange).1 Sample.updateReport h0
  · obtain ⟨_, aks, _, key, _, _, fA, fR, _, ha, _, _, _, _, _, _, _, _, he, _⟩ :=
      h.1 Sample.updateReport h0
    exact ⟨aks, key, fA, fR, ha, he⟩

/-! ## C12 -/

/-- The `packageAsMarkdown` of output.go panics exactly on a nil change kind. -/
theorem Output.packageAsMarkdown_panics_iff (name : String) (version srcRepo : Option String)
    (changeType : Option ChangeType) :
    Output.packageAsMarkdown name version srcRepo changeType = .error .nilDereference ↔
      changeType = none := by
  constructor
  · intro h
    cases changeType with
    | none => rfl
    | some ct =>
      obtain ⟨f, hf⟩ := Output.packageAsMarkdown_some_output name version srcRepo ct
      rw [hf] at h
      cases h
  · intro h
    rw [h]
    rfl

/-- Every sort key names a key of the map it was built from. -/
theorem sortKeys_name_mem (env : Env) (hv : env.Valid) (m : GoMap) (hm : m.WellKeyed)
    (keys : List scoreAndDependencyName) (h : getDependencySortKeys env m = .ok keys)
    (key : scoreAndDependencyName) (hkey : key ∈ keys) : key.dependencyName ∈ m.keys := by
  have hn := sortKeys_names env hv m hm keys h
  have : key.dependencyName ∈ keys.map (fun key => key.dependencyName) :=
    List.mem_map_of_mem _ hkey
  rw [hn] at this
  exact (hv m).mem_iff.mp this

/-- C12. Rendering (output.go) never dereferences a missing change kind and never
takes a defensive skip, whatever the input: every sort key of
`getDependencySortKeys` names a key of the map it was built from; every iteration
of the first loop finds its record in `added`, with the change kind Added, finds in
`removed` only a record with the change kind Removed, and appends an entry; every
iteration of the second loop finds its record in `removed`, with the change kind
Removed, and either skips a name of `added` or appends an entry; `packageAsMarkdown`
panics only on a nil change kind, and the call never ends in that panic. -/
theorem render_never_skips_defensively (env : Env) (hv : env.Valid)
    (ds : List DependencyCheckResult) (base head : String) :
    (∀ keys, getDependencySortKeys env (classify ds).1 = .ok keys →
      ∀ key ∈ keys, key.dependencyName ∈ (classify ds).1.keys) ∧
    (∀ keys, getDependencySortKeys env (classify ds).2 = .ok keys →
      ∀ key ∈ keys, key.dependencyName ∈ (classify ds).2.keys) ∧
    (∀ aks, getDependencySortKeys env (classify ds).1 = .ok aks →
      ∀ key ∈ sliceStable scoreGreater aks,
        ∃ newResult text, (classify ds).1.get? key.dependencyName = some newResult ∧
          newResult.ChangeType = some Added ∧
          (∀ oldResult, (classify ds).2.get? key.dependencyName = some oldResult →
            oldResult.ChangeType = some Removed) ∧
          Output.addedEntry (classify ds).1 (classify ds).2 key = .ok (some text)) ∧
    (∀ rks, getDependencySortKeys env (classify ds).2 = .ok rks →
      ∀ key ∈ sliceStable scoreGreater rks,
        ∃ oldResult, (classify ds).2.get? key.dependencyName = some oldResult ∧
          oldResult.ChangeType = some Removed ∧
          (key.dependencyName ∈ (classify ds).1.keys →
            Output.removedEntry (classify ds).1 (classify ds).2 key = .ok none) ∧
          (key.dependencyName ∉ (classify ds).1.keys →
            ∃ text, Output.removedEntry (classify ds).1 (classify ds).2 key =
              .ok (some text))) ∧
    (∀ name version srcRepo changeType,
      Output.packageAsMarkdown name version srcRepo changeType = .error .nilDereference ↔
        changeType = none) ∧
    Output.dependencydiffResultsAsMarkdown env ds base head ≠ .error .nilDereference := by
  refine ⟨?_, ?_, ?_, ?_, Output.packageAsMarkdown_panics_iff, ?_⟩
  · intro keys h key hkey
    exact sortKeys_name_mem env hv _ (classify_fst_wellKeyed ds) keys h key hkey
  · intro keys h key hkey
    exact sortKeys_name_mem env hv _ (classify_snd_wellKeyed ds) keys h key hkey
  · intro aks ha key hkey
    obtain ⟨_, _, _, hk⟩ := sortedKeys_facts env hv _ (classify_fst_wellKeyed ds) aks ha
    obtain ⟨d, hd, _⟩ := hk key hkey
    have hct := (classify_fst_get?_some ds _ d hd).2.1
    have hold : ∀ oldResult, (classify ds).2.get? key.dependencyName = some oldResult →
        oldResult.ChangeType = some Removed :=
      fun dR hdR => (classify_snd_get?_some ds _ dR hdR).2.1
    obtain ⟨text, ht⟩ := Output.addedEntry_emits_output _ _ key d hd hct hold
    exact ⟨d, text, hd, hct, hold, ht⟩
  · intro rks hr key hkey
    obtain ⟨_, _, _, hk⟩ := sortedKeys_facts env hv _ (classify_snd_wellKeyed ds) rks hr
    obtain ⟨d, hd, _⟩ := hk key hkey
    have hct := (classify_snd_get?_some ds _ d hd).2.1
    refine ⟨d, hd, hct, ?_, ?_⟩
    · intro hA
      obtain ⟨dA, hdA⟩ := GoMap.exists_get?_of_mem_keys _ _ hA
      exact Output.removedEntry_skip_output _ _ key dA hdA
    · intro hA
      have hdA := (GoMap.get?_eq_none_iff _ _).mpr hA
      obtain ⟨f, hf⟩ :=
        Output.packageAsMarkdown_some_output d.Name d.Version d.SourceRepository Removed
      rw [← hct] at hf
      exact ⟨_, Output.removedEntry_removed_output _ _ key d f hdA hd hf⟩
  · intro h
    rcases Output.render_total_output env ds base head with ⟨out, ho⟩ | ⟨msg, hmsg⟩
    · rw [ho] at h
      cases h
    · rw [hmsg] at h
      cases h

/-- C12, witness: an input with a record without change kind, an added `foo` and a
removed `bar`; the kind-less record is in neither map and nothing is skipped. -/
theorem render_never_skips_defensively_witness :
    Sample.env.Valid ∧
    getDependencySortKeys Sample.env (classify Sample.mixedInput).1 = .ok [⟨"foo", 5⟩] ∧
    getDependencySortKeys Sample.env (classify Sample.mixedInput).2 = .ok [⟨"bar", negInf⟩] ∧
    (∀ key ∈ [(⟨"foo", 5⟩ : scoreAndDependencyName)],
      key.dependencyName ∈ (classify Sample.mixedInput).1.keys) ∧
    (∀ key ∈ sliceStable scoreGreater [(⟨"bar", negInf⟩ : scoreAndDependencyName)],
      ∃ oldResult, (classify Sample.mixedInput).2.get? key.dependencyName = some oldResult ∧
        oldResult.ChangeType = some Removed) ∧
    Output.dependencydiffResultsAsMarkdown Sample.env Sample.mixedInput "main" "dev" ≠
      .error .nilDereference := by
  have h := render_never_skips_defensively Sample.env Sample.env_valid Sample.mixedInput "main"
    "dev"
  have ha : getDependencySortKeys Sample.env (classify Sample.mixedInput).1 =
      .ok [⟨"foo", 5⟩] := by decide
  have hr : getDependencySortKeys Sample.env (classify Sample.mixedInput).2 =
      .ok [⟨"bar", negInf⟩] := by decide
  refine ⟨Sample.env_valid, ha, hr, h.1 _ ha, ?_, h.2.2.2.2.2⟩
  intro key hkey
  obtain ⟨d, hd, hct, _⟩ := h.2.2.2.1 _ hr key hkey
  exact ⟨d, hd, hct⟩

end DependencyDiff
